import Mathlib

/-!
Verification development for the plot discovery/caching/refresh engine of
`src/chia/plotting/manager.py` (Hydrangea blockchain, plot manager core).

The Python source is shallowly embedded: pure functions become Lean functions,
methods that mutate `self` become functions from the manager state to a new
state, Python exceptions become `Except` values (with the partially mutated
state carried alongside an error, matching Python semantics where mutations
performed before a raise survive the raise), and `time.time()` becomes an
explicit rational `now` argument threaded through each call.

Opaque collaborators that live outside `src/` (BLS keys, the chiapos
`DiskProver`, streamable serialization, `parse_plot_info`, the expected plot
size formula, batching) are modelled from the spec, as documented on each
definition.
-/

namespace PlotModel

/-- A file path as used by `manager.py` through `pathlib.Path`: the manager
only ever consumes `file_path.name`, `file_path.parent` and rebuilds paths as
`Path(directory) / filename`, so a path is modelled as a parent directory
string plus a file name string. -/
structure PathT where
  parent : String
  name : String
deriving DecidableEq, Repr

/-- Modelled from the spec: BLS G1 public keys are opaque key material the
core only compares for equality and membership; represented by naturals. -/
abbrev G1Element := Nat

/-- Modelled from the spec: 32-byte puzzle hashes are opaque; naturals. -/
abbrev Bytes32 := Nat

/-- Modelled from the spec: BLS private keys are opaque; naturals. -/
abbrev PrivateKey := Nat

/-- The Python exceptions the embedded code can raise or catch.
`Cache.load` distinguishes `FileNotFoundError` from everything else;
all of these derive from Python's `Exception` and are caught by a bare
`except Exception`. -/
inductive PyExn where
  | fileNotFoundError
  | valueError
  | assertionError
  | keyError
  | genericError
deriving DecidableEq, Repr

/-- Modelled from the spec: the triple returned by the opaque key-derivation
capability `derive(memo_bytes) -> (pool_public_key_or_puzzle_hash,
farmer_public_key, local_master_secret)`; the first component is either a
pool public key or a pool contract puzzle hash. -/
structure ParsedPlotInfo where
  pool_public_key_or_puzzle_hash : G1Element ⊕ Bytes32
  farmer_public_key : G1Element
  local_master_sk : PrivateKey
deriving DecidableEq, Repr

/-- Modelled from the spec: a memo is an opaque embedded blob that either
parses to the key triple or makes the parser raise; it is represented by its
parse outcome. -/
abbrev Memo := Option ParsedPlotInfo

/-- Modelled from the spec: `parse_plot_info` (chia/plotting/util.py, not
under src/) parses a memo blob and raises on malformed input. -/
def parse_plot_info (memo : Memo) : Except PyExn ParsedPlotInfo :=
  match memo with
  | some parsed => .ok parsed
  | none => .error .valueError

/-- Modelled from the spec: `master_sk_to_local_sk` (wallet key-derivation
capability, not under src/); an opaque deterministic derivation. -/
def master_sk_to_local_sk (sk : PrivateKey) : PrivateKey :=
  2 * sk + 1

/-- Modelled from the spec: a secret key's public key (opaque primitive). -/
def sk_get_g1 (sk : PrivateKey) : G1Element :=
  sk + 1

/-- Modelled from the spec: `ProofOfSpace.generate_plot_public_key`
(not under src/); an opaque deterministic combination of the local public
key, the farmer public key and the pool-contract flag. -/
def generate_plot_public_key (local_pk : G1Element) (farmer_pk : G1Element)
    (pool_contract : Bool) : G1Element :=
  Nat.pair (Nat.pair local_pk farmer_pk) (cond pool_contract 1 0)

/-- The chiapos `DiskProver` handle as consumed by `manager.py`: the code
calls `get_filename()`, `get_size()` and `get_memo()` on it and round-trips
it through `bytes(prover)` / `DiskProver.from_bytes`. A freshly opened
prover carries the path it was opened at as its filename. The byte
serialization is opaque and faithful, so the handle is represented by the
data it exposes. -/
structure DiskProver where
  filename : PathT
  k : Nat
  memo : Memo
deriving DecidableEq, Repr

/-- `CacheKeys` from manager.py (farmer/pool/contract/plot key material);
`bytes(keys)` / `CacheKeys.from_bytes` round-trips it, so the serialized
form is represented by the record itself. -/
structure CacheKeys where
  farmer_public_key : G1Element
  pool_public_key : Option G1Element
  pool_contract_puzzle_hash : Option Bytes32
  plot_public_key : G1Element
deriving DecidableEq, Repr

/-- `CacheEntry` from manager.py: an opened prover, the derived key
material, and a float `last_use` timestamp (rationals model floats). -/
structure CacheEntry where
  prover : DiskProver
  keys : CacheKeys
  last_use : ℚ
deriving DecidableEq, Repr

/-- `CacheEntry.bump_last_use`: sets `last_use` to the current time. -/
def CacheEntry.bump_last_use (e : CacheEntry) (now : ℚ) : CacheEntry :=
  { e with last_use := now }

/-- `CacheEntry.expired`: `time.time() - self.last_use > expiry_seconds`. -/
def CacheEntry.expired (e : CacheEntry) (now : ℚ) (expiry_seconds : Nat) : Bool :=
  decide (now - e.last_use > (expiry_seconds : ℚ))

/-- `DiskCacheEntry` from manager.py: `(prover_data: bytes, keys, last_use:
uint64)`; `prover_data` holds `bytes(prover)`, represented by the prover. -/
structure DiskCacheEntry where
  prover_data : DiskProver
  keys : CacheKeys
  last_use : Nat
deriving DecidableEq, Repr

/-- `DiskCache` from manager.py: `(version: uint16, data: List[(path,
DiskCacheEntry)])`. Paths are persisted as `str(path)` and re-read through
`Path(path)`; for the absolute paths the manager uses this conversion is a
faithful round trip, so the stored string is represented by the path. -/
structure DiskCache where
  version : Nat
  data : List (PathT × DiskCacheEntry)
deriving DecidableEq, Repr

/-- `CURRENT_VERSION` from manager.py. -/
def CURRENT_VERSION : Nat := 1

/-! Association-list helpers standing in for Python `dict` (insertion
ordered, unique keys) as held on the manager and the cache. -/

/-- `d.get(k)` on an insertion-ordered association list. -/
def alookup {α β : Type} [DecidableEq α] (k : α) : List (α × β) → Option β
  | [] => none
  | (a, b) :: t => if a = k then some b else alookup k t

/-- `d[k] = v`: replace in place if the key exists, else append (Python
dict assignment preserves insertion order). -/
def aset {α β : Type} [DecidableEq α] (k : α) (v : β) : List (α × β) → List (α × β)
  | [] => [(k, v)]
  | (a, b) :: t => if a = k then (k, v) :: t else (a, b) :: aset k v t

/-- `del d[k]`: drop the first binding of `k`. -/
def aerase {α β : Type} [DecidableEq α] (k : α) : List (α × β) → List (α × β)
  | [] => []
  | (a, b) :: t => if a = k then t else (a, b) :: aerase k t

/-- `s.add(x)` on a Python set modelled as a duplicate-free list. -/
def sinsert {α : Type} [DecidableEq α] (a : α) (l : List α) : List α :=
  if a ∈ l then l else a :: l

/-- `s.remove(x)` on a Python set modelled as a duplicate-free list. -/
def sdel {α : Type} [DecidableEq α] (a : α) : List α → List α
  | [] => []
  | x :: t => if x = a then t else x :: sdel a t

/-- The `Cache` object's mutable state: `_data` (dict from path to entry,
insertion ordered) and the `_changed` dirty flag. The cache-file path held
by the object only locates the file on disk and is modelled out. -/
structure Cache where
  data : List (PathT × CacheEntry)
  changed : Bool
deriving DecidableEq, Repr

/-- `Cache.__init__`: empty data, dirty flag clear. -/
def Cache.init : Cache := { data := [], changed := false }

/-- `Cache.expiry_seconds = 7 * 24 * 60 * 60`: the 7-day retention window. -/
def Cache.expiry_seconds : Nat := 7 * 24 * 60 * 60

/-- `Cache.update(path, entry)`: upsert and mark dirty. -/
def Cache.update (c : Cache) (path : PathT) (entry : CacheEntry) : Cache :=
  { data := aset path entry c.data, changed := true }

/-- `Cache.remove(cache_keys)`: bulk delete, marking dirty for each key
actually present. -/
def Cache.remove (c : Cache) (cache_keys : List PathT) : Cache :=
  cache_keys.foldl
    (fun acc key =>
      if (alookup key acc.data).isSome then
        { data := aerase key acc.data, changed := true }
      else acc)
    c

/-- `Cache.get(path)`. -/
def Cache.get (c : Cache) (path : PathT) : Option CacheEntry :=
  alookup path c.data

/-- `uint64(int(last_use))`: Python `int()` truncates the nonnegative float
toward zero and `uint64` reduces modulo `2 ^ 64`. -/
def toUint64Floor (t : ℚ) : Nat :=
  (Int.toNat ⌊t⌋) % 2 ^ 64

/-- `Cache.save`, the serialization part: builds the `DiskCache` snapshot
written to disk (version `CURRENT_VERSION`, one `DiskCacheEntry` per cached
path, `last_use` truncated to whole seconds). The surrounding try/except
and the file write itself are I/O; on success the dirty flag clears. -/
def Cache.saveSnapshot (c : Cache) : DiskCache :=
  { version := CURRENT_VERSION % 2 ^ 16
    data := c.data.map fun pe =>
      (pe.1, { prover_data := pe.2.prover, keys := pe.2.keys,
               last_use := toUint64Floor pe.2.last_use }) }

/-- The on-disk cache file as seen by `Cache.load`: the file can be absent
(`FileNotFoundError` on read), or present with a leading `u16` version field
that is unreadable, or readable but followed by a body that fails to
deserialize, or a well-formed `DiskCache` snapshot. Modelled from the spec's
persisted-cache-file format (the streamable codec is not under src/). -/
inductive CacheFileBytes where
  | wellFormed (dc : DiskCache)
  | badBody (version : Nat)
  | garbage
deriving DecidableEq, Repr

/-- `uint16.from_bytes(serialized[0:2])`: reads the leading version field,
raising when even that much cannot be decoded. -/
def readVersionField : CacheFileBytes → Except PyExn Nat
  | .wellFormed dc => .ok (dc.version % 2 ^ 16)
  | .badBody v => .ok (v % 2 ^ 16)
  | .garbage => .error .valueError

/-- `DiskCache.from_bytes(serialized)`: full deserialization, raising on
anything but a well-formed snapshot. -/
def diskCacheFromBytes : CacheFileBytes → Except PyExn DiskCache
  | .wellFormed dc => .ok dc
  | .badBody _ => .error .valueError
  | .garbage => .error .valueError

/-- The body of the `try` block in `Cache.load`: read the file (absent file
raises `FileNotFoundError`), read the version field, and either replace
`_data` with the deserialized entries (matching version) or raise
`ValueError` (mismatched version). -/
def Cache.loadBody (c : Cache) (file : Option CacheFileBytes) : Except PyExn Cache :=
  match file with
  | none => .error .fileNotFoundError
  | some serialized =>
    match readVersionField serialized with
    | .error e => .error e
    | .ok version =>
      if version = CURRENT_VERSION then
        match diskCacheFromBytes serialized with
        | .error e => .error e
        | .ok stored =>
          .ok { c with data := stored.data.map fun pe =>
            (pe.1, { prover := pe.2.prover_data, keys := pe.2.keys,
                     last_use := (pe.2.last_use : ℚ) }) }
      else .error .valueError

/-- `Cache.load` with its two `except` clauses made explicit:
`FileNotFoundError` is logged at debug level and swallowed, and every other
exception is logged and swallowed, so the caller always receives a state and
never an exception. -/
def Cache.loadChecked (c : Cache) (file : Option CacheFileBytes) : Except PyExn Cache :=
  match Cache.loadBody c file with
  | .ok c1 => .ok c1
  | .error .fileNotFoundError => .ok c
  | .error _ => .ok c

/-- `Cache.load` as the total state transformer the caller observes. -/
def Cache.load (c : Cache) (file : Option CacheFileBytes) : Cache :=
  match Cache.loadChecked c file with
  | .ok c1 => c1
  | .error _ => c

/-- Modelled from the spec: the recognized refresh options (interval,
batch size, retry backoff seconds); the `PlotsRefreshParameter` dataclass
itself lives in chia/plotting/util.py, not under src/. -/
structure PlotsRefreshParameter where
  interval_seconds : Nat
  retry_invalid_seconds : Nat
  batch_size : Nat
deriving DecidableEq, Repr

/-- The two fields of `os.stat_result` the manager reads. -/
structure StatResult where
  st_size : Nat
  st_mtime : ℚ
deriving DecidableEq, Repr

/-- Modelled from the spec: `PlotInfo` (the published PlotRecord, defined
in chia/plotting/util.py, not under src/) with exactly the fields
`post_process_file` fills in. -/
structure PlotInfo where
  prover : DiskProver
  pool_public_key : Option G1Element
  pool_contract_puzzle_hash : Option Bytes32
  plot_public_key : G1Element
  file_size : Nat
  time_modified : ℚ
deriving DecidableEq, Repr

/-- Modelled from the spec: the structured refresh result
`{loaded, removed, processed, remaining, duration}` delivered to the
observer (`PlotRefreshResult`, chia/plotting/util.py, not under src/). -/
structure PlotRefreshResult where
  loaded : List PlotInfo
  removed : List PathT
  processed : Nat
  remaining : Nat
  duration : ℚ
deriving DecidableEq, Repr

/-- `PlotRefreshResult()` with dataclass defaults. -/
def PlotRefreshResult.empty : PlotRefreshResult :=
  { loaded := [], removed := [], processed := 0, remaining := 0, duration := 0 }

/-- `PreProcessingResult` from manager.py. -/
structure PreProcessingResult where
  path : PathT
  cache_entry : Option CacheEntry
  stat_info : Option StatResult
  prover : Option DiskProver
  duration : ℚ
deriving DecidableEq, Repr

/-- The `PlotManager` object's mutable state. Locks, thread handles, the
callback reference and the worker pools are concurrency plumbing and are
modelled out; `_refreshing_enabled` is kept because the pipeline branches
on it. -/
structure PlotManager where
  plots : List (PathT × PlotInfo)
  plot_filename_paths : List (String × String × List String)
  failed_to_open_filenames : List (PathT × Int)
  no_key_filenames : List PathT
  farmer_public_keys : List G1Element
  pool_public_keys : List G1Element
  cache : Cache
  match_str : Option String
  open_no_key_filenames : Bool
  last_refresh_time : ℚ
  refresh_parameter : PlotsRefreshParameter
  refreshing_enabled : Bool
  initial : Bool
deriving DecidableEq, Repr

/-- `PlotManager.__init__` (state fields only). -/
def PlotManager.init (match_str : Option String) (open_no_key_filenames : Bool)
    (refresh_parameter : PlotsRefreshParameter) : PlotManager :=
  { plots := [], plot_filename_paths := [], failed_to_open_filenames := []
    no_key_filenames := [], farmer_public_keys := [], pool_public_keys := []
    cache := Cache.init, match_str := match_str
    open_no_key_filenames := open_no_key_filenames, last_refresh_time := 0
    refresh_parameter := refresh_parameter, refreshing_enabled := false
    initial := true }

/-- `PlotManager.reset`: stamps `last_refresh_time` with the current time,
clears the plot map, the duplicate registry, the failure registry and the
no-key registry, and re-arms the initial-refresh flag. The cache and the
configured keys survive. -/
def PlotManager.reset (self : PlotManager) (now : ℚ) : PlotManager :=
  { self with
    last_refresh_time := now, plots := [], plot_filename_paths := [],
    failed_to_open_filenames := [], no_key_filenames := [], initial := true }

/-- `PlotManager.set_public_keys`. -/
def PlotManager.set_public_keys (self : PlotManager) (farmer_public_keys : List G1Element)
    (pool_public_keys : List G1Element) : PlotManager :=
  { self with farmer_public_keys := farmer_public_keys, pool_public_keys := pool_public_keys }

/-- `PlotManager.needs_refresh`:
`time.time() - last_refresh_time > float(interval_seconds)`. -/
def PlotManager.needs_refresh (self : PlotManager) (now : ℚ) : Bool :=
  decide (now - self.last_refresh_time > (self.refresh_parameter.interval_seconds : ℚ))

/-- `PlotManager.trigger_refresh`: zeroes the refresh timestamp so the
next loop iteration starts a cycle immediately. -/
def PlotManager.trigger_refresh (self : PlotManager) : PlotManager :=
  { self with last_refresh_time := 0 }

/-- `PlotManager.get_duplicates`: every duplicated directory of every
tracked filename, rebuilt as full paths. -/
def PlotManager.get_duplicates (self : PlotManager) : List PathT :=
  self.plot_filename_paths.flatMap fun entry =>
    entry.2.2.map fun path => PathT.mk path entry.1

/-- `str(file_path)` for an absolute path. -/
def PathT.str (p : PathT) : String :=
  p.parent ++ "/" ++ p.name

/-- Python `needle in hay` substring containment on strings. -/
def strContains (hay needle : String) : Bool :=
  decide (needle.toList <:+: hay.toList)

/-- What the filesystem holds at one path: the stat fields plus, when the
file is a structurally openable plot, its size parameter and memo
(`openable = none` models a missing-on-open or corrupt file for which
`DiskProver(path)` raises). -/
structure FileData where
  st_size : Nat
  st_mtime : ℚ
  openable : Option (Nat × Memo)
deriving DecidableEq, Repr

/-- The candidate files on disk, keyed by path. Modelled from the spec:
the directory enumeration capability (`get_plot_filenames`, not under
src/) returns exactly these paths. -/
abbrev FileSystem := List (PathT × FileData)

/-- `file_path.stat()` followed by `DiskProver(str(file_path))`: fails when
the path is gone or the plot is not structurally openable; a fresh prover
carries the opened path as its filename. -/
def openProver (fs : FileSystem) (p : PathT) : Except PyExn (StatResult × DiskProver) :=
  match alookup p fs with
  | none => .error .fileNotFoundError
  | some fd =>
    match fd.openable with
    | none => .error .genericError
    | some km => .ok ({ st_size := fd.st_size, st_mtime := fd.st_mtime },
                      { filename := p, k := km.1, memo := km.2 })

/-- Modelled from the spec: `_expected_plot_size`
(chia/consensus/pos_quality.py, not under src/), the expected on-disk byte
count for a declared size parameter `k`. -/
def _expected_plot_size (k : Nat) : ℚ :=
  ((2 * k + 1) : ℚ) * 2 ^ (k - 1)

/-- Modelled from the spec: `UI_ACTUAL_SPACE_CONSTANT_FACTOR`
(chia/consensus/pos_quality.py, not under src/). -/
def UI_ACTUAL_SPACE_CONSTANT_FACTOR : ℚ := 78 / 100

/-- The path-filter guard of `pre_process_file`:
`self.match_str is not None and self.match_str not in filename_str`. -/
def matchRejects (ms : Option String) (p : PathT) : Bool :=
  match ms with
  | some m => !strContains p.str m
  | none => false

/-- The retry-backoff guard of `pre_process_file`: the path failed to open
before, less than `retry_invalid_seconds` ago. -/
def backoffActive (failed : List (PathT × Int)) (retry : Nat) (now : ℚ) (p : PathT) : Bool :=
  match alookup p failed with
  | some t => decide (now - (t : ℚ) < (retry : ℚ))
  | none => false

/-- The duplicate guard of `pre_process_file`: the path's filename is
tracked and this path's directory is among its recorded duplicates. -/
def duplicateSkip (pfp : List (String × String × List String)) (p : PathT) : Bool :=
  match alookup p.name pfp with
  | some entry => decide (p.parent ∈ entry.2)
  | none => false

/-- The undersized still-being-written guard of `pre_process_file`:
`prover.get_size() >= 30 and stat_info.st_size < 0.98 * expected_size`. -/
def undersized (k : Nat) (st_size : Nat) : Prop :=
  30 ≤ k ∧ (st_size : ℚ) < 98 / 100 * (_expected_plot_size k * UI_ACTUAL_SPACE_CONSTANT_FACTOR)

instance (k st_size : Nat) : Decidable (undersized k st_size) :=
  inferInstanceAs (Decidable (_ ∧ _))

/-- `PlotManager.pre_process_file`: the short-circuiting preprocessing
chain. Returns the `PreProcessingResult` together with the manager state,
whose failure registry the step may have extended (the only mutation this
stage performs). -/
def PlotManager.pre_process_file (self : PlotManager) (fs : FileSystem) (now : ℚ)
    (file_path : PathT) : PreProcessingResult × PlotManager :=
  let result : PreProcessingResult :=
    { path := file_path, cache_entry := none, stat_info := none, prover := none, duration := 0 }
  if self.refreshing_enabled = false then (result, self)
  else if matchRejects self.match_str file_path then (result, self)
  else if backoffActive self.failed_to_open_filenames
      self.refresh_parameter.retry_invalid_seconds now file_path then (result, self)
  else if (alookup file_path self.plots).isSome then (result, self)
  else if duplicateSkip self.plot_filename_paths file_path then (result, self)
  else
    match openProver fs file_path with
    | .error _ =>
      let failed1 := aset file_path ⌊now⌋ self.failed_to_open_filenames
      (result, { self with failed_to_open_filenames := failed1 })
    | .ok si_prover =>
      let stat_info := si_prover.1
      let prover := si_prover.2
      if undersized prover.k stat_info.st_size then
        (result, self)
      else
        ({ path := file_path, cache_entry := self.cache.get file_path
           stat_info := some stat_info, prover := some prover, duration := 0 }, self)

/-- Models the in-place `cache_entry.bump_last_use()` inside
`post_process_file`: the entry object passed in is the very object the
cache dict holds for `file_path` at every call site (the cache-hit entry
came from `cache.get`, the cache-miss entry was just `cache.update`d), so
the mutation shows up in the cache; the dirty flag is untouched because
only a field of a stored object changes. -/
def bumpSharedEntry (c : Cache) (file_path : PathT) (entry : CacheEntry) (now : ℚ) : Cache :=
  if (alookup file_path c.data).isSome then
    { c with data := aset file_path (entry.bump_last_use now) c.data }
  else c

/-- The tail of `post_process_file`, from the `plot_filename_paths_lock`
block on: duplicate detection keyed by filename, and — for a fresh
filename — registration, construction of the published `PlotInfo`, cache
bump and failure-registry cleanup. -/
def postProcessRegister (s3 : PlotManager) (now : ℚ) (file_path : PathT)
    (stat_info : StatResult) (cache_entry : CacheEntry) : Option PlotInfo × PlotManager :=
  match alookup file_path.name s3.plot_filename_paths with
  | some entry =>
    let pfp1 := aset file_path.name
      (entry.1, sinsert cache_entry.prover.filename.parent entry.2)
      s3.plot_filename_paths
    let s4 := { s3 with plot_filename_paths := pfp1 }
    (none, s4)
  | none =>
    let pfp1 := aset file_path.name (cache_entry.prover.filename.parent, [])
      s3.plot_filename_paths
    let s4 := { s3 with plot_filename_paths := pfp1 }
    let new_plot_info : PlotInfo :=
      { prover := cache_entry.prover
        pool_public_key := cache_entry.keys.pool_public_key
        pool_contract_puzzle_hash := cache_entry.keys.pool_contract_puzzle_hash
        plot_public_key := cache_entry.keys.plot_public_key
        file_size := stat_info.st_size
        time_modified := stat_info.st_mtime }
    let s5 := { s4 with cache := bumpSharedEntry s4.cache file_path cache_entry now }
    let s6 := if (alookup file_path s5.failed_to_open_filenames).isSome then
        { s5 with failed_to_open_filenames :=
            aerase file_path s5.failed_to_open_filenames }
      else s5
    (some new_plot_info, s6)

/-- `PlotManager.post_process_file`: key-ownership checks feeding the
no-key registry, the passed-checks cleanup of that registry, then the
duplicate-detection/publication tail (`postProcessRegister`). -/
def PlotManager.post_process_file (self : PlotManager) (now : ℚ) (file_path : PathT)
    (stat_info : StatResult) (cache_entry : CacheEntry) : Option PlotInfo × PlotManager :=
  let farmerBad : Bool := decide (cache_entry.keys.farmer_public_key ∉ self.farmer_public_keys)
  let s1 := if farmerBad then
      { self with no_key_filenames := sinsert file_path self.no_key_filenames }
    else self
  if farmerBad && !self.open_no_key_filenames then (none, s1)
  else
    let poolBad : Bool := match cache_entry.keys.pool_public_key with
      | some pk => decide (pk ∉ s1.pool_public_keys)
      | none => false
    let s2 := if poolBad then
        { s1 with no_key_filenames := sinsert file_path s1.no_key_filenames }
      else s1
    if poolBad && !s2.open_no_key_filenames then (none, s2)
    else
      let s3 := if file_path ∈ s2.no_key_filenames then
          { s2 with no_key_filenames := sdel file_path s2.no_key_filenames }
        else s2
      postProcessRegister s3 now file_path stat_info cache_entry

/-- `PlotManager.process_memo`, the CPU-pool worker: parses the memo,
splits the pool key / pool contract alternatives, derives the local key and
the plot public key, and returns `(file_path, bytes(keys))`. The second
component is typed `Option` because `refresh_batch` reads it as
`bytes | None`; as written the function never produces `none` — a parse or
derivation failure raises out of the worker instead of being converted to a
sentinel. -/
def process_memo (file_path : PathT) (memo : Memo) : Except PyExn (PathT × Option CacheKeys) :=
  match parse_plot_info memo with
  | .error e => .error e
  | .ok parsed =>
    let pool_public_key : Option G1Element :=
      match parsed.pool_public_key_or_puzzle_hash with
      | .inl pk => some pk
      | .inr _ => none
    let pool_contract_puzzle_hash : Option Bytes32 :=
      match parsed.pool_public_key_or_puzzle_hash with
      | .inl _ => none
      | .inr h => some h
    let local_sk := master_sk_to_local_sk parsed.local_master_sk
    let plot_public_key : G1Element :=
      generate_plot_public_key (sk_get_g1 local_sk) parsed.farmer_public_key
        pool_contract_puzzle_hash.isSome
    .ok (file_path, some
      { farmer_public_key := parsed.farmer_public_key
        pool_public_key := pool_public_key
        pool_contract_puzzle_hash := pool_contract_puzzle_hash
        plot_public_key := plot_public_key })

/-- `self._process_pool.starmap(PlotManager.process_memo, process_args)`:
the bulk decode call. `Pool.starmap` collects every worker's return value
and re-raises a worker's exception in the caller, so one raising worker
makes the whole call raise and no sibling result is delivered. -/
def starmapProcessMemo : List (PathT × Memo) → Except PyExn (List (PathT × Option CacheKeys))
  | [] => .ok []
  | pm :: rest =>
    match process_memo pm.1 pm.2 with
    | .error e => .error e
    | .ok r =>
      match starmapProcessMemo rest with
      | .error e => .error e
      | .ok rs => .ok (r :: rs)

/-- The accumulator of the first `refresh_batch` loop: bulk-decode
arguments, the per-path stat and prover side tables, the batch's pending
plot map updates, the loaded list of the running `PlotRefreshResult`, and
the manager state. -/
structure BatchPhase1 where
  process_args : List (PathT × Memo)
  stat_infos : List (PathT × StatResult)
  provers : List (PathT × DiskProver)
  plots_refreshed : List (PathT × PlotInfo)
  loaded : List PlotInfo
  state : PlotManager

/-- The first `refresh_batch` loop: partition preprocessing results into
cache misses (queued for bulk decode, with their stat/prover recorded) and
cache hits (postprocessed immediately). The `assert pre_result.prover is
not None` on the cache-miss path is the `AssertionError` case. -/
def refreshBatchPhase1 (now : ℚ) : BatchPhase1 → List PreProcessingResult →
    Except (PyExn × PlotManager) BatchPhase1
  | acc, [] => .ok acc
  | acc, pre_result :: rest =>
    match pre_result.stat_info with
    | none => refreshBatchPhase1 now acc rest
    | some si =>
      match pre_result.cache_entry with
      | none =>
        match pre_result.prover with
        | none => .error (.assertionError, acc.state)
        | some prover =>
          refreshBatchPhase1 now
            { acc with
              process_args := acc.process_args ++ [(pre_result.path, prover.memo)],
              stat_infos := aset pre_result.path si acc.stat_infos,
              provers := aset pre_result.path prover acc.provers } rest
      | some cache_entry =>
        let out := acc.state.post_process_file now pre_result.path si cache_entry
        match out.1 with
        | some info =>
          refreshBatchPhase1 now
            { acc with
              state := out.2,
              plots_refreshed := aset pre_result.path info acc.plots_refreshed,
              loaded := acc.loaded ++ [info] } rest
        | none => refreshBatchPhase1 now { acc with state := out.2 } rest

/-- The second `refresh_batch` loop, over the bulk-decode results: a `None`
result registers a failure, a decoded result builds a fresh `CacheEntry`
from the recorded prover (`provers[path]`, a `KeyError` if absent), stores
it in the cache and postprocesses with the recorded stat info
(`stat_infos[path]`, likewise). -/
def refreshBatchPhase2 (now : ℚ) (stat_infos : List (PathT × StatResult))
    (provers : List (PathT × DiskProver)) :
    PlotManager → List (PathT × PlotInfo) → List PlotInfo →
    List (PathT × Option CacheKeys) →
    Except (PyExn × PlotManager) (List (PathT × PlotInfo) × List PlotInfo × PlotManager)
  | s, plots_refreshed, loaded, [] => .ok (plots_refreshed, loaded, s)
  | s, plots_refreshed, loaded, (path, result_bytes) :: rest =>
    match result_bytes with
    | none =>
      let failed1 := aset path ⌊now⌋ s.failed_to_open_filenames
      let s1 := { s with failed_to_open_filenames := failed1 }
      refreshBatchPhase2 now stat_infos provers s1 plots_refreshed loaded rest
    | some keys =>
      match alookup path provers with
      | none => .error (.keyError, s)
      | some prover =>
        let cache_entry : CacheEntry := { prover := prover, keys := keys, last_use := now }
        let s1 := { s with cache := s.cache.update path cache_entry }
        match alookup path stat_infos with
        | none => .error (.keyError, s1)
        | some si =>
          let out := s1.post_process_file now path si cache_entry
          match out.1 with
          | some info =>
            refreshBatchPhase2 now stat_infos provers out.2
              (aset path info plots_refreshed) (loaded ++ [info]) rest
          | none =>
            refreshBatchPhase2 now stat_infos provers out.2 plots_refreshed loaded rest

/-- `self.plots.update(plots_refreshed)`: batch publication of the accepted
records into the shared plot map (one lock acquisition, modelled out). -/
def updatePlots (plots : List (PathT × PlotInfo)) (plots_refreshed : List (PathT × PlotInfo)) :
    List (PathT × PlotInfo) :=
  plots_refreshed.foldl (fun acc kv => aset kv.1 kv.2 acc) plots

/-- `PlotManager.refresh_batch`: the two loops around the bulk decode call,
followed by batch publication. An exception anywhere (a raising decode
worker, the cache-miss assertion, a side-table `KeyError`) propagates to
the caller together with the state mutated so far. -/
def PlotManager.refresh_batch (self : PlotManager) (now : ℚ)
    (pre_processing_results : List PreProcessingResult) :
    Except (PyExn × PlotManager) (PlotRefreshResult × PlotManager) :=
  let acc0 : BatchPhase1 :=
    { process_args := [], stat_infos := [], provers := [],
      plots_refreshed := [], loaded := [], state := self }
  match refreshBatchPhase1 now acc0 pre_processing_results with
  | .error es => .error es
  | .ok acc =>
    match starmapProcessMemo acc.process_args with
    | .error e => .error (e, acc.state)
    | .ok process_memos_results =>
      match refreshBatchPhase2 now acc.stat_infos acc.provers acc.state
          acc.plots_refreshed acc.loaded process_memos_results with
      | .error es => .error es
      | .ok out =>
        let s1 := { out.2.2 with plots := updatePlots out.2.2.plots out.1 }
        .ok ({ loaded := out.2.1, removed := [],
               processed := pre_processing_results.length,
               remaining := 0, duration := 0 }, s1)

/-- The stale-entry diff at the start of a refresh cycle: walk
`plot_filename_paths`; an entry whose loaded plot is gone from disk is
dropped wholesale (its plot map entry deleted, the path reported as
removed); for a surviving entry, duplicated directories whose file is gone
are dropped and reported as removed. Returns the new duplicate registry,
the new plot map, and the removed paths in report order. -/
def removalDiff (plot_paths : List PathT) :
    List (String × String × List String) → List (PathT × PlotInfo) → List PathT →
    List (String × String × List String) × List (PathT × PlotInfo) × List PathT
  | [], plots, removed => ([], plots, removed)
  | (plot_filename, loaded_path, duplicated_paths) :: rest, plots, removed =>
    let loaded_plot : PathT := { parent := loaded_path, name := plot_filename }
    if loaded_plot ∉ plot_paths then
      let plots1 := if (alookup loaded_plot plots).isSome then aerase loaded_plot plots
        else plots
      removalDiff plot_paths rest plots1 (removed ++ [loaded_plot])
    else
      let paths_to_remove := duplicated_paths.filter
        (fun path => (PathT.mk path plot_filename) ∉ plot_paths)
      let duplicated1 := duplicated_paths.filter
        (fun path => (PathT.mk path plot_filename) ∈ plot_paths)
      let removed1 := removed ++ paths_to_remove.map (fun path => PathT.mk path plot_filename)
      let out := removalDiff plot_paths rest plots removed1
      ((plot_filename, loaded_path, duplicated1) :: out.1, out.2.1, out.2.2)

/-- Fuel-driven worker for `batchChunks`; the fuel starts at the list
length, which bounds the number of chunks. -/
def batchChunksAux {α : Type} (batch_size : Nat) : Nat → List α → List (List α)
  | 0, _ => []
  | _ + 1, [] => []
  | fuel + 1, x :: xs =>
    (x :: xs.take (batch_size - 1)) :: batchChunksAux batch_size fuel (xs.drop (batch_size - 1))

/-- Modelled from the spec: `list_to_batches`
(chia/util/generator_tools.py, not under src/) splits the candidate list
into fixed-size batches. Only the batches themselves matter here; the
remaining counts it also yields feed progress reporting. -/
def batchChunks {α : Type} (batch_size : Nat) (l : List α) : List (List α) :=
  batchChunksAux batch_size l.length l

/-- One batch's preprocessing pass: `pre_process_file` on each path in
order, threading the manager state (the real code runs these on the
I/O pool and collects the futures in submission order; within the
sequential model this is the same list of results). -/
def preProcessBatch (fs : FileSystem) (now : ℚ) :
    PlotManager → List PathT → List PreProcessingResult × PlotManager
  | s, [] => ([], s)
  | s, p :: rest =>
    let out := s.pre_process_file fs now p
    let outRest := preProcessBatch fs now out.2 rest
    (out.1 :: outRest.1, outRest.2)

/-- The batch loop of `_refresh_task`: preprocess and `refresh_batch` each
batch in turn, accumulating `loaded`, `processed` and `duration` into the
cycle's total result. -/
def runBatches (fs : FileSystem) (now : ℚ) :
    PlotManager → List (List PathT) → PlotRefreshResult →
    Except (PyExn × PlotManager) (PlotRefreshResult × PlotManager)
  | s, [], total => .ok (total, s)
  | s, batch :: rest, total =>
    let pre := preProcessBatch fs now s batch
    match pre.2.refresh_batch now pre.1 with
    | .error es => .error es
    | .ok out =>
      runBatches fs now out.2 rest
        { total with
          loaded := total.loaded ++ out.1.loaded,
          processed := total.processed + out.1.processed,
          duration := total.duration + out.1.duration }

/-- The cache-maintenance step at the end of `_refresh_task`: collect for
removal every entry that is expired and not in the plot map, bump
`last_use` of every entry that is in the plot map, then bulk-remove the
collected paths. -/
def refreshTaskCacheCleanup (plots : List (PathT × PlotInfo)) (now : ℚ) (cache : Cache) :
    Cache :=
  let remove_paths : List PathT :=
    (cache.data.filter fun pe =>
      pe.2.expired now Cache.expiry_seconds && (alookup pe.1 plots).isNone).map
      (fun pe => pe.1)
  let data1 := cache.data.map fun pe =>
    if pe.2.expired now Cache.expiry_seconds && (alookup pe.1 plots).isNone then pe
    else if (alookup pe.1 plots).isSome then (pe.1, pe.2.bump_last_use now)
    else pe
  Cache.remove { cache with data := data1 } remove_paths

/-- The body of one `try` block iteration of `_refresh_task` (one refresh
cycle, after the interval wait): enumerate the filesystem, drop stale
failure and no-key registry entries, run the removal diff, run every batch
through the pipeline, clear the initial flag, run cache maintenance,
persist the cache if dirty, and stamp `last_refresh_time`. Observer
callbacks are external and modelled out. An exception anywhere surfaces
with the partially mutated state, mirroring Python. -/
def runCycleBody (self : PlotManager) (fs : FileSystem) (now : ℚ) :
    Except (PyExn × PlotManager) (PlotRefreshResult × PlotManager) :=
  let plot_paths : List PathT := fs.map (fun pe => pe.1)
  let failed1 := self.failed_to_open_filenames.filter (fun pt => pt.1 ∈ plot_paths)
  let no_key1 := self.no_key_filenames.filter (fun p => p ∈ plot_paths)
  let diff := removalDiff plot_paths self.plot_filename_paths self.plots []
  let s1 := { self with
    failed_to_open_filenames := failed1, no_key_filenames := no_key1,
    plot_filename_paths := diff.1, plots := diff.2.1 }
  let total0 := { PlotRefreshResult.empty with removed := diff.2.2 }
  match runBatches fs now s1 (batchChunks s1.refresh_parameter.batch_size plot_paths) total0 with
  | .error es => .error es
  | .ok out =>
    let s2 := { out.2 with initial := false }
    let cache1 := refreshTaskCacheCleanup s2.plots now s2.cache
    let cache2 := if cache1.changed then { cache1 with changed := false } else cache1
    .ok (out.1, { s2 with cache := cache2, last_refresh_time := now })

/-- One iteration of the `while self._refreshing_enabled` loop of
`_refresh_task`, its try/except made explicit: a normal cycle yields the
new state; an exception anywhere in the cycle is caught, logged, and
answered by `reset()` on the state as the exception left it. The result is
always a plain state — nothing propagates to the loop's caller. -/
def refreshTaskStep (self : PlotManager) (fs : FileSystem) (now : ℚ) : PlotManager :=
  match runCycleBody self fs now with
  | .ok out => out.2
  | .error es => PlotManager.reset es.2 now

/-- The `_refresh_task` loop itself, driven by the filesystem/clock
snapshot of each successive cycle: it keeps stepping while refreshing is
enabled and stops only when disabled — never because a cycle failed. -/
def refreshLoop : PlotManager → List (FileSystem × ℚ) → PlotManager
  | s, [] => s
  | s, c :: rest =>
    if s.refreshing_enabled then refreshLoop (refreshTaskStep s c.1 c.2) rest else s

/-! Basic lemmas about the dict/set embedding. -/

section AssocLemmas

variable {α β γ : Type} [DecidableEq α]

theorem aset_cons_eq {k a : α} (v b : β) (t : List (α × β)) (h : a = k) :
    aset k v ((a, b) :: t) = (k, v) :: t := by
  simp [aset, h]

theorem aset_cons_ne {k a : α} (v b : β) (t : List (α × β)) (h : ¬ a = k) :
    aset k v ((a, b) :: t) = (a, b) :: aset k v t := by
  simp [aset, h]

theorem alookup_cons (p a : α) (b : β) (t : List (α × β)) :
    alookup p ((a, b) :: t) = if a = p then some b else alookup p t := rfl

theorem alookup_aset (k p : α) (v : β) (l : List (α × β)) :
    alookup p (aset k v l) = if k = p then some v else alookup p l := by
  induction l with
  | nil => simp [aset, alookup]
  | cons hd t ih =>
    obtain ⟨a, b⟩ := hd
    by_cases hak : a = k
    · subst hak
      rw [aset_cons_eq v b t rfl, alookup_cons, alookup_cons]
      by_cases hkp : a = p
      · simp [hkp]
      · simp [hkp]
    · rw [aset_cons_ne v b t hak, alookup_cons, alookup_cons]
      by_cases hap : a = p
      · have hkp : ¬ k = p := fun h => hak (h ▸ hap)
        simp [hap, hkp]
      · simp [hap, ih]

theorem mem_aset (x : α × β) (k : α) (v : β) (l : List (α × β)) :
    x ∈ aset k v l → x = (k, v) ∨ x ∈ l := by
  induction l with
  | nil =>
    intro h
    exact Or.inl (List.mem_singleton.mp h)
  | cons hd t ih =>
    obtain ⟨a, b⟩ := hd
    by_cases hak : a = k
    · rw [aset_cons_eq v b t hak]
      intro h
      rcases List.mem_cons.mp h with h1 | h1
      · exact Or.inl h1
      · exact Or.inr (List.mem_cons_of_mem _ h1)
    · rw [aset_cons_ne v b t hak]
      intro h
      rcases List.mem_cons.mp h with h1 | h1
      · exact Or.inr (h1 ▸ List.mem_cons_self _ _)
      · rcases ih h1 with h2 | h2
        · exact Or.inl h2
        · exact Or.inr (List.mem_cons_of_mem _ h2)

theorem mem_keys_aset (k p : α) (v : β) (l : List (α × β)) :
    p ∈ (aset k v l).map Prod.fst ↔ p = k ∨ p ∈ l.map Prod.fst := by
  induction l with
  | nil => simp [aset]
  | cons hd t ih =>
    obtain ⟨a, b⟩ := hd
    by_cases hak : a = k
    · rw [aset_cons_eq v b t hak]
      subst hak
      simp only [List.map_cons, List.mem_cons]
      tauto
    · rw [aset_cons_ne v b t hak]
      simp only [List.map_cons, List.mem_cons, ih]
      tauto

theorem nodup_keys_aset (k : α) (v : β) (l : List (α × β))
    (h : (l.map Prod.fst).Nodup) : ((aset k v l).map Prod.fst).Nodup := by
  induction l with
  | nil => simp [aset]
  | cons hd t ih =>
    obtain ⟨a, b⟩ := hd
    simp only [List.map_cons, List.nodup_cons] at h
    by_cases hak : a = k
    · rw [aset_cons_eq v b t hak]
      subst hak
      simp only [List.map_cons, List.nodup_cons]
      exact ⟨h.1, h.2⟩
    · rw [aset_cons_ne v b t hak]
      simp only [List.map_cons, List.nodup_cons]
      refine ⟨?_, ih h.2⟩
      intro hmem
      rcases (mem_keys_aset k a v t).mp hmem with h1 | h1
      · exact hak h1
      · exact h.1 h1

theorem aerase_sublist (k : α) (l : List (α × β)) : (aerase k l).Sublist l := by
  induction l with
  | nil => simp [aerase]
  | cons hd t ih =>
    obtain ⟨a, b⟩ := hd
    by_cases hak : a = k
    · simp only [aerase, if_pos hak]
      exact (List.sublist_cons_self _ _)
    · simp only [aerase, if_neg hak]
      exact ih.cons₂ _

theorem nodup_keys_aerase (k : α) (l : List (α × β))
    (h : (l.map Prod.fst).Nodup) : ((aerase k l).map Prod.fst).Nodup :=
  ((aerase_sublist k l).map Prod.fst).nodup h

theorem aerase_cons_eq {k a : α} (b : β) (t : List (α × β)) (h : a = k) :
    aerase k ((a, b) :: t) = t := by
  simp [aerase, h]

theorem aerase_cons_ne {k a : α} (b : β) (t : List (α × β)) (h : ¬ a = k) :
    aerase k ((a, b) :: t) = (a, b) :: aerase k t := by
  simp [aerase, h]

theorem alookup_aerase_ne (k p : α) (l : List (α × β)) (h : p ≠ k) :
    alookup p (aerase k l) = alookup p l := by
  induction l with
  | nil => simp [aerase]
  | cons hd t ih =>
    obtain ⟨a, b⟩ := hd
    by_cases hak : a = k
    · rw [aerase_cons_eq b t hak, alookup_cons]
      subst hak
      have hap : ¬ a = p := fun hc => h (hc ▸ rfl)
      simp [hap]
    · rw [aerase_cons_ne b t hak, alookup_cons, alookup_cons, ih]

theorem alookup_isSome_iff_mem (k : α) (l : List (α × β)) :
    (alookup k l).isSome ↔ k ∈ l.map Prod.fst := by
  induction l with
  | nil => simp [alookup]
  | cons hd t ih =>
    obtain ⟨a, b⟩ := hd
    rw [alookup_cons]
    simp only [List.map_cons, List.mem_cons]
    by_cases hak : a = k
    · simp [hak]
    · simp only [if_neg hak, ih]
      constructor
      · exact Or.inr
      · rintro (h | h)
        · exact absurd h.symm hak
        · exact h

theorem alookup_aerase_self (k : α) (l : List (α × β))
    (h : (l.map Prod.fst).Nodup) : alookup k (aerase k l) = none := by
  induction l with
  | nil => simp [aerase, alookup]
  | cons hd t ih =>
    obtain ⟨a, b⟩ := hd
    simp only [List.map_cons, List.nodup_cons] at h
    by_cases hak : a = k
    · rw [aerase_cons_eq b t hak]
      subst hak
      cases hl : alookup a t with
      | none => rfl
      | some v =>
        exfalso
        exact h.1 ((alookup_isSome_iff_mem a t).mp (by simp [hl]))
    · rw [aerase_cons_ne b t hak, alookup_cons]
      have hkp : ¬ a = k := hak
      simp only [hkp, if_false]
      exact ih h.2

theorem alookup_eq_some_mem {k : α} {v : β} {l : List (α × β)}
    (h : alookup k l = some v) : (k, v) ∈ l := by
  induction l with
  | nil => simp [alookup] at h
  | cons hd t ih =>
    obtain ⟨a, b⟩ := hd
    rw [alookup_cons] at h
    by_cases hak : a = k
    · rw [if_pos hak] at h
      injection h with hbv
      subst hak
      subst hbv
      exact List.mem_cons_self _ _
    · rw [if_neg hak] at h
      exact List.mem_cons_of_mem _ (ih h)

theorem alookup_mapEntry (f : α → β → γ) (p : α) (l : List (α × β)) :
    alookup p (l.map fun ab => (ab.1, f ab.1 ab.2)) = (alookup p l).map (f p) := by
  induction l with
  | nil => simp [alookup]
  | cons hd t ih =>
    obtain ⟨a, b⟩ := hd
    simp only [List.map_cons, alookup]
    by_cases hap : a = p
    · subst hap
      simp
    · simp [hap, ih]

theorem mem_sinsert (a b : α) (l : List α) : a ∈ sinsert b l ↔ a = b ∨ a ∈ l := by
  unfold sinsert
  by_cases hb : b ∈ l
  · simp only [if_pos hb]
    constructor
    · exact Or.inr
    · rintro (h | h)
      · exact h ▸ hb
      · exact h
  · simp [if_neg hb]

theorem nodup_sinsert (b : α) (l : List α) (h : l.Nodup) : (sinsert b l).Nodup := by
  unfold sinsert
  by_cases hb : b ∈ l
  · simp [hb, h]
  · simp [hb, h]

theorem sdel_sublist (a : α) (l : List α) : (sdel a l).Sublist l := by
  induction l with
  | nil => simp [sdel]
  | cons x t ih =>
    by_cases hx : x = a
    · simp only [sdel, if_pos hx]
      exact List.sublist_cons_self _ _
    · simp only [sdel, if_neg hx]
      exact ih.cons₂ _

theorem nodup_sdel (a : α) (l : List α) (h : l.Nodup) : (sdel a l).Nodup :=
  (sdel_sublist a l).nodup h

theorem sdel_cons_eq {a x : α} (t : List α) (h : x = a) : sdel a (x :: t) = t := by
  simp [sdel, h]

theorem sdel_cons_ne {a x : α} (t : List α) (h : ¬ x = a) :
    sdel a (x :: t) = x :: sdel a t := by
  simp [sdel, h]

theorem mem_sdel_of_ne (a b : α) (l : List α) (hab : a ≠ b) :
    a ∈ sdel b l ↔ a ∈ l := by
  induction l with
  | nil => simp [sdel]
  | cons x t ih =>
    by_cases hxb : x = b
    · rw [sdel_cons_eq t hxb]
      subst hxb
      simp only [List.mem_cons]
      constructor
      · exact Or.inr
      · rintro (h | h)
        · exact absurd h hab
        · exact h
    · rw [sdel_cons_ne t hxb]
      simp only [List.mem_cons, ih]

theorem not_mem_sdel_self (a : α) (l : List α) (h : l.Nodup) : a ∉ sdel a l := by
  induction l with
  | nil => simp [sdel]
  | cons x t ih =>
    simp only [List.nodup_cons] at h
    by_cases hx : x = a
    · subst hx
      simp only [sdel, if_pos rfl]
      exact h.1
    · simp only [sdel, if_neg hx, List.mem_cons]
      rintro (hc | hc)
      · exact hx hc.symm
      · exact ih h.2 hc

theorem mem_keys_updatePlots (p : PathT) (plots u : List (PathT × PlotInfo)) :
    p ∈ (updatePlots plots u).map Prod.fst ↔
      p ∈ plots.map Prod.fst ∨ p ∈ u.map Prod.fst := by
  induction u generalizing plots with
  | nil => simp [updatePlots]
  | cons hd t ih =>
    obtain ⟨a, b⟩ := hd
    show p ∈ (updatePlots (aset a b plots) t).map Prod.fst ↔ _
    rw [ih]
    rw [mem_keys_aset]
    simp only [List.map_cons, List.mem_cons]
    tauto

theorem nodup_keys_updatePlots (plots u : List (PathT × PlotInfo))
    (h : (plots.map Prod.fst).Nodup) : ((updatePlots plots u).map Prod.fst).Nodup := by
  induction u generalizing plots with
  | nil => exact h
  | cons hd t ih =>
    exact ih _ (nodup_keys_aset _ _ _ h)

theorem alookup_updatePlots_not_mem (p : PathT) (plots u : List (PathT × PlotInfo))
    (h : p ∉ u.map Prod.fst) :
    alookup p (updatePlots plots u) = alookup p plots := by
  induction u generalizing plots with
  | nil => rfl
  | cons hd t ih =>
    obtain ⟨a, b⟩ := hd
    simp only [List.map_cons, List.mem_cons] at h
    push_neg at h
    show alookup p (updatePlots (aset a b plots) t) = _
    rw [ih _ h.2, alookup_aset]
    rw [if_neg (fun hc : a = p => h.1 hc.symm)]

end AssocLemmas

/-! Claim C3: totality of `Cache.load` and version invalidation. -/

/-- C3: `Cache.load()` never raises to its caller for any file contents —
the checked form (with both `except` clauses) returns `ok` on every input,
for a missing file, a mismatched leading version field, and any other
deserialization failure alike; a version mismatch leaves the cache data
untouched, so loading a mismatched file into the freshly constructed
(empty) cache ends with an empty cache: total invalidation, no partial
migration. -/
theorem cache_load_never_raises_version_mismatch_empty :
    ∀ (c : Cache) (file : Option CacheFileBytes),
      Cache.loadChecked c file = Except.ok (Cache.load c file)
      ∧ (∀ dc : DiskCache, file = some (CacheFileBytes.wellFormed dc) →
          dc.version % 2 ^ 16 ≠ CURRENT_VERSION → Cache.load c file = c)
      ∧ (∀ dc : DiskCache, file = some (CacheFileBytes.wellFormed dc) →
          dc.version % 2 ^ 16 ≠ CURRENT_VERSION →
          (Cache.load Cache.init file).data = [])
      ∧ (file = none → Cache.load c file = c)
      ∧ (∀ v : Nat, file = some (CacheFileBytes.badBody v) → Cache.load c file = c) := by
  intro c file
  have hok : ∀ (c0 : Cache), Cache.loadChecked c0 file = Except.ok (Cache.load c0 file) := by
    intro c0
    cases file with
    | none => rfl
    | some serialized =>
      cases serialized with
      | wellFormed dc =>
        by_cases hv : dc.version % 65536 = CURRENT_VERSION
        · simp [Cache.load, Cache.loadChecked, Cache.loadBody, readVersionField,
            diskCacheFromBytes, hv]
        · simp [Cache.load, Cache.loadChecked, Cache.loadBody, readVersionField,
            diskCacheFromBytes, hv]
      | badBody v =>
        by_cases hv : v % 65536 = CURRENT_VERSION
        · simp [Cache.load, Cache.loadChecked, Cache.loadBody, readVersionField,
            diskCacheFromBytes, hv]
        · simp [Cache.load, Cache.loadChecked, Cache.loadBody, readVersionField,
            diskCacheFromBytes, hv]
      | garbage =>
        simp [Cache.load, Cache.loadChecked, Cache.loadBody, readVersionField]
  have hmismatch : ∀ (c0 : Cache) (dc : DiskCache),
      file = some (CacheFileBytes.wellFormed dc) →
      dc.version % 2 ^ 16 ≠ CURRENT_VERSION → Cache.load c0 file = c0 := by
    intro c0 dc hfile hv
    subst hfile
    have hv2 : ¬ (dc.version % 65536 = CURRENT_VERSION) := by
      intro hc
      exact hv (by norm_num; exact hc)
    simp [Cache.load, Cache.loadChecked, Cache.loadBody, readVersionField, hv2]
  refine ⟨hok c, fun dc hfile hv => hmismatch c dc hfile hv, ?_, ?_, ?_⟩
  · intro dc hfile hv
    rw [hmismatch Cache.init dc hfile hv]
    rfl
  · intro hfile
    subst hfile
    rfl
  · intro v hfile
    subst hfile
    by_cases hv : v % 65536 = CURRENT_VERSION
    · simp [Cache.load, Cache.loadChecked, Cache.loadBody, readVersionField,
        diskCacheFromBytes, hv]
    · simp [Cache.load, Cache.loadChecked, Cache.loadBody, readVersionField,
        diskCacheFromBytes, hv]

/-- Witness for C3 at a concrete mismatched snapshot (version 2). -/
theorem cache_load_never_raises_version_mismatch_empty_witness :
    (some (CacheFileBytes.wellFormed { version := 2, data := [] }) =
        some (CacheFileBytes.wellFormed { version := 2, data := [] })
      ∧ (2 : Nat) % 2 ^ 16 ≠ CURRENT_VERSION)
    ∧ (Cache.load Cache.init
        (some (CacheFileBytes.wellFormed { version := 2, data := [] }))).data = [] := by
  refine ⟨⟨rfl, by decide⟩, ?_⟩
  exact (cache_load_never_raises_version_mismatch_empty Cache.init
    (some (CacheFileBytes.wellFormed { version := 2, data := [] }))).2.2.1
    { version := 2, data := [] } rfl (by decide)

/-! Claim C9: save/load round trip. -/

/-- `(toUint64Floor t : ℚ)` is within one second below `t` for any
nonnegative time below the `uint64` range. -/
theorem toUint64Floor_close (t : ℚ) (h0 : 0 ≤ t) (h1 : t < 2 ^ 64) :
    |((toUint64Floor t : Nat) : ℚ) - t| ≤ 1 := by
  unfold toUint64Floor
  have hfl : (0 : ℤ) ≤ ⌊t⌋ := Int.floor_nonneg.mpr h0
  have hltq : ((⌊t⌋ : ℤ) : ℚ) < 2 ^ 64 := lt_of_le_of_lt (Int.floor_le t) h1
  have hlt : ⌊t⌋ < (2 : ℤ) ^ 64 := by exact_mod_cast hltq
  have hnat : Int.toNat ⌊t⌋ < 2 ^ 64 := by omega
  rw [Nat.mod_eq_of_lt hnat]
  have hcast : ((Int.toNat ⌊t⌋ : Nat) : ℚ) = ((⌊t⌋ : ℤ) : ℚ) := by
    exact_mod_cast congrArg (fun z : ℤ => (z : ℚ)) (Int.toNat_of_nonneg hfl)
  rw [hcast, abs_le]
  have hfloor_le : ((⌊t⌋ : ℤ) : ℚ) ≤ t := Int.floor_le t
  have hfloor_gt : t - 1 < ((⌊t⌋ : ℤ) : ℚ) := Int.sub_one_lt_floor t
  constructor
  · linarith
  · linarith

/-- C9: `Cache.save()` followed by `Cache.load()` reproduces the same
paths in the same order, with identical prover bytes and key material per
path, and a `last_use` within one second of the original (save truncates
the timestamp to whole seconds, load restores it as a float), provided
every timestamp is a nonnegative time in the `uint64` range. -/
theorem cache_save_load_roundtrip :
    ∀ (c : Cache),
      (∀ pe ∈ c.data, 0 ≤ pe.2.last_use ∧ pe.2.last_use < 2 ^ 64) →
      (Cache.load Cache.init
          (some (CacheFileBytes.wellFormed (Cache.saveSnapshot c)))).data.map Prod.fst
        = c.data.map Prod.fst
      ∧ List.Forall₂
          (fun pe1 pe2 : PathT × CacheEntry =>
            pe1.1 = pe2.1 ∧ pe1.2.prover = pe2.2.prover ∧ pe1.2.keys = pe2.2.keys
            ∧ |pe1.2.last_use - pe2.2.last_use| ≤ 1)
          (Cache.load Cache.init
            (some (CacheFileBytes.wellFormed (Cache.saveSnapshot c)))).data
          c.data := by
  intro c hrange
  have hdata : (Cache.load Cache.init
      (some (CacheFileBytes.wellFormed (Cache.saveSnapshot c)))).data
      = c.data.map fun pe =>
          (pe.1, { prover := pe.2.prover, keys := pe.2.keys,
                   last_use := ((toUint64Floor pe.2.last_use : Nat) : ℚ) : CacheEntry }) := by
    simp only [Cache.load, Cache.loadChecked, Cache.loadBody, readVersionField,
      diskCacheFromBytes, Cache.saveSnapshot]
    norm_num [CURRENT_VERSION, List.map_map]
    try rfl
    try rw [List.map_map]
  constructor
  · rw [hdata, List.map_map]
    rfl
  · rw [hdata]
    rw [List.forall₂_map_left_iff]
    rw [List.forall₂_same]
    intro pe hpe
    refine ⟨rfl, rfl, rfl, ?_⟩
    exact toUint64Floor_close pe.2.last_use (hrange pe hpe).1 (hrange pe hpe).2

/-- Witness for C9 at a one-entry cache whose timestamp has a fractional
part. -/
theorem cache_save_load_roundtrip_witness :
    (∀ pe ∈ (Cache.mk
        [(PathT.mk "/plots" "a.plot",
          CacheEntry.mk (DiskProver.mk (PathT.mk "/plots" "a.plot") 32 none)
            (CacheKeys.mk 1 none none 2) (5 / 2))] true).data,
       0 ≤ pe.2.last_use ∧ pe.2.last_use < 2 ^ 64)
    ∧ List.Forall₂
        (fun pe1 pe2 : PathT × CacheEntry =>
          pe1.1 = pe2.1 ∧ pe1.2.prover = pe2.2.prover ∧ pe1.2.keys = pe2.2.keys
          ∧ |pe1.2.last_use - pe2.2.last_use| ≤ 1)
        (Cache.load Cache.init
          (some (CacheFileBytes.wellFormed (Cache.saveSnapshot (Cache.mk
            [(PathT.mk "/plots" "a.plot",
              CacheEntry.mk (DiskProver.mk (PathT.mk "/plots" "a.plot") 32 none)
                (CacheKeys.mk 1 none none 2) (5 / 2))] true))))).data
        (Cache.mk
          [(PathT.mk "/plots" "a.plot",
            CacheEntry.mk (DiskProver.mk (PathT.mk "/plots" "a.plot") 32 none)
              (CacheKeys.mk 1 none none 2) (5 / 2))] true).data := by
  have hA : ∀ pe ∈ (Cache.mk
      [(PathT.mk "/plots" "a.plot",
        CacheEntry.mk (DiskProver.mk (PathT.mk "/plots" "a.plot") 32 none)
          (CacheKeys.mk 1 none none 2) (5 / 2))] true).data,
      0 ≤ pe.2.last_use ∧ pe.2.last_use < 2 ^ 64 := by
    intro pe hpe
    rw [List.mem_singleton] at hpe
    subst hpe
    norm_num
  exact ⟨hA, (cache_save_load_roundtrip _ hA).2⟩

/-! Claim C7: the cache-maintenance step. -/

/-- The per-entry transformation performed by the bump pass of the
cache-maintenance loop (marked-for-removal entries are left for
`Cache.remove`, published entries are bumped, the rest untouched). -/
def cleanupEntry (plots : List (PathT × PlotInfo)) (now : ℚ)
    (pe : PathT × CacheEntry) : CacheEntry :=
  if pe.2.expired now Cache.expiry_seconds && (alookup pe.1 plots).isNone then pe.2
  else if (alookup pe.1 plots).isSome then pe.2.bump_last_use now
  else pe.2

theorem alookup_of_mem_nodup {α β : Type} [DecidableEq α] {l : List (α × β)}
    {pe : α × β} (hmem : pe ∈ l) (h : (l.map Prod.fst).Nodup) :
    alookup pe.1 l = some pe.2 := by
  induction l with
  | nil => cases hmem
  | cons hd t ih =>
    simp only [List.map_cons, List.nodup_cons] at h
    rcases List.mem_cons.mp hmem with heq | hmem2
    · subst heq
      rw [alookup_cons, if_pos rfl]
    · rw [alookup_cons]
      have hne : ¬ hd.1 = pe.1 := fun hc => h.1 (hc ▸ List.mem_map_of_mem Prod.fst hmem2)
      rw [if_neg hne]
      exact ih hmem2 h.2

theorem alookup_mapPair {α β γ : Type} [DecidableEq α] (f : α × β → γ) (p : α)
    (l : List (α × β)) :
    alookup p (l.map fun ab => (ab.1, f ab)) = (alookup p l).map (fun b => f (p, b)) := by
  induction l with
  | nil => simp [alookup]
  | cons hd t ih =>
    obtain ⟨a, b⟩ := hd
    simp only [List.map_cons]
    rw [alookup_cons, alookup_cons]
    by_cases hap : a = p
    · subst hap
      simp
    · simp [hap, ih]

theorem nodup_keys_cache_remove (ks : List PathT) (c : Cache)
    (h : (c.data.map Prod.fst).Nodup) :
    ((Cache.remove c ks).data.map Prod.fst).Nodup := by
  induction ks generalizing c with
  | nil => exact h
  | cons k rest ih =>
    show ((Cache.remove (if (alookup k c.data).isSome then
      { data := aerase k c.data, changed := true } else c) rest).data.map Prod.fst).Nodup
    by_cases hk : (alookup k c.data).isSome
    · rw [if_pos hk]
      exact ih _ (nodup_keys_aerase k c.data h)
    · rw [if_neg hk]
      exact ih _ h

theorem alookup_cache_remove (ks : List PathT) (c : Cache)
    (h : (c.data.map Prod.fst).Nodup) (p : PathT) :
    alookup p (Cache.remove c ks).data = if p ∈ ks then none else alookup p c.data := by
  induction ks generalizing c with
  | nil => simp [Cache.remove]
  | cons k rest ih =>
    have hstep : Cache.remove c (k :: rest) =
        Cache.remove (if (alookup k c.data).isSome then
          { data := aerase k c.data, changed := true } else c) rest := rfl
    rw [hstep]
    by_cases hk : (alookup k c.data).isSome
    · rw [if_pos hk]
      rw [ih _ (nodup_keys_aerase k c.data h)]
      by_cases hpr : p ∈ rest
      · simp [hpr]
      · by_cases hpk : p = k
        · subst hpk
          simp [hpr, alookup_aerase_self p c.data h]
        · have : p ∈ k :: rest ↔ False := by simp [hpk, hpr]
          simp only [this, if_false, if_neg hpr]
          exact alookup_aerase_ne k p c.data hpk
    · rw [if_neg hk]
      rw [ih _ h]
      by_cases hpr : p ∈ rest
      · simp [hpr]
      · by_cases hpk : p = k
        · subst hpk
          simp only [List.mem_cons, true_or, if_pos (Or.inl rfl), if_neg hpr]
          simpa using Option.not_isSome_iff_eq_none.mp hk
        · have : ¬ p ∈ k :: rest := by simp [hpk, hpr]
          simp [this, hpr]

/-- C7: in the cache-maintenance step at the end of a refresh cycle, a
cache entry is removed precisely when it is expired (past the 7-day
window) and its path is not in the plot map; an entry whose path is in the
plot map has its `last_use` bumped to the current time (even if expired);
and an entry that is neither (present on disk but unpublished, like a
no-key plot) is kept unchanged while unexpired and dropped once expired —
never bumped. -/
theorem cache_cleanup_characterization :
    ∀ (plots : List (PathT × PlotInfo)) (cache : Cache) (now : ℚ) (p : PathT),
      (cache.data.map Prod.fst).Nodup →
      alookup p (refreshTaskCacheCleanup plots now cache).data =
        (match alookup p cache.data with
         | none => none
         | some e =>
           if e.expired now Cache.expiry_seconds && (alookup p plots).isNone then none
           else if (alookup p plots).isSome then some (e.bump_last_use now)
           else some e) := by
  intro plots cache now p hnodup
  unfold refreshTaskCacheCleanup
  have hmapform : (cache.data.map fun pe =>
      if pe.2.expired now Cache.expiry_seconds && (alookup pe.1 plots).isNone then pe
      else if (alookup pe.1 plots).isSome then (pe.1, pe.2.bump_last_use now)
      else pe)
      = cache.data.map fun pe => (pe.1, cleanupEntry plots now pe) := by
    apply List.map_congr_left
    intro pe _
    unfold cleanupEntry
    by_cases h1 : pe.2.expired now Cache.expiry_seconds && (alookup pe.1 plots).isNone
    · simp [h1]
    · by_cases h2 : (alookup pe.1 plots).isSome
      · simp [h1, h2]
      · simp [h1, h2]
  rw [hmapform]
  have hkeys : ((cache.data.map fun pe =>
      (pe.1, cleanupEntry plots now pe)).map Prod.fst).Nodup := by
    rw [List.map_map]
    exact hnodup
  rw [alookup_cache_remove _ _ hkeys p]
  dsimp only
  rw [alookup_mapPair]
  have hmem : p ∈ (cache.data.filter fun pe =>
      pe.2.expired now Cache.expiry_seconds && (alookup pe.1 plots).isNone).map
      (fun pe => pe.1) ↔
      ∃ e, alookup p cache.data = some e
        ∧ (e.expired now Cache.expiry_seconds && (alookup p plots).isNone) = true := by
    constructor
    · intro hp
      rw [List.mem_map] at hp
      obtain ⟨pe, hpe, hfst⟩ := hp
      rw [List.mem_filter] at hpe
      refine ⟨pe.2, ?_, by rw [hfst] at hpe; exact hpe.2⟩
      subst hfst
      exact alookup_of_mem_nodup hpe.1 hnodup
    · rintro ⟨e, hl, hcond⟩
      have hmem2 : (p, e) ∈ cache.data := alookup_eq_some_mem hl
      rw [List.mem_map]
      exact ⟨(p, e), List.mem_filter.mpr ⟨hmem2, hcond⟩, rfl⟩
  by_cases hp : p ∈ (cache.data.filter fun pe =>
      pe.2.expired now Cache.expiry_seconds && (alookup pe.1 plots).isNone).map
      (fun pe => pe.1)
  · rw [if_pos hp]
    obtain ⟨e, hl, hcond⟩ := hmem.mp hp
    rw [hl]
    simp [hcond]
  · rw [if_neg hp]
    cases hl : alookup p cache.data with
    | none => rfl
    | some e =>
      have hcond : ¬ ((e.expired now Cache.expiry_seconds && (alookup p plots).isNone) = true) := by
        intro hc
        exact hp (hmem.mpr ⟨e, hl, hc⟩)
      simp only [Option.map_some, cleanupEntry]
      cases hpl : alookup p plots with
      | some v => simp [hpl]
      | none =>
        rw [hpl] at hcond
        simp only [Option.isNone_none, Bool.and_true] at hcond
        simp [hpl, hcond]

/-- Witness for C7 at a two-entry cache: an expired unpublished entry is
dropped while a published entry is bumped. -/
theorem cache_cleanup_characterization_witness :
    ((Cache.mk
      [(PathT.mk "/a" "x.plot",
        CacheEntry.mk (DiskProver.mk (PathT.mk "/a" "x.plot") 32 none)
          (CacheKeys.mk 1 none none 2) 0)] false).data.map Prod.fst).Nodup
    ∧ alookup (PathT.mk "/a" "x.plot")
        (refreshTaskCacheCleanup [] 700000 (Cache.mk
          [(PathT.mk "/a" "x.plot",
            CacheEntry.mk (DiskProver.mk (PathT.mk "/a" "x.plot") 32 none)
              (CacheKeys.mk 1 none none 2) 0)] false)).data = none := by
  have hnodup : ((Cache.mk
      [(PathT.mk "/a" "x.plot",
        CacheEntry.mk (DiskProver.mk (PathT.mk "/a" "x.plot") 32 none)
          (CacheKeys.mk 1 none none 2) 0)] false).data.map Prod.fst).Nodup := by
    simp
  refine ⟨hnodup, ?_⟩
  rw [cache_cleanup_characterization [] _ 700000 (PathT.mk "/a" "x.plot") hnodup]
  norm_num [alookup, CacheEntry.expired, Cache.expiry_seconds]

/-! Claim C8: the still-being-written size guard in preprocessing. -/

/-- C8: in preprocessing, a file whose prover opens with size parameter at
least 30 but whose on-disk size is below 98% of the expected size is
skipped as still being written: the result is the no-op result and the
manager state — in particular the failure registry — is completely
unchanged, so no backoff penalty applies and the file is retried on the
very next cycle. -/
theorem pre_process_undersized_noop :
    ∀ (self : PlotManager) (fs : FileSystem) (now : ℚ) (file_path : PathT)
      (si : StatResult) (prover : DiskProver),
      self.refreshing_enabled = true →
      matchRejects self.match_str file_path = false →
      backoffActive self.failed_to_open_filenames
        self.refresh_parameter.retry_invalid_seconds now file_path = false →
      (alookup file_path self.plots).isSome = false →
      duplicateSkip self.plot_filename_paths file_path = false →
      openProver fs file_path = Except.ok (si, prover) →
      30 ≤ prover.k →
      (si.st_size : ℚ) < 98 / 100 * (_expected_plot_size prover.k * UI_ACTUAL_SPACE_CONSTANT_FACTOR) →
      self.pre_process_file fs now file_path =
        ({ path := file_path, cache_entry := none, stat_info := none, prover := none,
           duration := 0 }, self) := by
  intro self fs now file_path si prover h1 h2 h3 h4 h5 h6 h7 h8
  unfold PlotManager.pre_process_file
  rw [h1]
  simp only [Bool.true_eq_false, if_false, h2, h3, h4, h5, h6]
  simp only [Bool.false_eq_true, if_false]
  have hu : undersized prover.k si.st_size := ⟨h7, h8⟩
  rw [if_pos hu]

/-- Witness for C8: a freshly started manager and a k=30 plot of size 0. -/
theorem pre_process_undersized_noop_witness :
    openProver
        [(PathT.mk "/plots" "big.plot",
          FileData.mk 0 0 (some (30, none)))] (PathT.mk "/plots" "big.plot")
      = Except.ok (StatResult.mk 0 0, DiskProver.mk (PathT.mk "/plots" "big.plot") 30 none)
    ∧ ((0 : ℚ) < 98 / 100 * (_expected_plot_size 30 * UI_ACTUAL_SPACE_CONSTANT_FACTOR))
    ∧ ({ PlotManager.init none false (PlotsRefreshParameter.mk 120 1200 300) with
          refreshing_enabled := true }).pre_process_file
        [(PathT.mk "/plots" "big.plot", FileData.mk 0 0 (some (30, none)))] 1
        (PathT.mk "/plots" "big.plot")
      = ({ path := PathT.mk "/plots" "big.plot", cache_entry := none, stat_info := none,
           prover := none, duration := 0 },
         { PlotManager.init none false (PlotsRefreshParameter.mk 120 1200 300) with
           refreshing_enabled := true }) := by
  have hexp : (0 : ℚ) < 98 / 100 * (_expected_plot_size 30 * UI_ACTUAL_SPACE_CONSTANT_FACTOR) := by
    norm_num [_expected_plot_size, UI_ACTUAL_SPACE_CONSTANT_FACTOR]
  refine ⟨rfl, hexp, ?_⟩
  exact pre_process_undersized_noop _ _ 1 _
    (StatResult.mk 0 0) (DiskProver.mk (PathT.mk "/plots" "big.plot") 30 none)
    rfl rfl rfl rfl rfl rfl (by norm_num) (by simpa using hexp)

/-! Claim C10: `reset` stamps the clock, deferring the next cycle. -/

/-- C10: `reset` — invoked whenever a refresh cycle raises — stamps
`last_refresh_time` with the current time in addition to clearing the four
registries, so `needs_refresh` is false immediately after an
exception-triggered reset and stays false until a full refresh interval
has elapsed, while `trigger_refresh` zeroes the timestamp to force an
immediate cycle. -/
theorem reset_stamps_time_and_defers :
    ∀ (self sp : PlotManager) (now t : ℚ) (fs : FileSystem) (e : PyExn),
      (PlotManager.reset self now).last_refresh_time = now
      ∧ (PlotManager.reset self now).plots = []
      ∧ (PlotManager.reset self now).plot_filename_paths = []
      ∧ (PlotManager.reset self now).failed_to_open_filenames = []
      ∧ (PlotManager.reset self now).no_key_filenames = []
      ∧ (PlotManager.reset self now).needs_refresh now = false
      ∧ (t - now ≤ (self.refresh_parameter.interval_seconds : ℚ) →
          (PlotManager.reset self now).needs_refresh t = false)
      ∧ ((PlotManager.reset self now).trigger_refresh).last_refresh_time = 0
      ∧ (((PlotManager.reset self now).trigger_refresh).needs_refresh t = true ↔
          (self.refresh_parameter.interval_seconds : ℚ) < t)
      ∧ (runCycleBody self fs now = Except.error (e, sp) →
          refreshTaskStep self fs now = PlotManager.reset sp now) := by
  intro self sp now t fs e
  refine ⟨rfl, rfl, rfl, rfl, rfl, ?_, ?_, rfl, ?_, ?_⟩
  · simp [PlotManager.needs_refresh, PlotManager.reset]
  · intro ht
    simp only [PlotManager.needs_refresh, PlotManager.reset, decide_eq_false_iff_not, not_lt]
    linarith
  · simp only [PlotManager.needs_refresh, PlotManager.trigger_refresh, PlotManager.reset,
      decide_eq_true_eq]
    constructor
    · intro h
      linarith
    · intro h
      linarith
  · intro herr
    unfold refreshTaskStep
    rw [herr]

/-! A concrete refresh cycle that raises: one plot file whose memo fails
to parse, processed from a freshly started manager.  The decode worker
raises `ValueError`, `starmap` re-raises it, `refresh_batch` propagates
it, and the cycle body surfaces it with the state as the exception left
it (here: unchanged). Shared by several witnesses below. -/

theorem cycle_errors_concrete :
    runCycleBody
      { PlotManager.init none false (PlotsRefreshParameter.mk 120 1200 300) with
        refreshing_enabled := true }
      [(PathT.mk "/plots" "bad.plot", FileData.mk 0 0 (some (1, none)))] 1
    = Except.error (PyExn.valueError,
        { PlotManager.init none false (PlotsRefreshParameter.mk 120 1200 300) with
          refreshing_enabled := true }) := by
  rfl

/-- Witness for C10 on the concrete raising cycle. -/
theorem reset_stamps_time_and_defers_witness :
    ((100 : ℚ) - 1 ≤ ((PlotsRefreshParameter.mk 120 1200 300).interval_seconds : ℚ))
    ∧ runCycleBody
        { PlotManager.init none false (PlotsRefreshParameter.mk 120 1200 300) with
          refreshing_enabled := true }
        [(PathT.mk "/plots" "bad.plot", FileData.mk 0 0 (some (1, none)))] 1
      = Except.error (PyExn.valueError,
          { PlotManager.init none false (PlotsRefreshParameter.mk 120 1200 300) with
            refreshing_enabled := true })
    ∧ (PlotManager.reset
        { PlotManager.init none false (PlotsRefreshParameter.mk 120 1200 300) with
          refreshing_enabled := true } 1).needs_refresh 100 = false
    ∧ refreshTaskStep
        { PlotManager.init none false (PlotsRefreshParameter.mk 120 1200 300) with
          refreshing_enabled := true }
        [(PathT.mk "/plots" "bad.plot", FileData.mk 0 0 (some (1, none)))] 1
      = PlotManager.reset
          { PlotManager.init none false (PlotsRefreshParameter.mk 120 1200 300) with
            refreshing_enabled := true } 1 := by
  have hall := reset_stamps_time_and_defers
    { PlotManager.init none false (PlotsRefreshParameter.mk 120 1200 300) with
      refreshing_enabled := true }
    { PlotManager.init none false (PlotsRefreshParameter.mk 120 1200 300) with
      refreshing_enabled := true }
    1 100
    [(PathT.mk "/plots" "bad.plot", FileData.mk 0 0 (some (1, none)))] PyExn.valueError
  refine ⟨by norm_num [PlotManager.init], cycle_errors_concrete, ?_, ?_⟩
  · exact hall.2.2.2.2.2.2.1 (by norm_num [PlotManager.init])
  · exact hall.2.2.2.2.2.2.2.2.2 cycle_errors_concrete

/-! Claim C4: the top-level catch of the refresh loop. -/

/-- C4: an unhandled exception anywhere inside a refresh cycle is caught
at the top of the refresh loop and answered with a full in-memory reset —
the plot map, duplicate registry, failure registry and no-key registry of
the resulting state are all empty — and, refreshing enabled, the loop
simply continues with the next iteration from the reset state; the loop
step and the loop itself always return a plain state, so no exception from
the pipeline reaches the caller of the start/stop/trigger interface. -/
theorem cycle_exception_caught_and_loop_continues :
    ∀ (self sp : PlotManager) (fs : FileSystem) (now : ℚ) (e : PyExn)
      (rest : List (FileSystem × ℚ)),
      runCycleBody self fs now = Except.error (e, sp) →
      refreshTaskStep self fs now = PlotManager.reset sp now
      ∧ (refreshTaskStep self fs now).plots = []
      ∧ (refreshTaskStep self fs now).plot_filename_paths = []
      ∧ (refreshTaskStep self fs now).failed_to_open_filenames = []
      ∧ (refreshTaskStep self fs now).no_key_filenames = []
      ∧ (self.refreshing_enabled = true →
          refreshLoop self ((fs, now) :: rest) =
            refreshLoop (PlotManager.reset sp now) rest) := by
  intro self sp fs now e rest herr
  have hstep : refreshTaskStep self fs now = PlotManager.reset sp now := by
    unfold refreshTaskStep
    rw [herr]
  refine ⟨hstep, by rw [hstep]; rfl, by rw [hstep]; rfl, by rw [hstep]; rfl,
    by rw [hstep]; rfl, ?_⟩
  intro hen
  show (if self.refreshing_enabled then
    refreshLoop (refreshTaskStep self fs now) rest else self) = _
  rw [hen, if_pos rfl, hstep]

/-- Witness for C4 on the concrete raising cycle. -/
theorem cycle_exception_caught_and_loop_continues_witness :
    runCycleBody
      { PlotManager.init none false (PlotsRefreshParameter.mk 120 1200 300) with
        refreshing_enabled := true }
      [(PathT.mk "/plots" "bad.plot", FileData.mk 0 0 (some (1, none)))] 1
      = Except.error (PyExn.valueError,
          { PlotManager.init none false (PlotsRefreshParameter.mk 120 1200 300) with
            refreshing_enabled := true })
    ∧ (refreshTaskStep
        { PlotManager.init none false (PlotsRefreshParameter.mk 120 1200 300) with
          refreshing_enabled := true }
        [(PathT.mk "/plots" "bad.plot", FileData.mk 0 0 (some (1, none)))] 1).plots = []
    ∧ refreshLoop
        { PlotManager.init none false (PlotsRefreshParameter.mk 120 1200 300) with
          refreshing_enabled := true }
        [([(PathT.mk "/plots" "bad.plot", FileData.mk 0 0 (some (1, none)))], 1)]
      = PlotManager.reset
          { PlotManager.init none false (PlotsRefreshParameter.mk 120 1200 300) with
            refreshing_enabled := true } 1 := by
  have hall := cycle_exception_caught_and_loop_continues
    { PlotManager.init none false (PlotsRefreshParameter.mk 120 1200 300) with
      refreshing_enabled := true }
    { PlotManager.init none false (PlotsRefreshParameter.mk 120 1200 300) with
      refreshing_enabled := true }
    [(PathT.mk "/plots" "bad.plot", FileData.mk 0 0 (some (1, none)))] 1
    PyExn.valueError [] cycle_errors_concrete
  exact ⟨cycle_errors_concrete, hall.2.1, hall.2.2.2.2.2 rfl⟩

/-! Claim C1: per-file decode failures versus the bulk decode call. -/

/-- C1 probes the decode stage. What the code actually does: (1)
`process_memo` can only ever return a present payload — the
`result_bytes is None` branch of `refresh_batch`, which would register the
failure sentinel, is unreachable from it; (2) a single file whose memo
fails to parse makes `process_memo` raise instead of returning a sentinel;
(3) one such file makes the whole bulk `starmap` call raise, so the good
sibling's result is never delivered; (4) on such a batch `refresh_batch`
propagates the exception and records nothing in the failure registry. -/
theorem process_memo_failure_aborts_batch :
    (∀ (p : PathT) (m : Memo) (r : PathT × Option CacheKeys),
      process_memo p m = Except.ok r → r.2.isSome = true)
    ∧ process_memo (PathT.mk "/plots" "bad.plot") none = Except.error PyExn.valueError
    ∧ starmapProcessMemo
        [(PathT.mk "/plots" "good.plot",
          some (ParsedPlotInfo.mk (Sum.inl 5) 7 9)),
         (PathT.mk "/plots" "bad.plot", none)]
      = Except.error PyExn.valueError
    ∧ (PlotManager.refresh_batch
        { PlotManager.init none false (PlotsRefreshParameter.mk 120 1200 300) with
          refreshing_enabled := true } 1
        [{ path := PathT.mk "/plots" "good.plot", cache_entry := none,
           stat_info := some (StatResult.mk 10 0),
           prover := some (DiskProver.mk (PathT.mk "/plots" "good.plot") 1
             (some (ParsedPlotInfo.mk (Sum.inl 5) 7 9))),
           duration := 0 },
         { path := PathT.mk "/plots" "bad.plot", cache_entry := none,
           stat_info := some (StatResult.mk 10 0),
           prover := some (DiskProver.mk (PathT.mk "/plots" "bad.plot") 1 none),
           duration := 0 }]).isOk = false
    ∧ (∀ sp : PlotManager,
        PlotManager.refresh_batch
          { PlotManager.init none false (PlotsRefreshParameter.mk 120 1200 300) with
            refreshing_enabled := true } 1
          [{ path := PathT.mk "/plots" "good.plot", cache_entry := none,
             stat_info := some (StatResult.mk 10 0),
             prover := some (DiskProver.mk (PathT.mk "/plots" "good.plot") 1
               (some (ParsedPlotInfo.mk (Sum.inl 5) 7 9))),
             duration := 0 },
           { path := PathT.mk "/plots" "bad.plot", cache_entry := none,
             stat_info := some (StatResult.mk 10 0),
             prover := some (DiskProver.mk (PathT.mk "/plots" "bad.plot") 1 none),
             duration := 0 }] = Except.error (PyExn.valueError, sp) →
        sp.failed_to_open_filenames = []) := by
  refine ⟨?_, rfl, rfl, by decide, ?_⟩
  · intro p m r hok
    cases m with
    | none => exact absurd hok (by simp [process_memo, parse_plot_info])
    | some parsed =>
      simp only [process_memo, parse_plot_info, Except.ok.injEq] at hok
      rw [← hok]
      rfl
  · intro sp hsp
    have : sp = { PlotManager.init none false (PlotsRefreshParameter.mk 120 1200 300) with
        refreshing_enabled := true } := by
      have heval : PlotManager.refresh_batch
          { PlotManager.init none false (PlotsRefreshParameter.mk 120 1200 300) with
            refreshing_enabled := true } 1
          [{ path := PathT.mk "/plots" "good.plot", cache_entry := none,
             stat_info := some (StatResult.mk 10 0),
             prover := some (DiskProver.mk (PathT.mk "/plots" "good.plot") 1
               (some (ParsedPlotInfo.mk (Sum.inl 5) 7 9))),
             duration := 0 },
           { path := PathT.mk "/plots" "bad.plot", cache_entry := none,
             stat_info := some (StatResult.mk 10 0),
             prover := some (DiskProver.mk (PathT.mk "/plots" "bad.plot") 1 none),
             duration := 0 }]
          = Except.error (PyExn.valueError,
              { PlotManager.init none false (PlotsRefreshParameter.mk 120 1200 300) with
                refreshing_enabled := true }) := by rfl
      rw [heval] at hsp
      injection hsp with h1
      injection h1 with h2 h3
      exact h3.symm
    rw [this]
    rfl

/-- Witness for C1: the dead-sentinel fact applied at a concrete
successful decode. -/
theorem process_memo_failure_aborts_batch_witness :
    process_memo (PathT.mk "/plots" "good.plot")
        (some (ParsedPlotInfo.mk (Sum.inl 5) 7 9))
      = Except.ok (PathT.mk "/plots" "good.plot",
          some (CacheKeys.mk 7 (some 5) none
            (generate_plot_public_key (sk_get_g1 (master_sk_to_local_sk 9)) 7 false)))
    ∧ ((PathT.mk "/plots" "good.plot",
          some (CacheKeys.mk 7 (some 5) none
            (generate_plot_public_key (sk_get_g1 (master_sk_to_local_sk 9)) 7 false))) :
        PathT × Option CacheKeys).2.isSome = true := by
  refine ⟨rfl, ?_⟩
  exact process_memo_failure_aborts_batch.1 (PathT.mk "/plots" "good.plot")
    (some (ParsedPlotInfo.mk (Sum.inl 5) 7 9)) _ rfl

/-! Infrastructure for claims C5 (idempotence) and C6 (duplicates):
invariants relating the manager state to a fixed filesystem, and
specification lemmas for each pipeline stage. -/

/-- The candidate path list of a filesystem (what `get_plot_filenames`
enumerates). -/
def fsPaths (fs : FileSystem) : List PathT := fs.map (fun pe => pe.1)

/-- The no-op `PreProcessingResult` for a path. -/
def noopResult (p : PathT) : PreProcessingResult :=
  { path := p, cache_entry := none, stat_info := none, prover := none, duration := 0 }

/-- The key material `process_memo` derives from a memo, when the memo
parses (mirrors the body of `process_memo`). -/
def derivedKeys (m : Memo) : Option CacheKeys :=
  match m with
  | none => none
  | some parsed =>
    some { farmer_public_key := parsed.farmer_public_key
           pool_public_key := match parsed.pool_public_key_or_puzzle_hash with
             | .inl pk => some pk
             | .inr _ => none
           pool_contract_puzzle_hash := match parsed.pool_public_key_or_puzzle_hash with
             | .inl _ => none
             | .inr h => some h
           plot_public_key := generate_plot_public_key
             (sk_get_g1 (master_sk_to_local_sk parsed.local_master_sk))
             parsed.farmer_public_key
             (match parsed.pool_public_key_or_puzzle_hash with
              | .inl _ => false
              | .inr _ => true) }

/-- The condition under which the key-ownership checks of
`post_process_file` reject a plot (relevant when the override flag is
unset). -/
def keyCheckFails (farmer_keys pool_keys : List G1Element) (keys : CacheKeys) : Prop :=
  keys.farmer_public_key ∉ farmer_keys
  ∨ (∃ pk, keys.pool_public_key = some pk ∧ pk ∉ pool_keys)

/-- Failure-registry honesty: every registered path that is still on disk
is one whose open genuinely fails. Holds from a cold start onward when the
filesystem is stable, since entries are only ever added on open failures. -/
def HonestFailed (fs : FileSystem) (s : PlotManager) : Prop :=
  ∀ p t, (p, t) ∈ s.failed_to_open_filenames →
    ∀ fd, alookup p fs = some fd → fd.openable = none

/-- Cache honesty with respect to a filesystem: every cached entry was
built from opening and decoding its own path, so its prover carries the
path as filename and, when the file is still on disk unchanged, the
prover's structural data and the derived keys agree with the file. -/
def HonestCache (fs : FileSystem) (s : PlotManager) : Prop :=
  ∀ p ce, alookup p s.cache.data = some ce →
    ce.prover.filename = p
    ∧ ∀ fd, alookup p fs = some fd →
        fd.openable = some (ce.prover.k, ce.prover.memo)
        ∧ derivedKeys ce.prover.memo = some ce.keys

/-- The filename part of cache honesty alone (meaningful for any
filesystem): each cached prover was opened at the path it is keyed by. -/
def CacheFilenameOk (cache : List (PathT × CacheEntry)) : Prop :=
  ∀ pe ∈ cache, pe.2.prover.filename = pe.1

/-- A path is settled for a manager state and filesystem when the next
cycle's pipeline cannot load it: it is filtered, already published,
unopenable, undersized, registered as a duplicate, or its derived keys
fail the ownership checks while the override flag is unset. -/
def Settled (fs : FileSystem) (s : PlotManager) (p : PathT) : Prop :=
  matchRejects s.match_str p = true
  ∨ (alookup p s.plots).isSome = true
  ∨ (∀ fd, alookup p fs = some fd → fd.openable = none)
  ∨ (∃ fd k m, alookup p fs = some fd ∧ fd.openable = some (k, m) ∧ undersized k fd.st_size)
  ∨ (∃ e, alookup p.name s.plot_filename_paths = some e ∧ p.parent ∈ e.2)
  ∨ (s.open_no_key_filenames = false
      ∧ ∃ fd k m keys, alookup p fs = some fd ∧ fd.openable = some (k, m)
          ∧ derivedKeys m = some keys
          ∧ keyCheckFails s.farmer_public_keys s.pool_public_keys keys)

/-- Perfect-registry presence: every tracked filename's loading path and
every recorded duplicate directory point at files present on disk. After a
cycle over a filesystem this holds, making the next cycle's removal diff a
no-op. -/
def PfpPresent (fs : FileSystem) (pfp : List (String × String × List String)) : Prop :=
  ∀ ent ∈ pfp,
    (PathT.mk ent.2.1 ent.1) ∈ fsPaths fs ∧ ∀ d ∈ ent.2.2, (PathT.mk d ent.1) ∈ fsPaths fs

/-- State evolution during the batch pipeline of a cycle: configuration is
untouched, the published map only grows, and duplicate registrations only
grow. `Settled` is monotone along it. -/
def StateEvolves (s s1 : PlotManager) : Prop :=
  s1.match_str = s.match_str
  ∧ s1.open_no_key_filenames = s.open_no_key_filenames
  ∧ s1.farmer_public_keys = s.farmer_public_keys
  ∧ s1.pool_public_keys = s.pool_public_keys
  ∧ s1.refresh_parameter = s.refresh_parameter
  ∧ s1.refreshing_enabled = s.refreshing_enabled
  ∧ (∀ p, (alookup p s.plots).isSome = true → (alookup p s1.plots).isSome = true)
  ∧ (∀ fn e, alookup fn s.plot_filename_paths = some e →
      ∃ e1, alookup fn s1.plot_filename_paths = some e1 ∧ ∀ d ∈ e.2, d ∈ e1.2)

theorem stateEvolves_refl (s : PlotManager) : StateEvolves s s :=
  ⟨rfl, rfl, rfl, rfl, rfl, rfl, fun _ h => h, fun _ e he => ⟨e, he, fun _ hd => hd⟩⟩

theorem StateEvolves.trans {s t u : PlotManager}
    (h1 : StateEvolves s t) (h2 : StateEvolves t u) : StateEvolves s u := by
  obtain ⟨a1, b1, c1, d1, e1, f1, g1, h1d⟩ := h1
  obtain ⟨a2, b2, c2, d2, e2, f2, g2, h2d⟩ := h2
  refine ⟨a2.trans a1, b2.trans b1, c2.trans c1, d2.trans d1, e2.trans e1, f2.trans f1,
    fun p hp => g2 p (g1 p hp), fun fn e he => ?_⟩
  obtain ⟨e1x, he1, hsub1⟩ := h1d fn e he
  obtain ⟨e2x, he2, hsub2⟩ := h2d fn e1x he1
  exact ⟨e2x, he2, fun d hd => hsub2 d (hsub1 d hd)⟩

theorem Settled.mono {fs : FileSystem} {s s1 : PlotManager} {p : PathT}
    (hset : Settled fs s p) (hev : StateEvolves s s1) : Settled fs s1 p := by
  obtain ⟨hms, hflag, hfarm, hpool, _, _, hplots, hpfp⟩ := hev
  rcases hset with h | h | h | h | h | h
  · exact Or.inl (by rw [hms]; exact h)
  · exact Or.inr (Or.inl (hplots p h))
  · exact Or.inr (Or.inr (Or.inl h))
  · exact Or.inr (Or.inr (Or.inr (Or.inl h)))
  · obtain ⟨e, he, hd⟩ := h
    obtain ⟨e1, he1, hsub⟩ := hpfp p.name e he
    exact Or.inr (Or.inr (Or.inr (Or.inr (Or.inl ⟨e1, he1, hsub _ hd⟩))))
  · obtain ⟨hfl, fd, k, m, keys, hfd, hop, hdk, hkf⟩ := h
    refine Or.inr (Or.inr (Or.inr (Or.inr (Or.inr
      ⟨by rw [hflag]; exact hfl, fd, k, m, keys, hfd, hop, hdk, ?_⟩))))
    rw [hfarm, hpool]
    exact hkf

/-- Unpacking a successful open: the prover carries the opened path as its
filename and agrees with the on-disk file. -/
theorem openProver_ok_spec {fs : FileSystem} {p : PathT} {si : StatResult}
    {pr : DiskProver} (h : openProver fs p = Except.ok (si, pr)) :
    pr.filename = p
    ∧ ∃ fd, alookup p fs = some fd ∧ fd.openable = some (pr.k, pr.memo)
        ∧ si = StatResult.mk fd.st_size fd.st_mtime := by
  unfold openProver at h
  cases hfd : alookup p fs with
  | none => rw [hfd] at h; cases h
  | some fd =>
    rw [hfd] at h
    dsimp only at h
    cases hop : fd.openable with
    | none => rw [hop] at h; cases h
    | some km =>
      rw [hop] at h
      injection h with h1
      injection h1 with hsi hpr
      subst hsi
      subst hpr
      exact ⟨rfl, fd, rfl, by rw [hop], rfl⟩

/-- The full behavioral spec of one `pre_process_file` call: the result
carries the queried path; the state is unchanged except possibly for a
failure-registry entry recorded for a genuinely unopenable path; and the
result is either the no-op result — for one of the six guard reasons when
refreshing is enabled — or the full result carrying the opened prover, the
stat info and the cache lookup, in which case every guard demonstrably
passed. -/
theorem pre_process_file_spec (s : PlotManager) (fs : FileSystem) (now : ℚ) (p : PathT) :
    (s.pre_process_file fs now p).1.path = p
    ∧ ((s.pre_process_file fs now p).2 = s
      ∨ ((s.pre_process_file fs now p).2
            = { s with failed_to_open_filenames := aset p ⌊now⌋ s.failed_to_open_filenames }
          ∧ (s.pre_process_file fs now p).1 = noopResult p
          ∧ ∀ fd, alookup p fs = some fd → fd.openable = none))
    ∧ ((s.pre_process_file fs now p).1 = noopResult p
      ∨ (∃ si pr, openProver fs p = Except.ok (si, pr)
          ∧ (s.pre_process_file fs now p)
              = ({ path := p, cache_entry := alookup p s.cache.data,
                   stat_info := some si, prover := some pr, duration := 0 }, s)
          ∧ matchRejects s.match_str p = false
          ∧ (alookup p s.plots).isSome = false
          ∧ duplicateSkip s.plot_filename_paths p = false
          ∧ ¬ undersized pr.k si.st_size))
    ∧ (s.refreshing_enabled = true →
        (s.pre_process_file fs now p).1 = noopResult p →
        (matchRejects s.match_str p = true
         ∨ (∃ t, alookup p s.failed_to_open_filenames = some t)
         ∨ (alookup p s.plots).isSome = true
         ∨ duplicateSkip s.plot_filename_paths p = true
         ∨ (∀ fd, alookup p fs = some fd → fd.openable = none)
         ∨ (∃ fd k m, alookup p fs = some fd ∧ fd.openable = some (k, m)
              ∧ undersized k fd.st_size))) := by
  unfold PlotManager.pre_process_file
  by_cases h1 : s.refreshing_enabled = false
  · rw [if_pos h1]
    exact ⟨rfl, Or.inl rfl, Or.inl rfl, fun hen _ => absurd h1 (by rw [hen]; simp)⟩
  · rw [if_neg h1]
    by_cases h2 : matchRejects s.match_str p = true
    · rw [if_pos h2]
      exact ⟨rfl, Or.inl rfl, Or.inl rfl, fun _ _ => Or.inl h2⟩
    · rw [if_neg h2]
      by_cases h3 : backoffActive s.failed_to_open_filenames
          s.refresh_parameter.retry_invalid_seconds now p = true
      · rw [if_pos h3]
        refine ⟨rfl, Or.inl rfl, Or.inl rfl, fun _ _ => Or.inr (Or.inl ?_)⟩
        unfold backoffActive at h3
        cases hl : alookup p s.failed_to_open_filenames with
        | none => rw [hl] at h3; cases h3
        | some t => exact ⟨t, rfl⟩
      · rw [if_neg h3]
        by_cases h4 : (alookup p s.plots).isSome = true
        · rw [if_pos h4]
          exact ⟨rfl, Or.inl rfl, Or.inl rfl, fun _ _ => Or.inr (Or.inr (Or.inl h4))⟩
        · rw [if_neg h4]
          by_cases h5 : duplicateSkip s.plot_filename_paths p = true
          · rw [if_pos h5]
            exact ⟨rfl, Or.inl rfl, Or.inl rfl,
              fun _ _ => Or.inr (Or.inr (Or.inr (Or.inl h5)))⟩
          · rw [if_neg h5]
            cases hop : openProver fs p with
            | error e =>
              have hopen_none : ∀ fd, alookup p fs = some fd → fd.openable = none := by
                intro fd hfd
                unfold openProver at hop
                rw [hfd] at hop
                dsimp only at hop
                cases hopen : fd.openable with
                | none => rfl
                | some km => rw [hopen] at hop; cases hop
              exact ⟨rfl, Or.inr ⟨rfl, rfl, hopen_none⟩, Or.inl rfl,
                fun _ _ => Or.inr (Or.inr (Or.inr (Or.inr (Or.inl hopen_none))))⟩
            | ok si_pr =>
              obtain ⟨si, pr⟩ := si_pr
              dsimp only
              by_cases h6 : undersized pr.k si.st_size
              · rw [if_pos h6]
                refine ⟨rfl, Or.inl rfl, Or.inl rfl,
                  fun _ _ => Or.inr (Or.inr (Or.inr (Or.inr (Or.inr ?_))))⟩
                obtain ⟨hfn, fd, hfd, hopen, hsi⟩ := openProver_ok_spec hop
                refine ⟨fd, pr.k, pr.memo, hfd, hopen, ?_⟩
                rw [hsi] at h6
                exact h6
              · rw [if_neg h6]
                refine ⟨rfl, Or.inl rfl, Or.inr ⟨si, pr, rfl, rfl,
                  Bool.not_eq_true _ ▸ h2, Bool.not_eq_true _ ▸ h4,
                  Bool.not_eq_true _ ▸ h5, h6⟩, ?_⟩
                intro _ hnoop
                simp [noopResult] at hnoop

/-- `process_memo` computed: it raises exactly on unparseable memos and
otherwise returns the derived key material for its own path. -/
theorem process_memo_eq (p : PathT) (m : Memo) :
    process_memo p m = match m with
      | none => Except.error PyExn.valueError
      | some _ => Except.ok (p, derivedKeys m) := by
  cases m with
  | none => rfl
  | some parsed =>
    obtain ⟨pp, f, l⟩ := parsed
    cases pp with
    | inl pk => rfl
    | inr h => rfl

/-- A successful bulk decode is exactly the per-item derivation, and it
succeeds precisely when every memo in the batch parses. -/
theorem starmap_ok_spec {args : List (PathT × Memo)}
    {res : List (PathT × Option CacheKeys)}
    (h : starmapProcessMemo args = Except.ok res) :
    res = args.map (fun pm => (pm.1, derivedKeys pm.2))
    ∧ ∀ pm ∈ args, (derivedKeys pm.2).isSome = true := by
  induction args generalizing res with
  | nil =>
    injection h with h1
    exact ⟨h1.symm, by intro pm hpm; cases hpm⟩
  | cons hd t ih =>
    obtain ⟨q, m⟩ := hd
    rw [show starmapProcessMemo ((q, m) :: t) =
        (match process_memo q m with
         | .error e => .error e
         | .ok r =>
           match starmapProcessMemo t with
           | .error e => .error e
           | .ok rs => .ok (r :: rs)) from rfl] at h
    rw [process_memo_eq] at h
    cases m with
    | none => cases h
    | some parsed =>
      cases hrest : starmapProcessMemo t with
      | error e => rw [hrest] at h; cases h
      | ok rs =>
        rw [hrest] at h
        injection h with h1
        obtain ⟨hres, hall⟩ := ih hrest
        subst hres
        constructor
        · rw [List.map_cons, ← h1]
        · intro pm hpm
          rcases List.mem_cons.mp hpm with heq | hmem
          · subst heq
            rfl
          · exact hall pm hmem

/-- What a preprocessing result produced by the pipeline looks like,
relative to the batch-start state's components: either a no-op, or a full
result carrying the genuinely opened prover and the cache lookup for its
path, with every guard known to have passed. -/
def GenuineRes (fs : FileSystem) (cache : List (PathT × CacheEntry))
    (plots : List (PathT × PlotInfo)) (pfp : List (String × String × List String))
    (ms : Option String) (r : PreProcessingResult) : Prop :=
  r.stat_info = none
  ∨ (∃ si pr, openProver fs r.path = Except.ok (si, pr)
      ∧ r = { path := r.path, cache_entry := alookup r.path cache,
              stat_info := some si, prover := some pr, duration := 0 }
      ∧ matchRejects ms r.path = false
      ∧ (alookup r.path plots).isSome = false
      ∧ duplicateSkip pfp r.path = false
      ∧ ¬ undersized pr.k si.st_size)

/-- Field-constancy through the preprocessing stage: only the failure
registry may change. -/
def PreBatchConst (s s2 : PlotManager) : Prop :=
  s2.plots = s.plots ∧ s2.plot_filename_paths = s.plot_filename_paths
  ∧ s2.cache = s.cache ∧ s2.no_key_filenames = s.no_key_filenames
  ∧ s2.farmer_public_keys = s.farmer_public_keys ∧ s2.pool_public_keys = s.pool_public_keys
  ∧ s2.match_str = s.match_str ∧ s2.open_no_key_filenames = s.open_no_key_filenames
  ∧ s2.refresh_parameter = s.refresh_parameter ∧ s2.refreshing_enabled = s.refreshing_enabled
  ∧ s2.last_refresh_time = s.last_refresh_time ∧ s2.initial = s.initial

theorem preBatchConst_refl (s : PlotManager) : PreBatchConst s s :=
  ⟨rfl, rfl, rfl, rfl, rfl, rfl, rfl, rfl, rfl, rfl, rfl, rfl⟩

theorem honestFailed_aset {fs : FileSystem} {s : PlotManager} {q : PathT} {t : Int}
    (h : HonestFailed fs s) (hq : ∀ fd, alookup q fs = some fd → fd.openable = none) :
    HonestFailed fs { s with
      failed_to_open_filenames := aset q t s.failed_to_open_filenames } := by
  intro p tp hmem fd hfd
  have hmem2 : (p, tp) ∈ aset q t s.failed_to_open_filenames := hmem
  rcases mem_aset _ _ _ _ hmem2 with heq | hmem3
  · injection heq with h1 h2
    exact hq fd (h1 ▸ hfd)
  · exact h p tp hmem3 fd hfd

/-- The duplicate guard, unpacked. -/
theorem duplicateSkip_true {pfp : List (String × String × List String)} {p : PathT}
    (h : duplicateSkip pfp p = true) :
    ∃ e, alookup p.name pfp = some e ∧ p.parent ∈ e.2 := by
  unfold duplicateSkip at h
  cases hl : alookup p.name pfp with
  | none => rw [hl] at h; cases h
  | some e =>
    rw [hl] at h
    exact ⟨e, rfl, of_decide_eq_true h⟩

/-- The behavioral spec of one batch's preprocessing pass: only the
failure registry changes (honestly so), every produced result is genuine
relative to the batch-start state, and — refreshing enabled with an honest
failure registry — every path of the batch is either already settled or
appears among the results with a full (stat-carrying) entry. -/
theorem preProcessBatch_spec (fs : FileSystem) (now : ℚ) :
    ∀ (batch : List PathT) (s : PlotManager),
      PreBatchConst s (preProcessBatch fs now s batch).2
      ∧ (HonestFailed fs s → HonestFailed fs (preProcessBatch fs now s batch).2)
      ∧ (∀ r ∈ (preProcessBatch fs now s batch).1,
          GenuineRes fs s.cache.data s.plots s.plot_filename_paths s.match_str r)
      ∧ (s.refreshing_enabled = true → HonestFailed fs s →
          ∀ p ∈ batch, Settled fs s p
            ∨ ∃ r ∈ (preProcessBatch fs now s batch).1,
                r.path = p ∧ r.stat_info.isSome = true) := by
  intro batch
  induction batch with
  | nil =>
    intro s
    refine ⟨preBatchConst_refl s, fun h => h, ?_, ?_⟩
    · intro r hr
      cases hr
    · intro _ _ p hp
      cases hp
  | cons p rest ih =>
    intro s
    have hspec := pre_process_file_spec s fs now p
    have hstep : preProcessBatch fs now s (p :: rest)
        = ((s.pre_process_file fs now p).1
            :: (preProcessBatch fs now (s.pre_process_file fs now p).2 rest).1,
           (preProcessBatch fs now (s.pre_process_file fs now p).2 rest).2) := rfl
    rw [hstep]
    rcases hspec.2.1 with hst | ⟨hst, hnoop1, hopen_none⟩
    · -- state unchanged by this file
      rw [hst]
      obtain ⟨ihconst, ihhonest, ihgen, ihpath⟩ := ih s
      refine ⟨ihconst, ihhonest, ?_, ?_⟩
      · intro r hr
        rcases List.mem_cons.mp hr with heq | hmem
        · subst heq
          rcases hspec.2.2.1 with hno | ⟨si, pr, hop, heqr, hm, hpl, hdup, hu⟩
          · exact Or.inl (by rw [hno]; rfl)
          · refine Or.inr ⟨si, pr, ?_, ?_, ?_, ?_, ?_, hu⟩
            · rw [hspec.1]; exact hop
            · rw [hspec.1, heqr]
            · rw [hspec.1]; exact hm
            · rw [hspec.1]; exact hpl
            · rw [hspec.1]; exact hdup
        · exact ihgen r hmem
      · intro hen hhf q hq
        rcases List.mem_cons.mp hq with heq | hmem
        · subst heq
          rcases hspec.2.2.1 with hno | ⟨si, pr, hop, heqr, hm, hpl, hdup, hu⟩
          · rcases hspec.2.2.2 hen hno with hr | hr | hr | hr | hr | hr
            · exact Or.inl (Or.inl hr)
            · obtain ⟨t, ht⟩ := hr
              exact Or.inl (Or.inr (Or.inr (Or.inl
                (fun fd hfd => hhf q t (alookup_eq_some_mem ht) fd hfd))))
            · exact Or.inl (Or.inr (Or.inl hr))
            · obtain ⟨e, he, hd⟩ := duplicateSkip_true hr
              exact Or.inl (Or.inr (Or.inr (Or.inr (Or.inr (Or.inl ⟨e, he, hd⟩)))))
            · exact Or.inl (Or.inr (Or.inr (Or.inl hr)))
            · obtain ⟨fd, k, m, hfd, hopen, hu2⟩ := hr
              exact Or.inl (Or.inr (Or.inr (Or.inr (Or.inl ⟨fd, k, m, hfd, hopen, hu2⟩))))
          · refine Or.inr ⟨(s.pre_process_file fs now q).1, List.mem_cons_self _ _,
              hspec.1, ?_⟩
            rw [heqr]
            rfl
        · rcases ihpath hen hhf q hmem with hsettled | ⟨r, hr, hrp, hrs⟩
          · exact Or.inl hsettled
          · exact Or.inr ⟨r, List.mem_cons_of_mem _ hr, hrp, hrs⟩
    · -- open failure recorded; the result is a no-op
      rw [hst]
      obtain ⟨ihconst, ihhonest, ihgen, ihpath⟩ :=
        ih { s with failed_to_open_filenames := aset p ⌊now⌋ s.failed_to_open_filenames }
      refine ⟨ihconst, ?_, ?_, ?_⟩
      · intro hhf
        exact ihhonest (honestFailed_aset hhf hopen_none)
      · intro r hr
        rcases List.mem_cons.mp hr with heq | hmem
        · subst heq
          exact Or.inl (by rw [hnoop1]; rfl)
        · exact ihgen r hmem
      · intro hen hhf q hq
        rcases List.mem_cons.mp hq with heq | hmem
        · subst heq
          exact Or.inl (Or.inr (Or.inr (Or.inl hopen_none)))
        · rcases ihpath hen (honestFailed_aset hhf hopen_none) q hmem with
            hsettled | ⟨r, hr, hrp, hrs⟩
          · exact Or.inl hsettled
          · exact Or.inr ⟨r, List.mem_cons_of_mem _ hr, hrp, hrs⟩

/-- The full behavioral specification of one `post_process_file` call:
configuration and the plot map are untouched, the failure registry at most
loses the path, and the outcome is exactly one of (a) rejected by the
key-ownership checks with the override flag unset and nothing but the
no-key registry touched, (b) detected as a duplicate, extending the
tracked filename's duplicate set with the prover's directory, or (c)
published, registering the filename fresh, bumping the cache entry and
clearing the path's failure entry. -/
def PostSpec (s : PlotManager) (now : ℚ) (p : PathT) (si : StatResult) (ce : CacheEntry)
    (out : Option PlotInfo × PlotManager) : Prop :=
  out.2.plots = s.plots
  ∧ out.2.farmer_public_keys = s.farmer_public_keys
  ∧ out.2.pool_public_keys = s.pool_public_keys
  ∧ out.2.match_str = s.match_str
  ∧ out.2.open_no_key_filenames = s.open_no_key_filenames
  ∧ out.2.refresh_parameter = s.refresh_parameter
  ∧ out.2.refreshing_enabled = s.refreshing_enabled
  ∧ out.2.last_refresh_time = s.last_refresh_time
  ∧ out.2.initial = s.initial
  ∧ (out.2.failed_to_open_filenames = s.failed_to_open_filenames
     ∨ out.2.failed_to_open_filenames = aerase p s.failed_to_open_filenames)
  ∧ ((out.1 = none
      ∧ out.2.cache = s.cache
      ∧ out.2.failed_to_open_filenames = s.failed_to_open_filenames
      ∧ s.open_no_key_filenames = false
      ∧ keyCheckFails s.farmer_public_keys s.pool_public_keys ce.keys
      ∧ out.2.plot_filename_paths = s.plot_filename_paths)
    ∨ (out.1 = none
      ∧ out.2.cache = s.cache
      ∧ out.2.failed_to_open_filenames = s.failed_to_open_filenames
      ∧ ∃ e, alookup p.name s.plot_filename_paths = some e
          ∧ out.2.plot_filename_paths
            = aset p.name (e.1, sinsert ce.prover.filename.parent e.2) s.plot_filename_paths)
    ∨ (out.1 = some (PlotInfo.mk ce.prover ce.keys.pool_public_key
          ce.keys.pool_contract_puzzle_hash ce.keys.plot_public_key si.st_size si.st_mtime)
      ∧ alookup p.name s.plot_filename_paths = none
      ∧ out.2.plot_filename_paths
          = aset p.name (ce.prover.filename.parent, []) s.plot_filename_paths
      ∧ out.2.cache = bumpSharedEntry s.cache p ce now
      ∧ ¬(s.open_no_key_filenames = false
          ∧ keyCheckFails s.farmer_public_keys s.pool_public_keys ce.keys)))

/-- `PostSpec` for the registration tail, transported along a state that
differs from `s` at most in the no-key registry, assuming the key checks
did not reject (or the flag is set). -/
theorem postProcessRegister_spec (s s3 : PlotManager) (now : ℚ) (p : PathT)
    (si : StatResult) (ce : CacheEntry)
    (hplots : s3.plots = s.plots)
    (hpfp : s3.plot_filename_paths = s.plot_filename_paths)
    (hcache : s3.cache = s.cache)
    (hfailed : s3.failed_to_open_filenames = s.failed_to_open_filenames)
    (hfarm : s3.farmer_public_keys = s.farmer_public_keys)
    (hpool : s3.pool_public_keys = s.pool_public_keys)
    (hms : s3.match_str = s.match_str)
    (hflag : s3.open_no_key_filenames = s.open_no_key_filenames)
    (hparam : s3.refresh_parameter = s.refresh_parameter)
    (hen : s3.refreshing_enabled = s.refreshing_enabled)
    (hlrt : s3.last_refresh_time = s.last_refresh_time)
    (hinit : s3.initial = s.initial)
    (hnokf : ¬(s.open_no_key_filenames = false
        ∧ keyCheckFails s.farmer_public_keys s.pool_public_keys ce.keys)) :
    PostSpec s now p si ce (postProcessRegister s3 now p si ce) := by
  unfold postProcessRegister
  rw [hpfp]
  cases hreg : alookup p.name s.plot_filename_paths with
  | some e =>
    exact ⟨hplots, hfarm, hpool, hms, hflag, hparam, hen, hlrt, hinit, Or.inl hfailed,
      Or.inr (Or.inl ⟨rfl, hcache, hfailed, e, hreg, rfl⟩)⟩
  | none =>
    by_cases hfo : (alookup p s3.failed_to_open_filenames).isSome = true
    · simp only [hfo, if_true, ite_true]
      refine ⟨hplots, hfarm, hpool, hms, hflag, hparam, hen, hlrt, hinit,
        Or.inr (by rw [hfailed]), ?_⟩
      refine Or.inr (Or.inr ⟨rfl, hreg, rfl, ?_, hnokf⟩)
      rw [hcache]
    · rw [Bool.not_eq_true] at hfo
      simp only [hfo, Bool.false_eq_true, if_false, ite_false]
      refine ⟨hplots, hfarm, hpool, hms, hflag, hparam, hen, hlrt, hinit,
        Or.inl hfailed, ?_⟩
      refine Or.inr (Or.inr ⟨rfl, hreg, rfl, ?_, hnokf⟩)
      rw [hcache]

/-- The behavioral specification holds of every `post_process_file`
call. -/
theorem post_process_file_spec (s : PlotManager) (now : ℚ) (p : PathT)
    (si : StatResult) (ce : CacheEntry) :
    PostSpec s now p si ce (s.post_process_file now p si ce) := by
  unfold PlotManager.post_process_file
  have happly : ∀ (s3 : PlotManager), s3.plots = s.plots →
      s3.plot_filename_paths = s.plot_filename_paths → s3.cache = s.cache →
      s3.failed_to_open_filenames = s.failed_to_open_filenames →
      s3.farmer_public_keys = s.farmer_public_keys →
      s3.pool_public_keys = s.pool_public_keys → s3.match_str = s.match_str →
      s3.open_no_key_filenames = s.open_no_key_filenames →
      s3.refresh_parameter = s.refresh_parameter →
      s3.refreshing_enabled = s.refreshing_enabled →
      s3.last_refresh_time = s.last_refresh_time → s3.initial = s.initial →
      ¬(s.open_no_key_filenames = false
        ∧ keyCheckFails s.farmer_public_keys s.pool_public_keys ce.keys) →
      PostSpec s now p si ce (postProcessRegister s3 now p si ce) :=
    fun s3 h1 h2 h3 h4 h5 h6 h7 h8 h9 h10 h11 h12 h13 =>
      postProcessRegister_spec s s3 now p si ce h1 h2 h3 h4 h5 h6 h7 h8 h9 h10 h11 h12 h13
  cases hflag : s.open_no_key_filenames with
  | false =>
    by_cases hfm : ce.keys.farmer_public_key ∉ s.farmer_public_keys
    · simp only [hflag, decide_eq_true hfm, Bool.not_false, Bool.and_true, Bool.true_and,
        if_true, ite_true]
      exact ⟨rfl, rfl, rfl, rfl, by rw [hflag], rfl, rfl, rfl, rfl, Or.inl rfl,
        Or.inl ⟨rfl, rfl, rfl, hflag, Or.inl hfm, rfl⟩⟩
    · cases hpk : ce.keys.pool_public_key with
      | none =>
        have hnokf : ¬(s.open_no_key_filenames = false
            ∧ keyCheckFails s.farmer_public_keys s.pool_public_keys ce.keys) := by
          rintro ⟨-, hkf | ⟨pk, hpk2, -⟩⟩
          · exact hfm hkf
          · rw [hpk] at hpk2; cases hpk2
        simp only [hflag, decide_eq_false hfm, hpk, Bool.false_and, Bool.false_eq_true,
          if_false, ite_false]
        by_cases hnk : p ∈ s.no_key_filenames
        · rw [if_pos hnk]
          exact happly _ rfl rfl rfl rfl rfl rfl rfl hflag.symm rfl rfl rfl rfl hnokf
        · rw [if_neg hnk]
          exact happly s rfl rfl rfl rfl rfl rfl rfl rfl rfl rfl rfl rfl hnokf
      | some pk =>
        by_cases hpkm : pk ∉ s.pool_public_keys
        · simp only [hflag, decide_eq_false hfm, hpk, decide_eq_true hpkm, Bool.false_and,
            Bool.false_eq_true, if_false, ite_false, Bool.not_false, Bool.and_true,
            Bool.true_and, if_true, ite_true]
          refine ⟨rfl, rfl, rfl, rfl, by rw [hflag], rfl, rfl, rfl, rfl, Or.inl rfl,
            Or.inl ⟨rfl, rfl, rfl, hflag, Or.inr ⟨pk, hpk, hpkm⟩, rfl⟩⟩
        · have hnokf : ¬(s.open_no_key_filenames = false
              ∧ keyCheckFails s.farmer_public_keys s.pool_public_keys ce.keys) := by
            rintro ⟨-, hkf | ⟨pk2, hpk2, hm2⟩⟩
            · exact hfm hkf
            · rw [hpk] at hpk2
              injection hpk2 with hpk3
              exact hpkm (hpk3 ▸ hm2)
          simp only [hflag, decide_eq_false hfm, hpk, decide_eq_false hpkm, Bool.false_and,
            Bool.false_eq_true, if_false, ite_false]
          by_cases hnk : p ∈ s.no_key_filenames
          · rw [if_pos hnk]
            exact happly _ rfl rfl rfl rfl rfl rfl rfl hflag.symm rfl rfl rfl rfl hnokf
          · rw [if_neg hnk]
            exact happly s rfl rfl rfl rfl rfl rfl rfl rfl rfl rfl rfl rfl hnokf
  | true =>
    have hnokf : ¬(s.open_no_key_filenames = false
        ∧ keyCheckFails s.farmer_public_keys s.pool_public_keys ce.keys) := by
      rintro ⟨hf, -⟩
      rw [hflag] at hf
      cases hf
    by_cases hfm : (decide (ce.keys.farmer_public_key ∉ s.farmer_public_keys)) = true
    · by_cases hpb : (match ce.keys.pool_public_key with
          | some pk => decide (pk ∉ s.pool_public_keys)
          | none => false) = true
      · simp only [hflag, hfm, hpb, Bool.not_true, Bool.and_false, Bool.false_eq_true,
          if_false, ite_false, if_true, ite_true]
        by_cases hnk : p ∈ sinsert p (sinsert p s.no_key_filenames)
        · rw [if_pos hnk]
          exact happly _ rfl rfl rfl rfl rfl rfl rfl hflag.symm rfl rfl rfl rfl hnokf
        · rw [if_neg hnk]
          exact happly _ rfl rfl rfl rfl rfl rfl rfl hflag.symm rfl rfl rfl rfl hnokf
      · rw [Bool.not_eq_true] at hpb
        simp only [hflag, hfm, hpb, Bool.not_true, Bool.and_false, Bool.false_and,
          Bool.false_eq_true, if_false, ite_false, if_true, ite_true]
        by_cases hnk : p ∈ sinsert p s.no_key_filenames
        · rw [if_pos hnk]
          exact happly _ rfl rfl rfl rfl rfl rfl rfl hflag.symm rfl rfl rfl rfl hnokf
        · rw [if_neg hnk]
          exact happly _ rfl rfl rfl rfl rfl rfl rfl hflag.symm rfl rfl rfl rfl hnokf
    · rw [Bool.not_eq_true] at hfm
      by_cases hpb : (match ce.keys.pool_public_key with
          | some pk => decide (pk ∉ s.pool_public_keys)
          | none => false) = true
      · simp only [hflag, hfm, hpb, Bool.not_true, Bool.and_false, Bool.false_and,
          Bool.false_eq_true, if_false, ite_false, if_true, ite_true]
        by_cases hnk : p ∈ sinsert p s.no_key_filenames
        · rw [if_pos hnk]
          exact happly _ rfl rfl rfl rfl rfl rfl rfl hflag.symm rfl rfl rfl rfl hnokf
        · rw [if_neg hnk]
          exact happly _ rfl rfl rfl rfl rfl rfl rfl hflag.symm rfl rfl rfl rfl hnokf
      · rw [Bool.not_eq_true] at hpb
        simp only [hflag, hfm, hpb, Bool.not_true, Bool.and_false, Bool.false_and,
          Bool.false_eq_true, if_false, ite_false]
        by_cases hnk : p ∈ s.no_key_filenames
        · rw [if_pos hnk]
          exact happly _ rfl rfl rfl rfl rfl rfl rfl hflag.symm rfl rfl rfl rfl hnokf
        · rw [if_neg hnk]
          exact happly s rfl rfl rfl rfl rfl rfl rfl rfl rfl rfl rfl rfl hnokf


/-! Claim C2: no-key plots in `post_process_file`. -/

/-- C2 probes the no-key handling. What the code actually does for a plot
whose farmer public key is not configured: with
`open_no_key_filenames = false` it returns no `PlotInfo` and the path is in
the no-key registry afterwards (as the claim says); but with
`open_no_key_filenames = true` — the pool key check passing and the
filename not yet registered — it returns a `PlotInfo` *and the path is no
longer in the no-key registry when the call returns*: the path is added by
the key check and then removed again by the passed-the-checks cleanup,
which runs even though the checks did not pass. -/
theorem post_process_no_key_registry :
    ∀ (self : PlotManager) (now : ℚ) (file_path : PathT) (si : StatResult) (e : CacheEntry),
      e.keys.farmer_public_key ∉ self.farmer_public_keys →
      (self.open_no_key_filenames = false →
        (self.post_process_file now file_path si e).1 = none
        ∧ file_path ∈ (self.post_process_file now file_path si e).2.no_key_filenames)
      ∧ (self.open_no_key_filenames = true →
         (match e.keys.pool_public_key with
          | some pk => decide (pk ∉ self.pool_public_keys)
          | none => false) = false →
         self.no_key_filenames.Nodup →
         alookup file_path.name self.plot_filename_paths = none →
         (self.post_process_file now file_path si e).1.isSome = true
         ∧ file_path ∉ (self.post_process_file now file_path si e).2.no_key_filenames) := by
  intro self now file_path si e hfarmer
  have hfb : decide (e.keys.farmer_public_key ∉ self.farmer_public_keys) = true :=
    decide_eq_true hfarmer
  constructor
  · intro hflag
    unfold PlotManager.post_process_file
    simp only [hfb, hflag, if_true, Bool.not_false, Bool.and_true, Bool.true_and,
      Bool.and_self, ite_true]
    exact ⟨trivial, (mem_sinsert _ _ _).mpr (Or.inl rfl)⟩
  · intro hflag hpool hnodup hpfp
    unfold PlotManager.post_process_file
    simp only [hfb, hflag, if_true, Bool.not_true, Bool.and_false, Bool.false_eq_true,
      if_false, ite_true]
    simp only [hpool, Bool.false_and, Bool.false_eq_true, if_false, ite_false]
    have hmem : file_path ∈ sinsert file_path self.no_key_filenames :=
      (mem_sinsert _ _ _).mpr (Or.inl rfl)
    simp only [hmem, if_true, ite_true]
    unfold postProcessRegister
    dsimp only
    rw [hpfp]
    refine ⟨rfl, ?_⟩
    dsimp only
    by_cases hfo : (alookup file_path self.failed_to_open_filenames).isSome = true
    · simp only [hfo, if_true, ite_true]
      exact not_mem_sdel_self _ _ (nodup_sinsert _ _ hnodup)
    · simp only [hfo, if_false, ite_false]
      exact not_mem_sdel_self _ _ (nodup_sinsert _ _ hnodup)

/-- Witness for C2, at a manager configured with farmer key 1 and the
override flag set, post-processing a plot whose farmer key is 2: a
`PlotInfo` is returned and the no-key registry does not contain the path
afterwards. -/
theorem post_process_no_key_registry_witness :
    ((2 : G1Element) ∉
      ({ PlotManager.init none true (PlotsRefreshParameter.mk 120 1200 300) with
          refreshing_enabled := true, farmer_public_keys := [1],
          pool_public_keys := [3] }).farmer_public_keys)
    ∧ (({ PlotManager.init none true (PlotsRefreshParameter.mk 120 1200 300) with
          refreshing_enabled := true, farmer_public_keys := [1],
          pool_public_keys := [3] }).post_process_file 1 (PathT.mk "/plots" "nokey.plot")
          (StatResult.mk 10 0)
          (CacheEntry.mk (DiskProver.mk (PathT.mk "/plots" "nokey.plot") 32 none)
            (CacheKeys.mk 2 (some 3) none 4) 0)).1.isSome = true
    ∧ (PathT.mk "/plots" "nokey.plot") ∉
        (({ PlotManager.init none true (PlotsRefreshParameter.mk 120 1200 300) with
            refreshing_enabled := true, farmer_public_keys := [1],
            pool_public_keys := [3] }).post_process_file 1 (PathT.mk "/plots" "nokey.plot")
            (StatResult.mk 10 0)
            (CacheEntry.mk (DiskProver.mk (PathT.mk "/plots" "nokey.plot") 32 none)
              (CacheKeys.mk 2 (some 3) none 4) 0)).2.no_key_filenames := by
  have hout := (post_process_no_key_registry
    { PlotManager.init none true (PlotsRefreshParameter.mk 120 1200 300) with
      refreshing_enabled := true, farmer_public_keys := [1], pool_public_keys := [3] }
    1 (PathT.mk "/plots" "nokey.plot") (StatResult.mk 10 0)
    (CacheEntry.mk (DiskProver.mk (PathT.mk "/plots" "nokey.plot") 32 none)
      (CacheKeys.mk 2 (some 3) none 4) 0)
    (by decide)).2 rfl (by decide) (by decide) rfl
  exact ⟨by decide, hout.1, hout.2⟩

/-! The batch pipeline preserved facts, towards C5 and C6. -/

theorem alookup_mem_fsPaths {fs : FileSystem} {p : PathT} {fd : FileData}
    (h : alookup p fs = some fd) : p ∈ fsPaths fs :=
  List.mem_map_of_mem Prod.fst (alookup_eq_some_mem h)

/-- An honest entry: its prover was opened at its path on the current
filesystem and its keys are the derived ones. -/
def HonestEntry (fs : FileSystem) (p : PathT) (ce : CacheEntry) : Prop :=
  ce.prover.filename = p
  ∧ ∀ fd, alookup p fs = some fd →
      fd.openable = some (ce.prover.k, ce.prover.memo)
      ∧ derivedKeys ce.prover.memo = some ce.keys

/-- Cache honesty as a property of the raw entry list: every stored entry
is honest for the path it is keyed by. -/
def HonestCacheData (fs : FileSystem) (cache : List (PathT × CacheEntry)) : Prop :=
  ∀ pe ∈ cache, HonestEntry fs pe.1 pe.2

theorem honestCacheData_aset {fs : FileSystem} {cache : List (PathT × CacheEntry)}
    {q : PathT} {ce : CacheEntry} (h : HonestCacheData fs cache)
    (hce : HonestEntry fs q ce) : HonestCacheData fs (aset q ce cache) := by
  intro pe hpe
  rcases mem_aset _ _ _ _ hpe with heq | hmem
  · rw [heq]
    exact hce
  · exact h pe hmem

theorem honestCacheData_bump {fs : FileSystem} {c : Cache} {q : PathT} {ce : CacheEntry}
    {now : ℚ} (h : HonestCacheData fs c.data) (hce : HonestEntry fs q ce) :
    HonestCacheData fs (bumpSharedEntry c q ce now).data := by
  unfold bumpSharedEntry
  by_cases hq : (alookup q c.data).isSome = true
  · rw [if_pos hq]
    exact honestCacheData_aset h ⟨hce.1, hce.2⟩
  · rw [if_neg hq]
    exact h

/-- The entry a cache lookup returns is honest, under cache honesty. -/
theorem honestCacheData_get {fs : FileSystem} {cache : List (PathT × CacheEntry)}
    {q : PathT} {ce : CacheEntry} (h : HonestCacheData fs cache)
    (hl : alookup q cache = some ce) : HonestEntry fs q ce :=
  h (q, ce) (alookup_eq_some_mem hl)

theorem cacheFilenameOk_aset {cache : List (PathT × CacheEntry)} {q : PathT}
    {ce : CacheEntry} (h : CacheFilenameOk cache) (hfn : ce.prover.filename = q) :
    CacheFilenameOk (aset q ce cache) := by
  intro pe hpe
  rcases mem_aset _ _ _ _ hpe with heq | hmem
  · rw [heq]
    exact hfn
  · exact h pe hmem

/-- The entry a cache lookup returns carries its own path, under the
filename invariant. -/
theorem cacheFilenameOk_get {cache : List (PathT × CacheEntry)} {q : PathT}
    {ce : CacheEntry} (h : CacheFilenameOk cache) (hl : alookup q cache = some ce) :
    ce.prover.filename = q :=
  h (q, ce) (alookup_eq_some_mem hl)

/-- The bump keeps every stored prover keyed by its own path. -/
theorem cacheFilenameOk_bump {c : Cache} {q : PathT} {ce : CacheEntry} {now : ℚ}
    (h : CacheFilenameOk c.data) (hfn : ce.prover.filename = q) :
    CacheFilenameOk (bumpSharedEntry c q ce now).data := by
  unfold bumpSharedEntry
  by_cases hq : (alookup q c.data).isSome = true
  · rw [if_pos hq]
    exact cacheFilenameOk_aset h hfn
  · rw [if_neg hq]
    exact h

/-- A settled path cannot be published by `post_process_file`: the call
returns `none` whenever the filename is already tracked or the keys fail
with the flag unset. -/
theorem post_none_of_notPublishable (st : PlotManager) (now : ℚ) (q : PathT)
    (si : StatResult) (ce : CacheEntry)
    (h : (alookup q.name st.plot_filename_paths).isSome = true
      ∨ (st.open_no_key_filenames = false
          ∧ keyCheckFails st.farmer_public_keys st.pool_public_keys ce.keys)) :
    (st.post_process_file now q si ce).1 = none := by
  have hspec := post_process_file_spec st now q si ce
  rcases hspec.2.2.2.2.2.2.2.2.2.2 with h1 | h2 | h3
  · exact h1.1
  · exact h2.1
  · exfalso
    rcases h with hpfp | hkf
    · rw [h3.2.1] at hpfp
      simp at hpfp
    · exact h3.2.2.2.2 hkf

/-- The state facts preserved by one `post_process_file` call inside the
batch pipeline, for an on-disk path with an honest entry. -/
theorem post_step_state (fs : FileSystem) (s st : PlotManager) (now : ℚ) (q : PathT)
    (si : StatResult) (ce : CacheEntry)
    (hev : StateEvolves s st) (hplots : st.plots = s.plots)
    (hhc : HonestCacheData fs st.cache.data) (hhf : HonestFailed fs st)
    (hce : HonestEntry fs q ce) (hqfs : q ∈ fsPaths fs) :
    StateEvolves s (st.post_process_file now q si ce).2
    ∧ (st.post_process_file now q si ce).2.plots = s.plots
    ∧ StateEvolves st (st.post_process_file now q si ce).2
    ∧ HonestCacheData fs (st.post_process_file now q si ce).2.cache.data
    ∧ HonestFailed fs (st.post_process_file now q si ce).2
    ∧ (PfpPresent fs st.plot_filename_paths →
        PfpPresent fs (st.post_process_file now q si ce).2.plot_filename_paths)
    ∧ ((st.post_process_file now q si ce).1 = none →
        Settled fs (st.post_process_file now q si ce).2 q
        ∨ Settled fs st q) := by
  have hspec := post_process_file_spec st now q si ce
  obtain ⟨hsp, hsf, hspo, hsm, hsflag, hsrp, hsen, hslrt, hsinit, hsfail, hout⟩ := hspec
  have hevst : StateEvolves st (st.post_process_file now q si ce).2 := by
    refine ⟨hsm, hsflag, hsf, hspo, hsrp, hsen, ?_, ?_⟩
    · intro x hx
      rw [hsp]
      exact hx
    · intro fn e he
      rcases hout with h1 | h2 | h3
      · exact ⟨e, by rw [h1.2.2.2.2.2]; exact he, fun d hd => hd⟩
      · obtain ⟨-, -, -, e2, he2, hpfp2⟩ := h2
        rw [hpfp2, alookup_aset]
        by_cases hfn : q.name = fn
        · subst hfn
          rw [he] at he2
          injection he2 with he3
          subst he3
          exact ⟨_, by rw [if_pos rfl], fun d hd => (mem_sinsert _ _ _).mpr (Or.inr hd)⟩
        · rw [if_neg hfn]
          exact ⟨e, he, fun d hd => hd⟩
      · obtain ⟨-, hnone, hpfp3, -, -⟩ := h3
        rw [hpfp3, alookup_aset]
        by_cases hfn : q.name = fn
        · subst hfn
          rw [he] at hnone
          cases hnone
        · rw [if_neg hfn]
          exact ⟨e, he, fun d hd => hd⟩
  have hfailed_honest : HonestFailed fs (st.post_process_file now q si ce).2 := by
    intro p t hmem fd hfd
    rcases hsfail with heq | heq
    · rw [heq] at hmem
      exact hhf p t hmem fd hfd
    · rw [heq] at hmem
      exact hhf p t ((aerase_sublist q st.failed_to_open_filenames).subset hmem) fd hfd
  refine ⟨hev.trans hevst, by rw [hsp, hplots], hevst, ?_, hfailed_honest, ?_, ?_⟩
  · rcases hout with h1 | h2 | h3
    · rw [h1.2.1]
      exact hhc
    · rw [h2.2.1]
      exact hhc
    · rw [h3.2.2.2.1]
      exact honestCacheData_bump hhc hce
  · intro hpp ent hent
    rcases hout with h1 | h2 | h3
    · rw [h1.2.2.2.2.2] at hent
      exact hpp ent hent
    · obtain ⟨-, -, -, e2, he2, hpfp2⟩ := h2
      rw [hpfp2] at hent
      rcases mem_aset _ _ _ _ hent with heq | hold
      · obtain ⟨hold1, hold2⟩ := hpp (q.name, e2) (alookup_eq_some_mem he2)
        rw [heq]
        refine ⟨hold1, ?_⟩
        intro d hd
        rcases (mem_sinsert _ _ _).mp hd with hdq | hdold
        · rw [hdq, hce.1]
          exact hqfs
        · exact hold2 d hdold
      · exact hpp ent hold
    · obtain ⟨-, hnone, hpfp3, -, -⟩ := h3
      rw [hpfp3] at hent
      rcases mem_aset _ _ _ _ hent with heq | hold
      · rw [heq]
        refine ⟨?_, ?_⟩
        · rw [hce.1]
          exact hqfs
        · intro d hd
          cases hd
      · exact hpp ent hold
  · intro hnone
    rcases hout with h1 | h2 | h3
    · -- key-check rejection: settled by the no-key disjunct, at st
      right
      obtain ⟨-, -, -, hflag, hkf, -⟩ := h1
      obtain ⟨fd, hfd⟩ : ∃ fd, alookup q fs = some fd :=
        Option.isSome_iff_exists.mp ((alookup_isSome_iff_mem q fs).mpr hqfs)
      obtain ⟨hopen, hdk⟩ := hce.2 fd hfd
      exact Or.inr (Or.inr (Or.inr (Or.inr (Or.inr
        ⟨hflag, fd, ce.prover.k, ce.prover.memo, ce.keys, hfd, hopen, hdk, hkf⟩))))
    · -- duplicate: settled at the new state by the duplicate disjunct
      left
      obtain ⟨-, -, -, e2, he2, hpfp2⟩ := h2
      refine Or.inr (Or.inr (Or.inr (Or.inr (Or.inl ?_))))
      rw [hpfp2, alookup_aset, if_pos rfl]
      exact ⟨_, rfl, (mem_sinsert _ _ _).mpr (Or.inl (by rw [hce.1]))⟩
    · rw [h3.1] at hnone
      cases hnone

/-- A path settled at the pre-batch state cannot be published by a later
`post_process_file` call whose entry's keys derive from the file's own
memo: the guards known to have passed rule out every settled reason except
a registered duplicate or a key rejection, and both of those make the call
return `none`. -/
theorem settled_post_none (fs : FileSystem) (spre st : PlotManager) (now : ℚ)
    (p : PathT) (si0 si : StatResult) (pr : DiskProver) (ce : CacheEntry)
    (hset : Settled fs spre p)
    (hev : StateEvolves spre st)
    (hop : openProver fs p = Except.ok (si, pr))
    (hplots : (alookup p spre.plots).isSome = false)
    (hms : matchRejects spre.match_str p = false)
    (hund : ¬ undersized pr.k si.st_size)
    (hdk : derivedKeys pr.memo = some ce.keys) :
    (st.post_process_file now p si0 ce).1 = none := by
  obtain ⟨hfn, fd, hfd, hopen, hsi⟩ := openProver_ok_spec hop
  obtain ⟨-, hflage, hfarme, hpoole, -, -, -, hpfpe⟩ := hev
  rcases hset with h | h | h | h | h | h
  · rw [h] at hms
    cases hms
  · rw [h] at hplots
    cases hplots
  · rw [h fd hfd] at hopen
    cases hopen
  · obtain ⟨fd2, k2, m2, hfd2, hopen2, hu2⟩ := h
    rw [hfd] at hfd2
    injection hfd2 with hfd3
    subst hfd3
    rw [hopen] at hopen2
    injection hopen2 with hkm
    injection hkm with hk hm
    exfalso
    apply hund
    rw [hk, hsi]
    exact hu2
  · obtain ⟨e, he, hd⟩ := h
    obtain ⟨e1, he1, -⟩ := hpfpe p.name e he
    exact post_none_of_notPublishable st now p si0 ce (Or.inl (by rw [he1]; rfl))
  · obtain ⟨hfl, fd2, k2, m2, keys2, hfd2, hopen2, hdk2, hkf2⟩ := h
    rw [hfd] at hfd2
    injection hfd2 with hfd3
    subst hfd3
    rw [hopen] at hopen2
    injection hopen2 with hkm
    injection hkm with hk hm
    subst hm
    rw [hdk] at hdk2
    injection hdk2 with hkeys
    subst hkeys
    exact post_none_of_notPublishable st now p si0 ce (Or.inr
      ⟨by rw [hflage]; exact hfl, by rw [hfarme, hpoole]; exact hkf2⟩)

/-- The facts carried by the bulk-decode argument list and its side
tables, relative to the pre-batch state: each queued path opened
genuinely, its queued memo is the opened prover's, the side tables record
exactly the opened stat and prover, and every preprocessing guard had
passed for it. -/
def ArgsFacts (fs : FileSystem) (spre : PlotManager) (acc : BatchPhase1) : Prop :=
  ∀ pm ∈ acc.process_args, ∃ si pr, openProver fs pm.1 = Except.ok (si, pr)
    ∧ pm.2 = pr.memo
    ∧ alookup pm.1 acc.stat_infos = some si
    ∧ alookup pm.1 acc.provers = some pr
    ∧ (alookup pm.1 spre.plots).isSome = false
    ∧ matchRejects spre.match_str pm.1 = false
    ∧ ¬ undersized pr.k si.st_size

theorem alookup_aset_isSome {α β : Type} [DecidableEq α] {p : α} {l : List (α × β)}
    (k : α) (v : β) (h : (alookup p l).isSome = true) :
    (alookup p (aset k v l)).isSome = true := by
  rw [alookup_aset]
  by_cases hk : k = p
  · rw [if_pos hk]
    rfl
  · rw [if_neg hk]
    exact h

theorem stateEvolves_cache_set (s : PlotManager) (c : Cache) :
    StateEvolves s { s with cache := c } :=
  ⟨rfl, rfl, rfl, rfl, rfl, rfl, fun _ h => h, fun _ e he => ⟨e, he, fun _ hd => hd⟩⟩

theorem PreBatchConst.toEvolves {s s2 : PlotManager} (h : PreBatchConst s s2) :
    StateEvolves s s2 := by
  obtain ⟨hp, hf, hc, hn, hfa, hpo, hm, hfl, hpar, hen, hlrt, hinit⟩ := h
  exact ⟨hm, hfl, hfa, hpo, hpar, hen, fun p hx => by rw [hp]; exact hx,
    fun fn e he => ⟨e, by rw [hf]; exact he, fun d hd => hd⟩⟩

/-- The behavioral spec of the first `refresh_batch` loop, by induction on
the remaining preprocessing results: the state evolves without touching the
plot map, honesty of cache and failure registry and the argument-table
facts are maintained, registry presence is preserved, the bulk-decode queue
and the pending plot updates only grow, every input result ends up settled,
pending or queued, and — when every full input is already settled — nothing
is pended or loaded. -/
theorem refreshBatchPhase1_spec (fs : FileSystem) (now : ℚ) (spre : PlotManager) :
    ∀ (rs : List PreProcessingResult) (acc : BatchPhase1),
      (∀ r ∈ rs, GenuineRes fs spre.cache.data spre.plots spre.plot_filename_paths
          spre.match_str r) →
      HonestCacheData fs spre.cache.data →
      StateEvolves spre acc.state →
      HonestCacheData fs acc.state.cache.data →
      HonestFailed fs acc.state →
      ArgsFacts fs spre acc →
      ∀ acc2, refreshBatchPhase1 now acc rs = Except.ok acc2 →
        StateEvolves spre acc2.state
        ∧ StateEvolves acc.state acc2.state
        ∧ acc2.state.plots = acc.state.plots
        ∧ HonestCacheData fs acc2.state.cache.data
        ∧ HonestFailed fs acc2.state
        ∧ ArgsFacts fs spre acc2
        ∧ (PfpPresent fs acc.state.plot_filename_paths →
            PfpPresent fs acc2.state.plot_filename_paths)
        ∧ (∀ pm ∈ acc.process_args, pm ∈ acc2.process_args)
        ∧ (∀ p, (alookup p acc.plots_refreshed).isSome = true →
            (alookup p acc2.plots_refreshed).isSome = true)
        ∧ (∀ r ∈ rs, r.stat_info.isSome = true →
            Settled fs acc2.state r.path
            ∨ (alookup r.path acc2.plots_refreshed).isSome = true
            ∨ ∃ m, (r.path, m) ∈ acc2.process_args)
        ∧ ((∀ r ∈ rs, r.stat_info.isSome = true → Settled fs spre r.path) →
            acc2.plots_refreshed = acc.plots_refreshed ∧ acc2.loaded = acc.loaded)
        ∧ (∀ pm ∈ acc2.process_args, pm ∈ acc.process_args
            ∨ ∃ r ∈ rs, r.stat_info.isSome = true ∧ r.path = pm.1) := by
  intro rs
  induction rs with
  | nil =>
    intro acc hgen hhc0 hev hhc hhf hargs acc2 heq
    injection heq with heq2
    subst heq2
    refine ⟨hev, stateEvolves_refl _, rfl, hhc, hhf, hargs, fun h => h, fun pm h => h,
      fun p h => h, ?_, fun _ => ⟨rfl, rfl⟩, fun pm h => Or.inl h⟩
    intro r hr
    cases hr
  | cons r rest ih =>
    intro acc hgen hhc0 hev hhc hhf hargs acc2 heq
    have hgenr := hgen r (List.mem_cons_self _ _)
    have hgenrest : ∀ r2 ∈ rest, GenuineRes fs spre.cache.data spre.plots
        spre.plot_filename_paths spre.match_str r2 :=
      fun r2 h2 => hgen r2 (List.mem_cons_of_mem _ h2)
    unfold refreshBatchPhase1 at heq
    dsimp only at heq
    cases hsi : r.stat_info with
    | none =>
      rw [hsi] at heq
      obtain ⟨c1, c2, c3, c4, c5, c6, c7, c8, c9, c10, c11, c12⟩ :=
        ih acc hgenrest hhc0 hev hhc hhf hargs acc2 heq
      refine ⟨c1, c2, c3, c4, c5, c6, c7, c8, c9, ?_, ?_, ?_⟩
      · intro r2 hr2 hsome
        rcases List.mem_cons.mp hr2 with heq2 | hm2
        · subst heq2
          rw [hsi] at hsome
          cases hsome
        · exact c10 r2 hm2 hsome
      · intro hprem
        exact c11 (fun r2 h2 hs2 => hprem r2 (List.mem_cons_of_mem _ h2) hs2)
      · intro pm hpm
        rcases c12 pm hpm with h | ⟨r2, h2, hs2, hp2⟩
        · exact Or.inl h
        · exact Or.inr ⟨r2, List.mem_cons_of_mem _ h2, hs2, hp2⟩
    | some si =>
      rw [hsi] at heq
      rcases hgenr with hnone | ⟨si2, pr2, hop2, heqr, hm2, hpl2, hdup2, hu2⟩
      · rw [hsi] at hnone
        cases hnone
      · have hsi2 : r.stat_info = some si2 := by rw [heqr]
        have hpr2 : r.prover = some pr2 := by rw [heqr]
        have hcee : r.cache_entry = alookup r.path spre.cache.data := by rw [heqr]
        rw [hsi] at hsi2
        injection hsi2 with hsieq
        subst hsieq
        cases hce : r.cache_entry with
        | none =>
          rw [hce] at heq
          cases hpr : r.prover with
          | none =>
            rw [hpr2] at hpr
            cases hpr
          | some prover =>
            rw [hpr2] at hpr
            injection hpr with hpreq
            subst hpreq
            rw [hpr2] at heq
            -- the queue step
            have hargs2 : ArgsFacts fs spre
                { acc with
                  process_args := acc.process_args ++ [(r.path, pr2.memo)],
                  stat_infos := aset r.path si acc.stat_infos,
                  provers := aset r.path pr2 acc.provers } := by
              intro pm hpm
              rcases List.mem_append.mp hpm with hold | hnew
              · obtain ⟨spm, ppm, hoppm, hmemo, hsti, hprv, hplpm, hmspm, hundpm⟩ :=
                  hargs pm hold
                by_cases hpq : r.path = pm.1
                · have hopx : openProver fs pm.1 = Except.ok (si, pr2) := by
                    rw [← hpq]
                    exact hop2
                  have hdet := hoppm.symm.trans hopx
                  injection hdet with hpair
                  injection hpair with hspm hppm
                  refine ⟨si, pr2, hopx, ?_, ?_, ?_, hplpm, hmspm, ?_⟩
                  · rw [hmemo, hppm]
                  · rw [alookup_aset, if_pos hpq]
                  · rw [alookup_aset, if_pos hpq]
                  · rw [hspm, hppm] at hundpm
                    exact hundpm
                · refine ⟨spm, ppm, hoppm, hmemo, ?_, ?_, hplpm, hmspm, hundpm⟩
                  · rw [alookup_aset, if_neg hpq]
                    exact hsti
                  · rw [alookup_aset, if_neg hpq]
                    exact hprv
              · rw [List.mem_singleton.mp hnew]
                exact ⟨si, pr2, hop2, rfl, by rw [alookup_aset, if_pos rfl],
                  by rw [alookup_aset, if_pos rfl], hpl2, hm2, hu2⟩
            obtain ⟨c1, c2, c3, c4, c5, c6, c7, c8, c9, c10, c11, c12⟩ :=
              ih { acc with
                  process_args := acc.process_args ++ [(r.path, pr2.memo)],
                  stat_infos := aset r.path si acc.stat_infos,
                  provers := aset r.path pr2 acc.provers }
                hgenrest hhc0 hev hhc hhf hargs2 acc2 heq
            refine ⟨c1, c2, c3, c4, c5, c6, c7, ?_, c9, ?_, ?_, ?_⟩
            · intro pm hpm
              exact c8 pm (List.mem_append.mpr (Or.inl hpm))
            · intro r2 hr2 hsome
              rcases List.mem_cons.mp hr2 with heq2 | hm2x
              · subst heq2
                refine Or.inr (Or.inr ⟨pr2.memo, ?_⟩)
                exact c8 _ (List.mem_append.mpr (Or.inr (List.mem_singleton.mpr rfl)))
              · exact c10 r2 hm2x hsome
            · intro hprem
              exact c11 (fun r2 h2 hs2 => hprem r2 (List.mem_cons_of_mem _ h2) hs2)
            · intro pm hpm
              rcases c12 pm hpm with h | ⟨r2, h2, hs2, hp2⟩
              · rcases List.mem_append.mp h with hold | hnew
                · exact Or.inl hold
                · rw [List.mem_singleton.mp hnew]
                  exact Or.inr ⟨r, List.mem_cons_self _ _, by rw [hsi]; rfl, rfl⟩
              · exact Or.inr ⟨r2, List.mem_cons_of_mem _ h2, hs2, hp2⟩
        | some ce =>
          rw [hce] at heq
          rw [hce] at hcee
          have hentry : HonestEntry fs r.path ce :=
            honestCacheData_get hhc0 hcee.symm
          have hqfs : r.path ∈ fsPaths fs := by
            obtain ⟨-, fd, hfd, -, -⟩ := openProver_ok_spec hop2
            exact alookup_mem_fsPaths hfd
          obtain ⟨p1, p2, p3, p4, p5, p6, p7⟩ := post_step_state fs acc.state acc.state now
            r.path si ce (stateEvolves_refl _) rfl hhc hhf hentry hqfs
          have hdk : derivedKeys pr2.memo = some ce.keys := by
            obtain ⟨-, fd, hfd, hopen, -⟩ := openProver_ok_spec hop2
            obtain ⟨hopen2, hdk2⟩ := hentry.2 fd hfd
            rw [hopen] at hopen2
            injection hopen2 with hkm
            injection hkm with hk hm
            rw [hm]
            exact hdk2
          dsimp only at heq
          cases hout : (acc.state.post_process_file now r.path si ce).1 with
          | some info =>
            rw [hout] at heq
            dsimp only at heq
            obtain ⟨c1, c2, c3, c4, c5, c6, c7, c8, c9, c10, c11, c12⟩ :=
              ih { acc with
                  state := (acc.state.post_process_file now r.path si ce).2,
                  plots_refreshed := aset r.path info acc.plots_refreshed,
                  loaded := acc.loaded ++ [info] }
                hgenrest hhc0 (hev.trans p3) p4 p5 hargs acc2 heq
            refine ⟨c1, ?_, ?_, c4, c5, c6, ?_, c8, ?_, ?_, ?_, ?_⟩
            · exact p3.trans c2
            · rw [c3, p2]
            · intro hpp
              exact c7 (p6 hpp)
            · intro p hp
              exact c9 p (alookup_aset_isSome _ _ hp)
            · intro r2 hr2 hsome
              rcases List.mem_cons.mp hr2 with heq2 | hm2x
              · subst heq2
                exact Or.inr (Or.inl (c9 _ (by rw [alookup_aset, if_pos rfl]; rfl)))
              · exact c10 r2 hm2x hsome
            · intro hprem
              exfalso
              have hnone2 := settled_post_none fs spre acc.state now r.path si si pr2 ce
                (hprem r (List.mem_cons_self _ _) (by rw [hsi]; rfl))
                hev hop2 hpl2 hm2 hu2 hdk
              rw [hnone2] at hout
              cases hout
            · intro pm hpm
              rcases c12 pm hpm with h | ⟨r2, h2, hs2, hp2⟩
              · exact Or.inl h
              · exact Or.inr ⟨r2, List.mem_cons_of_mem _ h2, hs2, hp2⟩
          | none =>
            rw [hout] at heq
            dsimp only at heq
            obtain ⟨c1, c2, c3, c4, c5, c6, c7, c8, c9, c10, c11, c12⟩ :=
              ih { acc with state := (acc.state.post_process_file now r.path si ce).2 }
                hgenrest hhc0 (hev.trans p3) p4 p5 hargs acc2 heq
            have hsettle : Settled fs (acc.state.post_process_file now r.path si ce).2
                r.path := by
              rcases p7 hout with hs | hs
              · exact hs
              · exact hs.mono p3
            refine ⟨c1, ?_, ?_, c4, c5, c6, ?_, c8, c9, ?_, ?_, ?_⟩
            · exact p3.trans c2
            · rw [c3, p2]
            · intro hpp
              exact c7 (p6 hpp)
            · intro r2 hr2 hsome
              rcases List.mem_cons.mp hr2 with heq2 | hm2x
              · subst heq2
                exact Or.inl (hsettle.mono c2)
              · exact c10 r2 hm2x hsome
            · intro hprem
              exact c11 (fun r2 h2 hs2 => hprem r2 (List.mem_cons_of_mem _ h2) hs2)
            · intro pm hpm
              rcases c12 pm hpm with h | ⟨r2, h2, hs2, hp2⟩
              · exact Or.inl h
              · exact Or.inr ⟨r2, List.mem_cons_of_mem _ h2, hs2, hp2⟩

/-- The behavioral spec of the second `refresh_batch` loop, by induction
on the bulk-decode results: the state evolves without touching the plot
map, cache and failure honesty and registry presence are maintained, the
pending plot updates only grow, every processed path ends up settled or
pending, and — when every processed path is already settled — nothing new
is pended or loaded. -/
theorem refreshBatchPhase2_spec (fs : FileSystem) (now : ℚ) (spre : PlotManager)
    (stat_infos : List (PathT × StatResult)) (provers : List (PathT × DiskProver)) :
    ∀ (results : List (PathT × Option CacheKeys)) (st : PlotManager)
      (plots_refreshed : List (PathT × PlotInfo)) (loaded : List PlotInfo),
      (∀ pk ∈ results, ∃ si pr, openProver fs pk.1 = Except.ok (si, pr)
        ∧ alookup pk.1 stat_infos = some si
        ∧ alookup pk.1 provers = some pr
        ∧ pk.2 = derivedKeys pr.memo
        ∧ (derivedKeys pr.memo).isSome = true
        ∧ (alookup pk.1 spre.plots).isSome = false
        ∧ matchRejects spre.match_str pk.1 = false
        ∧ ¬ undersized pr.k si.st_size) →
      StateEvolves spre st →
      HonestCacheData fs st.cache.data →
      HonestFailed fs st →
      ∀ out, refreshBatchPhase2 now stat_infos provers st plots_refreshed loaded results
          = Except.ok out →
        StateEvolves spre out.2.2
        ∧ StateEvolves st out.2.2
        ∧ out.2.2.plots = st.plots
        ∧ HonestCacheData fs out.2.2.cache.data
        ∧ HonestFailed fs out.2.2
        ∧ (PfpPresent fs st.plot_filename_paths →
            PfpPresent fs out.2.2.plot_filename_paths)
        ∧ (∀ p, (alookup p plots_refreshed).isSome = true →
            (alookup p out.1).isSome = true)
        ∧ (∀ pk ∈ results, Settled fs out.2.2 pk.1 ∨ (alookup pk.1 out.1).isSome = true)
        ∧ ((∀ pk ∈ results, Settled fs spre pk.1) →
            out.1 = plots_refreshed ∧ out.2.1 = loaded) := by
  intro results
  induction results with
  | nil =>
    intro st prf ld hfacts hev hhc hhf out heq
    injection heq with heq2
    subst heq2
    refine ⟨hev, stateEvolves_refl _, rfl, hhc, hhf, fun h => h, fun p h => h, ?_,
      fun _ => ⟨rfl, rfl⟩⟩
    intro pk hpk
    cases hpk
  | cons pk rest ih =>
    intro st prf ld hfacts hev hhc hhf out heq
    obtain ⟨path, rb⟩ := pk
    obtain ⟨si, pr, hop, hsti, hprv, hpk2, hisome, hplg, hmsg, hug⟩ :=
      hfacts (path, rb) (List.mem_cons_self _ _)
    have hfactsrest : ∀ pk2 ∈ rest, ∃ si2 pr2, openProver fs pk2.1 = Except.ok (si2, pr2)
        ∧ alookup pk2.1 stat_infos = some si2
        ∧ alookup pk2.1 provers = some pr2
        ∧ pk2.2 = derivedKeys pr2.memo
        ∧ (derivedKeys pr2.memo).isSome = true
        ∧ (alookup pk2.1 spre.plots).isSome = false
        ∧ matchRejects spre.match_str pk2.1 = false
        ∧ ¬ undersized pr2.k si2.st_size :=
      fun pk2 h2 => hfacts pk2 (List.mem_cons_of_mem _ h2)
    cases rb with
    | none =>
      exfalso
      rw [← hpk2] at hisome
      simp at hisome
    | some keys =>
      have hkeys : derivedKeys pr.memo = some keys := by
        rw [← hpk2]
      unfold refreshBatchPhase2 at heq
      dsimp only at heq
      rw [hprv, hsti] at heq
      dsimp only at heq
      have hentry : HonestEntry fs path
          ⟨pr, keys, now⟩ := by
        obtain ⟨hfn, fd, hfd, hopen, -⟩ := openProver_ok_spec hop
        refine ⟨hfn, ?_⟩
        intro fd2 hfd2
        rw [hfd] at hfd2
        injection hfd2 with h3
        subst h3
        exact ⟨hopen, hkeys⟩
      have hqfs : path ∈ fsPaths fs := by
        obtain ⟨-, fd, hfd, -, -⟩ := openProver_ok_spec hop
        exact alookup_mem_fsPaths hfd
      have hs1ev : StateEvolves st { st with cache := st.cache.update path ⟨pr, keys, now⟩ } :=
        stateEvolves_cache_set st _
      have hs1hc : HonestCacheData fs ({ st with cache := st.cache.update path ⟨pr, keys, now⟩ } : PlotManager).cache.data := by
        dsimp only
        unfold Cache.update
        exact honestCacheData_aset hhc hentry
      have hs1hf : HonestFailed fs ({ st with cache := st.cache.update path ⟨pr, keys, now⟩ } : PlotManager) := hhf
      obtain ⟨p1, p2, p3, p4, p5, p6, p7⟩ := post_step_state fs st
        ({ st with cache := st.cache.update path ⟨pr, keys, now⟩ })
        now path si ⟨pr, keys, now⟩
        hs1ev rfl hs1hc hs1hf hentry hqfs
      cases hpo : (({ st with cache := st.cache.update path ⟨pr, keys, now⟩ } : PlotManager).post_process_file
          now path si ⟨pr, keys, now⟩).1 with
      | some info =>
        rw [hpo] at heq
        dsimp only at heq
        obtain ⟨c1, c2, c3, c4, c5, c6, c7, c8, c9⟩ :=
          ih (({ st with cache := st.cache.update path ⟨pr, keys, now⟩ } : PlotManager).post_process_file
              now path si ⟨pr, keys, now⟩).2
            (aset path info prf) (ld ++ [info])
            hfactsrest (hev.trans p1) p4 p5 out heq
        refine ⟨c1, p1.trans c2, ?_, c4, c5, ?_, ?_, ?_, ?_⟩
        · rw [c3, p2]
        · intro hpp
          exact c6 (p6 hpp)
        · intro p hp
          exact c7 p (alookup_aset_isSome _ _ hp)
        · intro pk2 hpk2
          rcases List.mem_cons.mp hpk2 with heq2 | hm2
          · subst heq2
            exact Or.inr (c7 _ (by rw [alookup_aset, if_pos rfl]; rfl))
          · exact c8 pk2 hm2
        · intro hprem
          exfalso
          have hnone2 := settled_post_none fs spre
            ({ st with cache := st.cache.update path ⟨pr, keys, now⟩ }) now path si si pr
            ⟨pr, keys, now⟩
            (hprem (path, some keys) (List.mem_cons_self _ _))
            (hev.trans hs1ev) hop hplg hmsg hug hkeys
          rw [hnone2] at hpo
          cases hpo
      | none =>
        rw [hpo] at heq
        dsimp only at heq
        obtain ⟨c1, c2, c3, c4, c5, c6, c7, c8, c9⟩ :=
          ih (({ st with cache := st.cache.update path ⟨pr, keys, now⟩ } : PlotManager).post_process_file
              now path si ⟨pr, keys, now⟩).2
            prf ld hfactsrest (hev.trans p1) p4 p5 out heq
        have hsettle : Settled fs (({ st with cache := st.cache.update path ⟨pr, keys, now⟩ } : PlotManager).post_process_file
            now path si ⟨pr, keys, now⟩).2 path := by
          rcases p7 hpo with hs | hs
          · exact hs
          · exact hs.mono p3
        refine ⟨c1, p1.trans c2, ?_, c4, c5, ?_, c7, ?_, ?_⟩
        · rw [c3, p2]
        · intro hpp
          exact c6 (p6 hpp)
        · intro pk2 hpk2
          rcases List.mem_cons.mp hpk2 with heq2 | hm2
          · subst heq2
            exact Or.inl (hsettle.mono c2)
          · exact c8 pk2 hm2
        · intro hprem
          exact c9 (fun pk2 h2 => hprem pk2 (List.mem_cons_of_mem _ h2))

theorem alookup_updatePlots_isSome (p : PathT) (plots u : List (PathT × PlotInfo)) :
    (alookup p (updatePlots plots u)).isSome = true ↔
      (alookup p plots).isSome = true ∨ (alookup p u).isSome = true := by
  rw [show ((alookup p (updatePlots plots u)).isSome = true)
      = ((alookup p (updatePlots plots u)).isSome : Prop) from rfl]
  rw [show ((alookup p plots).isSome = true) = ((alookup p plots).isSome : Prop) from rfl]
  rw [show ((alookup p u).isSome = true) = ((alookup p u).isSome : Prop) from rfl]
  rw [alookup_isSome_iff_mem, alookup_isSome_iff_mem, alookup_isSome_iff_mem,
    mem_keys_updatePlots]

/-- The behavioral spec of one `refresh_batch` call over genuine
preprocessing results: the state evolves (publication only grows the plot
map), cache and failure honesty and registry presence are maintained, the
reported removed list is empty, every full input result ends up settled in
the new state, and — when every full input was already settled at the
pre-batch state — the batch loads nothing and leaves the plot map
untouched. -/
theorem refresh_batch_spec (fs : FileSystem) (now : ℚ) (spre : PlotManager)
    (rs : List PreProcessingResult)
    (hgen : ∀ r ∈ rs, GenuineRes fs spre.cache.data spre.plots spre.plot_filename_paths
        spre.match_str r)
    (hhc : HonestCacheData fs spre.cache.data)
    (hhf : HonestFailed fs spre) :
    ∀ out, spre.refresh_batch now rs = Except.ok out →
      StateEvolves spre out.2
      ∧ HonestCacheData fs out.2.cache.data
      ∧ HonestFailed fs out.2
      ∧ (PfpPresent fs spre.plot_filename_paths → PfpPresent fs out.2.plot_filename_paths)
      ∧ out.1.removed = []
      ∧ (∀ r ∈ rs, r.stat_info.isSome = true → Settled fs out.2 r.path)
      ∧ ((∀ r ∈ rs, r.stat_info.isSome = true → Settled fs spre r.path) →
          out.1.loaded = [] ∧ out.2.plots = spre.plots) := by
  intro out heq
  unfold PlotManager.refresh_batch at heq
  dsimp only at heq
  cases h1 : refreshBatchPhase1 now
      { process_args := [], stat_infos := [], provers := [], plots_refreshed := [],
        loaded := [], state := spre } rs with
  | error es =>
    rw [h1] at heq
    cases heq
  | ok acc1 =>
    rw [h1] at heq
    dsimp only at heq
    obtain ⟨c1, c2, c3, c4, c5, c6, c7, c8, c9, c10, c11, c12⟩ :=
      refreshBatchPhase1_spec fs now spre rs
        { process_args := [], stat_infos := [], provers := [], plots_refreshed := [],
          loaded := [], state := spre }
        hgen hhc (stateEvolves_refl spre) hhc hhf
        (fun pm hpm => absurd hpm (List.not_mem_nil pm)) acc1 h1
    cases h2 : starmapProcessMemo acc1.process_args with
    | error e =>
      rw [h2] at heq
      cases heq
    | ok pmr =>
      rw [h2] at heq
      dsimp only at heq
      obtain ⟨hpmr, hall⟩ := starmap_ok_spec h2
      have hfacts : ∀ pk ∈ pmr, ∃ si pr, openProver fs pk.1 = Except.ok (si, pr)
          ∧ alookup pk.1 acc1.stat_infos = some si
          ∧ alookup pk.1 acc1.provers = some pr
          ∧ pk.2 = derivedKeys pr.memo
          ∧ (derivedKeys pr.memo).isSome = true
          ∧ (alookup pk.1 spre.plots).isSome = false
          ∧ matchRejects spre.match_str pk.1 = false
          ∧ ¬ undersized pr.k si.st_size := by
        intro pk hpk
        rw [hpmr] at hpk
        obtain ⟨pm, hpm, hpkeq⟩ := List.mem_map.mp hpk
        obtain ⟨si, pr, hop, hmemo, hsti, hprv, hpl, hms, hund⟩ := c6 pm hpm
        subst hpkeq
        refine ⟨si, pr, hop, hsti, hprv, ?_, ?_, hpl, hms, hund⟩
        · dsimp only
          rw [hmemo]
        · rw [← hmemo]
          exact hall pm hpm
      cases h3 : refreshBatchPhase2 now acc1.stat_infos acc1.provers acc1.state
          acc1.plots_refreshed acc1.loaded pmr with
      | error es =>
        rw [h3] at heq
        cases heq
      | ok out2 =>
        rw [h3] at heq
        dsimp only at heq
        injection heq with heq2
        subst heq2
        obtain ⟨d1, d2, d3, d4, d5, d6, d7, d8, d9⟩ :=
          refreshBatchPhase2_spec fs now spre acc1.stat_infos acc1.provers pmr
            acc1.state acc1.plots_refreshed acc1.loaded hfacts c1 c4 c5 out2 h3
        have hevfin : StateEvolves out2.2.2
            { out2.2.2 with plots := updatePlots out2.2.2.plots out2.1 } :=
          ⟨rfl, rfl, rfl, rfl, rfl, rfl,
            fun p hp => (alookup_updatePlots_isSome p _ _).mpr (Or.inl hp),
            fun fn e he => ⟨e, he, fun d hd => hd⟩⟩
        refine ⟨(d1.trans hevfin), d4, d5, ?_, rfl, ?_, ?_⟩
        · intro hpp
          exact d6 (c7 hpp)
        · intro r hr hsome
          rcases c10 r hr hsome with hs | hs | ⟨m, hmem⟩
          · exact (hs.mono d2).mono hevfin
          · refine Or.inr (Or.inl ?_)
            exact (alookup_updatePlots_isSome r.path _ _).mpr (Or.inr (d7 r.path hs))
          · have hpkmem : (r.path, derivedKeys m) ∈ pmr := by
              rw [hpmr]
              exact List.mem_map_of_mem _ hmem
            rcases d8 (r.path, derivedKeys m) hpkmem with hs2 | hs2
            · exact hs2.mono hevfin
            · refine Or.inr (Or.inl ?_)
              exact (alookup_updatePlots_isSome r.path _ _).mpr (Or.inr hs2)
        · intro hprem
          obtain ⟨he1, he2⟩ := c11 hprem
          have hpksettled : ∀ pk ∈ pmr, Settled fs spre pk.1 := by
            intro pk hpk
            rw [hpmr] at hpk
            obtain ⟨pm, hpm, hpkeq⟩ := List.mem_map.mp hpk
            rcases c12 pm hpm with h | ⟨r2, h2, hs2, hp2⟩
            · cases h
            · subst hpkeq
              dsimp only
              rw [← hp2]
              exact hprem r2 h2 hs2
          obtain ⟨hd1, hd2⟩ := d9 hpksettled
          refine ⟨?_, ?_⟩
          · dsimp only
            rw [hd2, he2]
          · dsimp only
            rw [hd1, he1, d3, c3]
            rfl

theorem preProcessBatch_paths (fs : FileSystem) (now : ℚ) :
    ∀ (batch : List PathT) (s : PlotManager),
      ∀ r ∈ (preProcessBatch fs now s batch).1, r.path ∈ batch := by
  intro batch
  induction batch with
  | nil =>
    intro s r hr
    cases hr
  | cons p rest ih =>
    intro s r hr
    have hr2 : r ∈ (s.pre_process_file fs now p).1
        :: (preProcessBatch fs now (s.pre_process_file fs now p).2 rest).1 := hr
    rcases List.mem_cons.mp hr2 with heq | hm
    · rw [heq, (pre_process_file_spec s fs now p).1]
      exact List.mem_cons_self _ _
    · exact List.mem_cons_of_mem _ (ih _ r hm)

theorem batchChunksAux_subset {α : Type} (bs : Nat) :
    ∀ (fuel : Nat) (l : List α) (b : List α), b ∈ batchChunksAux bs fuel l →
      ∀ p ∈ b, p ∈ l := by
  intro fuel
  induction fuel with
  | zero =>
    intro l b hb
    cases hb
  | succ n ih =>
    intro l b hb p hp
    cases l with
    | nil => cases hb
    | cons x xs =>
      have hb2 : b ∈ (x :: xs.take (bs - 1))
          :: batchChunksAux bs n (xs.drop (bs - 1)) := hb
      rcases List.mem_cons.mp hb2 with heq | hm
      · subst heq
        rcases List.mem_cons.mp hp with hpx | hpt
        · rw [hpx]
          exact List.mem_cons_self _ _
        · exact List.mem_cons_of_mem _ (List.take_subset _ _ hpt)
      · exact List.mem_cons_of_mem _ (List.drop_subset _ _ (ih (xs.drop (bs - 1)) b hm p hp))

theorem batchChunksAux_cover {α : Type} (bs : Nat) :
    ∀ (fuel : Nat) (l : List α), l.length ≤ fuel →
      ∀ p ∈ l, ∃ b ∈ batchChunksAux bs fuel l, p ∈ b := by
  intro fuel
  induction fuel with
  | zero =>
    intro l hlen p hp
    rw [List.length_eq_zero.mp (Nat.le_zero.mp hlen)] at hp
    cases hp
  | succ n ih =>
    intro l hlen p hp
    cases l with
    | nil => cases hp
    | cons x xs =>
      rcases List.mem_cons.mp hp with hpx | hpt
      · exact ⟨x :: xs.take (bs - 1), List.mem_cons_self _ _,
          by rw [hpx]; exact List.mem_cons_self _ _⟩
      · have hsplit : p ∈ xs.take (bs - 1) ∨ p ∈ xs.drop (bs - 1) := by
          rw [← List.take_append_drop (bs - 1) xs] at hpt
          exact List.mem_append.mp hpt
        rcases hsplit with h | h
        · exact ⟨x :: xs.take (bs - 1), List.mem_cons_self _ _, List.mem_cons_of_mem _ h⟩
        · have hxs : xs.length ≤ n := by
            simp only [List.length_cons] at hlen
            omega
          have hlen2 : (xs.drop (bs - 1)).length ≤ n := by
            rw [List.length_drop]
            omega
          obtain ⟨b, hb, hpb⟩ := ih (xs.drop (bs - 1)) hlen2 p h
          exact ⟨b, List.mem_cons_of_mem _ hb, hpb⟩

theorem batchChunks_subset {α : Type} (bs : Nat) (l : List α) :
    ∀ b ∈ batchChunks bs l, ∀ p ∈ b, p ∈ l :=
  fun b hb => batchChunksAux_subset bs l.length l b hb

theorem batchChunks_cover {α : Type} (bs : Nat) (l : List α) :
    ∀ p ∈ l, ∃ b ∈ batchChunks bs l, p ∈ b :=
  batchChunksAux_cover bs l.length l (Nat.le_refl _)

theorem StateEvolves.enabled_eq {s s1 : PlotManager} (h : StateEvolves s s1) :
    s1.refreshing_enabled = s.refreshing_enabled :=
  h.2.2.2.2.2.1

/-- The batch loop of a refresh cycle: the state evolves, cache and
failure honesty and registry presence are maintained, the removed report
is untouched, after the loop every path of every batch is settled, and —
when every batch path was already settled at the start — the loop loads
nothing and leaves the plot map untouched. -/
theorem runBatches_spec (fs : FileSystem) (now : ℚ) :
    ∀ (batches : List (List PathT)) (s : PlotManager) (total : PlotRefreshResult),
      s.refreshing_enabled = true →
      HonestCacheData fs s.cache.data →
      HonestFailed fs s →
      ∀ out, runBatches fs now s batches total = Except.ok out →
        StateEvolves s out.2
        ∧ HonestCacheData fs out.2.cache.data
        ∧ HonestFailed fs out.2
        ∧ (PfpPresent fs s.plot_filename_paths → PfpPresent fs out.2.plot_filename_paths)
        ∧ out.1.removed = total.removed
        ∧ (∀ b ∈ batches, ∀ p ∈ b, Settled fs out.2 p)
        ∧ ((∀ b ∈ batches, ∀ p ∈ b, Settled fs s p) →
            out.1.loaded = total.loaded ∧ out.2.plots = s.plots) := by
  intro batches
  induction batches with
  | nil =>
    intro s total hen hhc hhf out heq
    injection heq with heq2
    subst heq2
    refine ⟨stateEvolves_refl _, hhc, hhf, fun h => h, rfl, ?_, fun _ => ⟨rfl, rfl⟩⟩
    intro b hb
    cases hb
  | cons batch rest ih =>
    intro s total hen hhc hhf out heq
    unfold runBatches at heq
    dsimp only at heq
    obtain ⟨hpbc, hpbH, hpbgen, hpbset⟩ := preProcessBatch_spec fs now batch s
    have hevpre : StateEvolves s (preProcessBatch fs now s batch).2 := hpbc.toEvolves
    obtain ⟨hq1, hq2, hq3, hq4, hq5, hq6, hq7, hq8, hq9, hq10, hq11, hq12⟩ := hpbc
    have hgen2 : ∀ r ∈ (preProcessBatch fs now s batch).1,
        GenuineRes fs (preProcessBatch fs now s batch).2.cache.data
          (preProcessBatch fs now s batch).2.plots
          (preProcessBatch fs now s batch).2.plot_filename_paths
          (preProcessBatch fs now s batch).2.match_str r := by
      intro r hr
      rw [hq1, hq2, hq3, hq7]
      exact hpbgen r hr
    cases hrb : (preProcessBatch fs now s batch).2.refresh_batch now
        (preProcessBatch fs now s batch).1 with
    | error es =>
      rw [hrb] at heq
      cases heq
    | ok out1 =>
      rw [hrb] at heq
      dsimp only at heq
      obtain ⟨e1, e2, e3, e4, e5, e6, e7⟩ :=
        refresh_batch_spec fs now (preProcessBatch fs now s batch).2
          (preProcessBatch fs now s batch).1 hgen2
          (by rw [hq3]; exact hhc) (hpbH hhf) out1 hrb
      have hen2 : out1.2.refreshing_enabled = true := by
        rw [e1.enabled_eq, hq10, hen]
      obtain ⟨f1, f2, f3, f4, f5, f6, f7⟩ :=
        ih out1.2
          { total with
            loaded := total.loaded ++ out1.1.loaded,
            processed := total.processed + out1.1.processed,
            duration := total.duration + out1.1.duration }
          hen2 e2 e3 out heq
      refine ⟨hevpre.trans (e1.trans f1), f2, f3, ?_, f5, ?_, ?_⟩
      · intro hpp
        refine f4 (e4 ?_)
        rw [hq2]
        exact hpp
      · intro b hb p hp
        rcases List.mem_cons.mp hb with hbq | hbm
        · subst hbq
          rcases hpbset hen hhf p hp with hs | ⟨r, hr, hrp, hrs⟩
          · exact ((hs.mono hevpre).mono e1).mono f1
          · have hs2 := e6 r hr hrs
            rw [hrp] at hs2
            exact hs2.mono f1
        · exact f6 b hbm p hp
      · intro hsetall
        have hsetpre : ∀ r ∈ (preProcessBatch fs now s batch).1,
            r.stat_info.isSome = true → Settled fs (preProcessBatch fs now s batch).2 r.path := by
          intro r hr hrs
          have hmem := preProcessBatch_paths fs now batch s r hr
          exact (hsetall batch (List.mem_cons_self _ _) r.path hmem).mono hevpre
        obtain ⟨hload1, hplots1⟩ := e7 hsetpre
        have hsetrest : ∀ b ∈ rest, ∀ p ∈ b, Settled fs out1.2 p := by
          intro b hb p hp
          exact ((hsetall b (List.mem_cons_of_mem _ hb) p hp).mono hevpre).mono e1
        obtain ⟨hload2, hplots2⟩ := f7 hsetrest
        refine ⟨?_, ?_⟩
        · have hload2x : out.1.loaded = total.loaded ++ out1.1.loaded := hload2
          rw [hload2x, hload1, List.append_nil]
        · rw [hplots2, hplots1, hq1]

/-- The registry the removal diff returns only points at files on disk:
every surviving entry's loading path survived the presence check and its
duplicate list was filtered by presence. -/
theorem removalDiff_pfpPresent (fs : FileSystem) :
    ∀ (reg : List (String × String × List String)) (plots : List (PathT × PlotInfo))
      (removed : List PathT),
      PfpPresent fs (removalDiff (fsPaths fs) reg plots removed).1 := by
  intro reg
  induction reg with
  | nil =>
    intro plots removed ent hent
    cases hent
  | cons entry rest ih =>
    intro plots removed
    obtain ⟨fn, lp, dups⟩ := entry
    unfold removalDiff
    dsimp only
    by_cases hmem : ({ parent := lp, name := fn } : PathT) ∉ fsPaths fs
    · rw [if_pos hmem]
      exact ih _ _
    · rw [if_neg hmem]
      intro ent hent
      rcases List.mem_cons.mp hent with heq | hm
      · subst heq
        refine ⟨not_not.mp hmem, ?_⟩
        intro d hd
        have hd2 : d ∈ List.filter
            (fun path => decide ((PathT.mk path fn) ∈ fsPaths fs)) dups := hd
        have hdec := (List.mem_filter.mp hd2).2
        exact of_decide_eq_true hdec
      · exact ih _ _ ent hm

/-- When the registry already only points at files on disk, the removal
diff is a no-op: registry and plot map are returned unchanged and nothing
is reported removed. -/
theorem removalDiff_noop (fs : FileSystem) :
    ∀ (reg : List (String × String × List String)) (plots : List (PathT × PlotInfo))
      (removed : List PathT),
      PfpPresent fs reg →
      removalDiff (fsPaths fs) reg plots removed = (reg, plots, removed) := by
  intro reg
  induction reg with
  | nil =>
    intro plots removed hpp
    rfl
  | cons entry rest ih =>
    intro plots removed hpp
    obtain ⟨fn, lp, dups⟩ := entry
    obtain ⟨hl, hd⟩ := hpp (fn, lp, dups) (List.mem_cons_self _ _)
    have hpprest : PfpPresent fs rest :=
      fun ent hent => hpp ent (List.mem_cons_of_mem _ hent)
    unfold removalDiff
    dsimp only
    rw [if_neg (not_not_intro hl)]
    have hfilter : List.filter
        (fun path => decide ((PathT.mk path fn) ∈ fsPaths fs)) dups = dups :=
      List.filter_eq_self.mpr (fun a ha => decide_eq_true (hd a ha))
    have hfilter2 : List.filter
        (fun path => decide ((PathT.mk path fn) ∉ fsPaths fs)) dups = [] :=
      List.filter_eq_nil_iff.mpr (fun a ha hc => absurd (hd a ha) (of_decide_eq_true hc))
    rw [hfilter, hfilter2, List.map_nil, List.append_nil, ih plots removed hpprest]

theorem cache_remove_data_sublist : ∀ (ks : List PathT) (c : Cache),
    (Cache.remove c ks).data.Sublist c.data
  | [], _ => List.Sublist.refl _
  | k :: t, c => by
    show (Cache.remove (if (alookup k c.data).isSome then
        { data := aerase k c.data, changed := true } else c) t).data.Sublist c.data
    by_cases hk : (alookup k c.data).isSome = true
    · rw [if_pos hk]
      exact (cache_remove_data_sublist t _).trans (aerase_sublist k c.data)
    · rw [if_neg hk]
      exact cache_remove_data_sublist t c

/-- End-of-cycle cache maintenance only drops entries or bumps their
`last_use`, so cache honesty survives it. -/
theorem honestCacheData_cleanup {fs : FileSystem}
    (plots : List (PathT × PlotInfo)) (now : ℚ) {c : Cache}
    (h : HonestCacheData fs c.data) :
    HonestCacheData fs (refreshTaskCacheCleanup plots now c).data := by
  intro pe hpe
  unfold refreshTaskCacheCleanup at hpe
  dsimp only at hpe
  have hpe2 := (cache_remove_data_sublist _ _).subset hpe
  obtain ⟨pe0, hpe0, hg⟩ := List.mem_map.mp hpe2
  obtain ⟨h1, h2⟩ := h pe0 hpe0
  subst hg
  by_cases hc1 : (pe0.2.expired now Cache.expiry_seconds
      && (alookup pe0.1 plots).isNone) = true
  · rw [if_pos hc1]
    exact ⟨h1, h2⟩
  · rw [if_neg hc1]
    by_cases hc2 : (alookup pe0.1 plots).isSome = true
    · rw [if_pos hc2]
      exact ⟨h1, h2⟩
    · rw [if_neg hc2]
      exact ⟨h1, h2⟩

/-- The state a refresh cycle runs its batches from: stale failure and
no-key entries dropped, registry and plot map pruned by the removal
diff. -/
def cycleStartState (s : PlotManager) (fs : FileSystem) : PlotManager :=
  { s with
    failed_to_open_filenames := s.failed_to_open_filenames.filter
      (fun pt => pt.1 ∈ fsPaths fs),
    no_key_filenames := s.no_key_filenames.filter (fun p => p ∈ fsPaths fs),
    plot_filename_paths := (removalDiff (fsPaths fs) s.plot_filename_paths s.plots []).1,
    plots := (removalDiff (fsPaths fs) s.plot_filename_paths s.plots []).2.1 }

/-- One full refresh cycle, on success: afterwards every on-disk path is
settled, the registry only points at on-disk files, cache and failure
honesty hold, refreshing stays enabled; and when every on-disk path was
already settled and the registry already only pointed at on-disk files,
the cycle reports nothing loaded and nothing removed and leaves the
published plot map untouched. -/
theorem runCycleBody_spec (s : PlotManager) (fs : FileSystem) (now : ℚ)
    (hen : s.refreshing_enabled = true)
    (hhc : HonestCacheData fs s.cache.data)
    (hhf : HonestFailed fs s) :
    ∀ r1 s1, runCycleBody s fs now = Except.ok (r1, s1) →
      (∀ p ∈ fsPaths fs, Settled fs s1 p)
      ∧ PfpPresent fs s1.plot_filename_paths
      ∧ HonestCacheData fs s1.cache.data
      ∧ HonestFailed fs s1
      ∧ s1.refreshing_enabled = true
      ∧ ((∀ p ∈ fsPaths fs, Settled fs s p) → PfpPresent fs s.plot_filename_paths →
          r1.loaded = [] ∧ r1.removed = [] ∧ s1.plots = s.plots) := by
  intro r1 s1 heq
  unfold runCycleBody at heq
  dsimp only at heq
  split at heq
  · cases heq
  · rename_i out hrb
    injection heq with heqpair
    injection heqpair with hr1 hs1
    subst hr1
    subst hs1
    have hrb2 : runBatches fs now (cycleStartState s fs)
        (batchChunks s.refresh_parameter.batch_size (fsPaths fs))
        { PlotRefreshResult.empty with
          removed := (removalDiff (fsPaths fs) s.plot_filename_paths s.plots []).2.2 }
        = Except.ok out := hrb
    have hcsen : (cycleStartState s fs).refreshing_enabled = true := hen
    have hcshc : HonestCacheData fs (cycleStartState s fs).cache.data := hhc
    have hcshf : HonestFailed fs (cycleStartState s fs) := by
      intro p t hmem fd hfd
      exact hhf p t (List.mem_of_mem_filter hmem) fd hfd
    obtain ⟨g1, g2, g3, g4, g5, g6, g7⟩ := runBatches_spec fs now
      (batchChunks s.refresh_parameter.batch_size (fsPaths fs))
      (cycleStartState s fs)
      { PlotRefreshResult.empty with
        removed := (removalDiff (fsPaths fs) s.plot_filename_paths s.plots []).2.2 }
      hcsen hcshc hcshf out hrb2
    have hsettledout : ∀ p ∈ fsPaths fs, Settled fs out.2 p := by
      intro p hp
      obtain ⟨b, hb, hpb⟩ :=
        batchChunks_cover s.refresh_parameter.batch_size (fsPaths fs) p hp
      exact g6 b hb p hpb
    have hpfpout : PfpPresent fs out.2.plot_filename_paths :=
      g4 (removalDiff_pfpPresent fs s.plot_filename_paths s.plots [])
    have henout : out.2.refreshing_enabled = true := by
      rw [g1.enabled_eq]
      exact hen
    refine ⟨?_, ?_, ?_, ?_, ?_, ?_⟩
    · intro p hp
      exact hsettledout p hp
    · exact hpfpout
    · by_cases hch : (refreshTaskCacheCleanup out.2.plots now out.2.cache).changed = true
      · rw [if_pos hch]
        exact honestCacheData_cleanup out.2.plots now g2
      · rw [if_neg hch]
        exact honestCacheData_cleanup out.2.plots now g2
    · exact g3
    · exact henout
    · intro hset hpfp
      have hnoop := removalDiff_noop fs s.plot_filename_paths s.plots [] hpfp
      have hevcs : StateEvolves s (cycleStartState s fs) := by
        refine ⟨rfl, rfl, rfl, rfl, rfl, rfl, ?_, ?_⟩
        · intro p hp
          show (alookup p (removalDiff (fsPaths fs) s.plot_filename_paths s.plots []).2.1).isSome
            = true
          rw [hnoop]
          exact hp
        · intro fn e he
          refine ⟨e, ?_, fun d hd => hd⟩
          show alookup fn (removalDiff (fsPaths fs) s.plot_filename_paths s.plots []).1 = some e
          rw [hnoop]
          exact he
      have hsetcs : ∀ b ∈ batchChunks s.refresh_parameter.batch_size (fsPaths fs),
          ∀ p ∈ b, Settled fs (cycleStartState s fs) p := by
        intro b hb p hpb
        exact (hset p (batchChunks_subset _ _ b hb p hpb)).mono hevcs
      obtain ⟨hload, hplots⟩ := g7 hsetcs
      refine ⟨?_, ?_, ?_⟩
      · exact hload
      · rw [g5]
        show (removalDiff (fsPaths fs) s.plot_filename_paths s.plots []).2.2 = []
        rw [hnoop]
      · show out.2.plots = s.plots
        rw [hplots]
        show (removalDiff (fsPaths fs) s.plot_filename_paths s.plots []).2.1 = s.plots
        rw [hnoop]

/-! Claim C5: a second refresh cycle over an unchanged file set is a
no-op. -/

/-- C5: running a second refresh cycle over an unchanged file set (same
files on disk, same configured keys and options) yields a cycle result
with `loaded = []` and `removed = []` and leaves the published plot map
exactly as the first cycle left it. Stated for any starting state whose
failure registry and key cache are honest for the filesystem — trivially
so from a cold start, and preserved by every cycle — with both cycles
completing normally. The first cycle settles every on-disk path and
leaves the duplicate registry pointing only at on-disk files, so the
second cycle's removal diff is a no-op and its pipeline loads nothing. -/
theorem second_cycle_idempotent :
    ∀ (s : PlotManager) (fs : FileSystem) (now1 now2 : ℚ)
      (r1 : PlotRefreshResult) (s1 : PlotManager)
      (r2 : PlotRefreshResult) (s2 : PlotManager),
      s.refreshing_enabled = true →
      HonestCacheData fs s.cache.data →
      HonestFailed fs s →
      runCycleBody s fs now1 = Except.ok (r1, s1) →
      runCycleBody s1 fs now2 = Except.ok (r2, s2) →
      r2.loaded = [] ∧ r2.removed = [] ∧ s2.plots = s1.plots := by
  intro s fs now1 now2 r1 s1 r2 s2 hen hhc hhf h1 h2
  obtain ⟨a1, a2, a3, a4, a5, -⟩ := runCycleBody_spec s fs now1 hen hhc hhf r1 s1 h1
  obtain ⟨-, -, -, -, -, b6⟩ := runCycleBody_spec s1 fs now2 a5 a3 a4 r2 s2 h2
  exact b6 a1 a2

/-- Witness for C5: a freshly started manager (no-key override set) over a
filesystem with one good plot; the first cycle publishes it, the second
cycle loads nothing, removes nothing and keeps the plot map. -/
theorem second_cycle_idempotent_witness :
    ({ PlotManager.init none true (PlotsRefreshParameter.mk 120 1200 300) with
        refreshing_enabled := true } : PlotManager).refreshing_enabled = true
    ∧ HonestCacheData
        [(PathT.mk "/plots" "good.plot",
          FileData.mk 0 0 (some (1, some (ParsedPlotInfo.mk (Sum.inl 0) 0 0))))]
        ({ PlotManager.init none true (PlotsRefreshParameter.mk 120 1200 300) with
            refreshing_enabled := true } : PlotManager).cache.data
    ∧ HonestFailed
        [(PathT.mk "/plots" "good.plot",
          FileData.mk 0 0 (some (1, some (ParsedPlotInfo.mk (Sum.inl 0) 0 0))))]
        { PlotManager.init none true (PlotsRefreshParameter.mk 120 1200 300) with
          refreshing_enabled := true }
    ∧ ∃ (r1 : PlotRefreshResult) (s1 : PlotManager)
        (r2 : PlotRefreshResult) (s2 : PlotManager),
        runCycleBody
          { PlotManager.init none true (PlotsRefreshParameter.mk 120 1200 300) with
            refreshing_enabled := true }
          [(PathT.mk "/plots" "good.plot",
            FileData.mk 0 0 (some (1, some (ParsedPlotInfo.mk (Sum.inl 0) 0 0))))] 1
          = Except.ok (r1, s1)
        ∧ runCycleBody s1
            [(PathT.mk "/plots" "good.plot",
              FileData.mk 0 0 (some (1, some (ParsedPlotInfo.mk (Sum.inl 0) 0 0))))] 2
            = Except.ok (r2, s2)
        ∧ r1.loaded.length = 1
        ∧ (r2.loaded = [] ∧ r2.removed = [] ∧ s2.plots = s1.plots) :=
  ⟨rfl,
   fun pe hpe => absurd hpe (List.not_mem_nil pe),
   fun p t hpt => absurd hpt (List.not_mem_nil (p, t)),
   _, _, _, _, rfl, rfl, rfl,
   second_cycle_idempotent
     { PlotManager.init none true (PlotsRefreshParameter.mk 120 1200 300) with
       refreshing_enabled := true }
     [(PathT.mk "/plots" "good.plot",
       FileData.mk 0 0 (some (1, some (ParsedPlotInfo.mk (Sum.inl 0) 0 0))))]
     1 2 _ _ _ _ rfl
     (fun pe hpe => absurd hpe (List.not_mem_nil pe))
     (fun p t hpt => absurd hpt (List.not_mem_nil (p, t)))
     rfl rfl⟩

/-! Towards C6: the registry/duplicate invariant of the manager. -/

/-- Publication state with a batch in flight: a path counts as published
when it is in the shared plot map or among the batch's pending updates. -/
def VPub (plots refreshed : List (PathT × PlotInfo)) (p : PathT) : Prop :=
  (alookup p plots).isSome = true ∨ (alookup p refreshed).isSome = true

/-- The registry invariant maintained through a batch: registry keys are
unique; every published-or-pending path is registered under its filename
with its own directory as the loading path; and every directory recorded
as a duplicate is neither published nor pending. -/
def BatchInv (plots refreshed : List (PathT × PlotInfo))
    (pfp : List (String × String × List String)) : Prop :=
  (pfp.map Prod.fst).Nodup
  ∧ (∀ p, VPub plots refreshed p →
      ∃ e, alookup p.name pfp = some e ∧ e.1 = p.parent)
  ∧ (∀ fn e, alookup fn pfp = some e →
      ∀ d ∈ e.2, ¬ VPub plots refreshed (PathT.mk d fn))

/-- The resting-state registry invariant (no batch in flight): each
filename maps to at most one published path — the registered one — and
recorded duplicates are never published. -/
def ManagerInv (s : PlotManager) : Prop :=
  (s.plots.map Prod.fst).Nodup
  ∧ (s.plot_filename_paths.map Prod.fst).Nodup
  ∧ (∀ p, (alookup p s.plots).isSome = true →
      ∃ e, alookup p.name s.plot_filename_paths = some e ∧ e.1 = p.parent)
  ∧ (∀ fn e, alookup fn s.plot_filename_paths = some e →
      ∀ d ∈ e.2, (alookup (PathT.mk d fn) s.plots).isSome = false)

theorem managerInv_batchInv {s : PlotManager} (h : ManagerInv s) :
    BatchInv s.plots [] s.plot_filename_paths := by
  obtain ⟨-, hnd, hreg, hdup⟩ := h
  refine ⟨hnd, ?_, ?_⟩
  · intro p hp
    rcases hp with h | h
    · exact hreg p h
    · simp [alookup] at h
  · intro fn e he d hd hv
    rcases hv with h | h
    · rw [hdup fn e he d hd] at h
      cases h
    · simp [alookup] at h

theorem batchInv_updatePlots {plots refreshed : List (PathT × PlotInfo)}
    {pfp : List (String × String × List String)}
    (h : BatchInv plots refreshed pfp) :
    (pfp.map Prod.fst).Nodup
    ∧ (∀ p, (alookup p (updatePlots plots refreshed)).isSome = true →
        ∃ e, alookup p.name pfp = some e ∧ e.1 = p.parent)
    ∧ (∀ fn e, alookup fn pfp = some e →
        ∀ d ∈ e.2, (alookup (PathT.mk d fn) (updatePlots plots refreshed)).isSome
          = false) := by
  obtain ⟨hnd, hreg, hdup⟩ := h
  refine ⟨hnd, ?_, ?_⟩
  · intro p hp
    exact hreg p ((alookup_updatePlots_isSome p plots refreshed).mp hp)
  · intro fn e he d hd
    exact Bool.eq_false_iff.mpr
      (fun hc => hdup fn e he d hd ((alookup_updatePlots_isSome _ _ _).mp hc))

/-- A `post_process_file` call that returns no `PlotInfo` preserves the
batch invariant: it either leaves the registry alone or extends a tracked
filename's duplicate set with the current (unpublished, unpended) path's
directory. -/
theorem batchInv_post_none (st : PlotManager) (now : ℚ) (q : PathT) (si : StatResult)
    (ce : CacheEntry) (refreshed : List (PathT × PlotInfo))
    (hfn : ce.prover.filename = q)
    (hinv : BatchInv st.plots refreshed st.plot_filename_paths)
    (hqplots : (alookup q st.plots).isSome = false)
    (hqref : (alookup q refreshed).isSome = false)
    (hout : (st.post_process_file now q si ce).1 = none) :
    BatchInv st.plots refreshed
      (st.post_process_file now q si ce).2.plot_filename_paths := by
  obtain ⟨hnd, hreg, hdup⟩ := hinv
  have hspec := post_process_file_spec st now q si ce
  rcases hspec.2.2.2.2.2.2.2.2.2.2 with h1 | h2 | h3
  · rw [h1.2.2.2.2.2]
    exact ⟨hnd, hreg, hdup⟩
  · obtain ⟨-, -, -, e2, he2, hpfp2⟩ := h2
    rw [hpfp2]
    refine ⟨nodup_keys_aset _ _ _ hnd, ?_, ?_⟩
    · intro p hp
      obtain ⟨ep, hep, hep1⟩ := hreg p hp
      rw [alookup_aset]
      by_cases hq : q.name = p.name
      · rw [if_pos hq]
        refine ⟨_, rfl, ?_⟩
        rw [hq] at he2
        rw [hep] at he2
        injection he2 with h4
        rw [← h4]
        exact hep1
      · rw [if_neg hq]
        exact ⟨ep, hep, hep1⟩
    · intro fn e he d hd
      rw [alookup_aset] at he
      by_cases hq : q.name = fn
      · rw [if_pos hq] at he
        injection he with h4
        subst h4
        have hd2 : d ∈ sinsert ce.prover.filename.parent e2.2 := hd
        rcases (mem_sinsert _ _ _).mp hd2 with hdq | hdold
        · intro hv
          have hpq : PathT.mk d fn = q := by
            rw [hdq, hfn, ← hq]
          rw [hpq] at hv
          rcases hv with h | h
          · rw [hqplots] at h
            cases h
          · rw [hqref] at h
            cases h
        · exact hdup fn e2 (hq ▸ he2) d hdold
      · rw [if_neg hq] at he
        exact hdup fn e he d hd
  · rw [h3.1] at hout
    cases hout

/-- A `post_process_file` call that publishes preserves the batch
invariant with the path added to the pending updates: it registers the
fresh filename with the path's own directory and an empty duplicate
set. -/
theorem batchInv_post_some (st : PlotManager) (now : ℚ) (q : PathT) (si : StatResult)
    (ce : CacheEntry) (refreshed : List (PathT × PlotInfo)) (info : PlotInfo)
    (hfn : ce.prover.filename = q)
    (hinv : BatchInv st.plots refreshed st.plot_filename_paths)
    (hqplots : (alookup q st.plots).isSome = false)
    (hqref : (alookup q refreshed).isSome = false)
    (hout : (st.post_process_file now q si ce).1 = some info) :
    BatchInv st.plots (aset q info refreshed)
      (st.post_process_file now q si ce).2.plot_filename_paths := by
  obtain ⟨hnd, hreg, hdup⟩ := hinv
  have hspec := post_process_file_spec st now q si ce
  rcases hspec.2.2.2.2.2.2.2.2.2.2 with h1 | h2 | h3
  · rw [h1.1] at hout
    cases hout
  · rw [h2.1] at hout
    cases hout
  · obtain ⟨-, hnone, hpfp3, -, -⟩ := h3
    rw [hpfp3]
    refine ⟨nodup_keys_aset _ _ _ hnd, ?_, ?_⟩
    · intro p hp
      rw [alookup_aset]
      by_cases hpq : q = p
      · subst hpq
        rw [if_pos rfl]
        refine ⟨_, rfl, ?_⟩
        rw [hfn]
      · have hp2 : VPub st.plots refreshed p := by
          rcases hp with h | h
          · exact Or.inl h
          · rw [alookup_aset, if_neg hpq] at h
            exact Or.inr h
        obtain ⟨ep, hep, hep1⟩ := hreg p hp2
        by_cases hq : q.name = p.name
        · exfalso
          rw [hq] at hnone
          rw [hnone] at hep
          cases hep
        · rw [if_neg hq]
          exact ⟨ep, hep, hep1⟩
    · intro fn e he d hd
      rw [alookup_aset] at he
      by_cases hq : q.name = fn
      · rw [if_pos hq] at he
        injection he with h4
        subst h4
        have hd2 : d ∈ ([] : List String) := hd
        cases hd2
      · rw [if_neg hq] at he
        intro hv
        rcases hv with h | h
        · exact hdup fn e he d hd (Or.inl h)
        · rw [alookup_aset] at h
          by_cases hqd : q = PathT.mk d fn
          · exact hq (by rw [hqd])
          · rw [if_neg hqd] at h
            exact hdup fn e he d hd (Or.inr h)

theorem cacheFilenameOk_cleanup (plots : List (PathT × PlotInfo)) (now : ℚ) {c : Cache}
    (h : CacheFilenameOk c.data) :
    CacheFilenameOk (refreshTaskCacheCleanup plots now c).data := by
  intro pe hpe
  unfold refreshTaskCacheCleanup at hpe
  dsimp only at hpe
  have hpe2 := (cache_remove_data_sublist _ _).subset hpe
  obtain ⟨pe0, hpe0, hg⟩ := List.mem_map.mp hpe2
  have h1 := h pe0 hpe0
  subst hg
  by_cases hc1 : (pe0.2.expired now Cache.expiry_seconds
      && (alookup pe0.1 plots).isNone) = true
  · rw [if_pos hc1]
    exact h1
  · rw [if_neg hc1]
    by_cases hc2 : (alookup pe0.1 plots).isSome = true
    · rw [if_pos hc2]
      exact h1
    · rw [if_neg hc2]
      exact h1

/-- Filename honesty of the cache and the prover side table through the
first `refresh_batch` loop, for both outcomes. -/
theorem refreshBatchPhase1_cfn (fs : FileSystem) (now : ℚ) (spre : PlotManager) :
    ∀ (rs : List PreProcessingResult) (acc : BatchPhase1),
      (∀ r ∈ rs, GenuineRes fs spre.cache.data spre.plots spre.plot_filename_paths
          spre.match_str r) →
      CacheFilenameOk spre.cache.data →
      CacheFilenameOk acc.state.cache.data →
      (∀ p pr, alookup p acc.provers = some pr → pr.filename = p) →
      (∀ acc2, refreshBatchPhase1 now acc rs = Except.ok acc2 →
          CacheFilenameOk acc2.state.cache.data
          ∧ (∀ p pr, alookup p acc2.provers = some pr → pr.filename = p))
      ∧ (∀ es, refreshBatchPhase1 now acc rs = Except.error es →
          CacheFilenameOk es.2.cache.data) := by
  intro rs
  induction rs with
  | nil =>
    intro acc hgen hcfn0 hcfn hprov
    refine ⟨?_, ?_⟩
    · intro acc2 heq
      injection heq with heq2
      subst heq2
      exact ⟨hcfn, hprov⟩
    · intro es heq
      cases heq
  | cons r rest ih =>
    intro acc hgen hcfn0 hcfn hprov
    have hgenr := hgen r (List.mem_cons_self _ _)
    have hgenrest : ∀ r2 ∈ rest, GenuineRes fs spre.cache.data spre.plots
        spre.plot_filename_paths spre.match_str r2 :=
      fun r2 h2 => hgen r2 (List.mem_cons_of_mem _ h2)
    cases hsi : r.stat_info with
    | none =>
      have hstep : refreshBatchPhase1 now acc (r :: rest)
          = refreshBatchPhase1 now acc rest := by
        conv_lhs => unfold refreshBatchPhase1
        rw [hsi]
      rw [hstep]
      exact ih acc hgenrest hcfn0 hcfn hprov
    | some si =>
      rcases hgenr with hnone | ⟨si2, pr2, hop2, heqr, hm2, hpl2, hdup2, hu2⟩
      · rw [hsi] at hnone
        cases hnone
      · have hsi2 : r.stat_info = some si2 := by rw [heqr]
        have hpr2 : r.prover = some pr2 := by rw [heqr]
        have hcee : r.cache_entry = alookup r.path spre.cache.data := by rw [heqr]
        rw [hsi] at hsi2
        injection hsi2 with hsieq
        subst hsieq
        cases hce : r.cache_entry with
        | none =>
          have hstep : refreshBatchPhase1 now acc (r :: rest)
              = refreshBatchPhase1 now
                { acc with
                  process_args := acc.process_args ++ [(r.path, pr2.memo)],
                  stat_infos := aset r.path si acc.stat_infos,
                  provers := aset r.path pr2 acc.provers } rest := by
            conv_lhs => unfold refreshBatchPhase1
            rw [hsi, hce, hpr2]
          rw [hstep]
          refine ih _ hgenrest hcfn0 hcfn ?_
          intro p pr hl
          rw [alookup_aset] at hl
          by_cases hpq : r.path = p
          · rw [if_pos hpq] at hl
            injection hl with hl2
            subst hl2
            obtain ⟨hfn2, -, -, -, -⟩ := openProver_ok_spec hop2
            rw [hfn2, hpq]
          · rw [if_neg hpq] at hl
            exact hprov p pr hl
        | some ce =>
          rw [hce] at hcee
          have hfnce : ce.prover.filename = r.path :=
            cacheFilenameOk_get hcfn0 hcee.symm
          have hpspec := post_process_file_spec acc.state now r.path si ce
          have hcache2 : CacheFilenameOk
              (acc.state.post_process_file now r.path si ce).2.cache.data := by
            rcases hpspec.2.2.2.2.2.2.2.2.2.2 with h1 | h2 | h3
            · rw [h1.2.1]
              exact hcfn
            · rw [h2.2.1]
              exact hcfn
            · rw [h3.2.2.2.1]
              exact cacheFilenameOk_bump hcfn hfnce
          cases hout : (acc.state.post_process_file now r.path si ce).1 with
          | some info =>
            have hstep : refreshBatchPhase1 now acc (r :: rest)
                = refreshBatchPhase1 now
                  { acc with
                    state := (acc.state.post_process_file now r.path si ce).2,
                    plots_refreshed := aset r.path info acc.plots_refreshed,
                    loaded := acc.loaded ++ [info] } rest := by
              conv_lhs => unfold refreshBatchPhase1
              rw [hsi, hce]
              dsimp only
              rw [hout]
            rw [hstep]
            exact ih _ hgenrest hcfn0 hcache2 hprov
          | none =>
            have hstep : refreshBatchPhase1 now acc (r :: rest)
                = refreshBatchPhase1 now
                  { acc with state := (acc.state.post_process_file now r.path si ce).2 }
                  rest := by
              conv_lhs => unfold refreshBatchPhase1
              rw [hsi, hce]
              dsimp only
              rw [hout]
            rw [hstep]
            exact ih _ hgenrest hcfn0 hcache2 hprov

/-- Filename honesty of the cache through the second `refresh_batch`
loop, for both outcomes. -/
theorem refreshBatchPhase2_cfn (fs : FileSystem) (now : ℚ)
    (stat_infos : List (PathT × StatResult)) (provers : List (PathT × DiskProver))
    (hprov : ∀ p pr, alookup p provers = some pr → pr.filename = p) :
    ∀ (results : List (PathT × Option CacheKeys)) (st : PlotManager)
      (plots_refreshed : List (PathT × PlotInfo)) (loaded : List PlotInfo),
      CacheFilenameOk st.cache.data →
      (∀ out, refreshBatchPhase2 now stat_infos provers st plots_refreshed loaded results
          = Except.ok out → CacheFilenameOk out.2.2.cache.data)
      ∧ (∀ es, refreshBatchPhase2 now stat_infos provers st plots_refreshed loaded results
          = Except.error es → CacheFilenameOk es.2.cache.data) := by
  intro results
  induction results with
  | nil =>
    intro st prf ld hcfn
    refine ⟨?_, ?_⟩
    · intro out heq
      injection heq with heq2
      subst heq2
      exact hcfn
    · intro es heq
      cases heq
  | cons pk rest ih =>
    intro st prf ld hcfn
    obtain ⟨path, rb⟩ := pk
    cases rb with
    | none =>
      have hstep : refreshBatchPhase2 now stat_infos provers st prf ld
          ((path, none) :: rest)
          = refreshBatchPhase2 now stat_infos provers
            { st with
              failed_to_open_filenames := aset path ⌊now⌋ st.failed_to_open_filenames }
            prf ld rest := rfl
      rw [hstep]
      exact ih _ _ _ hcfn
    | some keys =>
      cases hlp : alookup path provers with
      | none =>
        have hstep : refreshBatchPhase2 now stat_infos provers st prf ld
            ((path, some keys) :: rest) = Except.error (PyExn.keyError, st) := by
          conv_lhs => unfold refreshBatchPhase2
          rw [hlp]
        rw [hstep]
        refine ⟨?_, ?_⟩
        · intro out heq
          cases heq
        · intro es heq
          injection heq with h2
          subst h2
          exact hcfn
      | some prover =>
        have hfnp : prover.filename = path := hprov path prover hlp
        have hcfn1 : CacheFilenameOk ({ st with cache := st.cache.update path ⟨prover, keys, now⟩ } : PlotManager).cache.data := by
          dsimp only
          unfold Cache.update
          exact cacheFilenameOk_aset hcfn hfnp
        cases hsl : alookup path stat_infos with
        | none =>
          have hstep : refreshBatchPhase2 now stat_infos provers st prf ld
              ((path, some keys) :: rest)
              = Except.error (PyExn.keyError,
                  { st with cache := st.cache.update path ⟨prover, keys, now⟩ }) := by
            conv_lhs => unfold refreshBatchPhase2
            rw [hlp]
            dsimp only
            rw [hsl]
          rw [hstep]
          refine ⟨?_, ?_⟩
          · intro out heq
            cases heq
          · intro es heq
            injection heq with h2
            subst h2
            exact hcfn1
        | some si =>
          have hpspec := post_process_file_spec
            ({ st with cache := st.cache.update path ⟨prover, keys, now⟩ }) now path si
            ⟨prover, keys, now⟩
          have hpostcfn : CacheFilenameOk
              (({ st with cache := st.cache.update path ⟨prover, keys, now⟩ } : PlotManager).post_process_file now path si
                ⟨prover, keys, now⟩).2.cache.data := by
            rcases hpspec.2.2.2.2.2.2.2.2.2.2 with h1 | h2 | h3
            · rw [h1.2.1]
              exact hcfn1
            · rw [h2.2.1]
              exact hcfn1
            · rw [h3.2.2.2.1]
              exact cacheFilenameOk_bump hcfn1 hfnp
          cases hpo : (({ st with cache := st.cache.update path ⟨prover, keys, now⟩ } : PlotManager).post_process_file now path si
              ⟨prover, keys, now⟩).1 with
          | some info =>
            have hstep : refreshBatchPhase2 now stat_infos provers st prf ld
                ((path, some keys) :: rest)
                = refreshBatchPhase2 now stat_infos provers
                  (({ st with cache := st.cache.update path ⟨prover, keys, now⟩ } : PlotManager).post_process_file now path si
                    ⟨prover, keys, now⟩).2
                  (aset path info prf) (ld ++ [info]) rest := by
              conv_lhs => unfold refreshBatchPhase2
              rw [hlp]
              dsimp only
              rw [hsl]
              dsimp only
              rw [hpo]
            rw [hstep]
            exact ih _ _ _ hpostcfn
          | none =>
            have hstep : refreshBatchPhase2 now stat_infos provers st prf ld
                ((path, some keys) :: rest)
                = refreshBatchPhase2 now stat_infos provers
                  (({ st with cache := st.cache.update path ⟨prover, keys, now⟩ } : PlotManager).post_process_file now path si
                    ⟨prover, keys, now⟩).2
                  prf ld rest := by
              conv_lhs => unfold refreshBatchPhase2
              rw [hlp]
              dsimp only
              rw [hsl]
              dsimp only
              rw [hpo]
            rw [hstep]
            exact ih _ _ _ hpostcfn

/-- The registry invariant through the first `refresh_batch` loop: with
the remaining results' paths distinct and absent from the pending updates
and the decode queue, the batch invariant, the queue bookkeeping and the
argument facts are all maintained. -/
theorem refreshBatchPhase1_inv (fs : FileSystem) (now : ℚ) (spre : PlotManager) :
    ∀ (rs : List PreProcessingResult) (acc : BatchPhase1),
      (∀ r ∈ rs, GenuineRes fs spre.cache.data spre.plots spre.plot_filename_paths
          spre.match_str r) →
      CacheFilenameOk spre.cache.data →
      acc.state.plots = spre.plots →
      BatchInv spre.plots acc.plots_refreshed acc.state.plot_filename_paths →
      (rs.map (fun r => r.path)).Nodup →
      (∀ r ∈ rs, (alookup r.path acc.plots_refreshed).isSome = false) →
      (∀ pm ∈ acc.process_args, (alookup pm.1 acc.plots_refreshed).isSome = false
          ∧ ∀ r ∈ rs, r.path ≠ pm.1) →
      (acc.process_args.map Prod.fst).Nodup →
      ArgsFacts fs spre acc →
      ∀ acc2, refreshBatchPhase1 now acc rs = Except.ok acc2 →
        acc2.state.plots = spre.plots
        ∧ BatchInv spre.plots acc2.plots_refreshed acc2.state.plot_filename_paths
        ∧ (∀ pm ∈ acc2.process_args,
            (alookup pm.1 acc2.plots_refreshed).isSome = false)
        ∧ (acc2.process_args.map Prod.fst).Nodup
        ∧ ArgsFacts fs spre acc2 := by
  intro rs
  induction rs with
  | nil =>
    intro acc hgen hcfn0 hspl hinv hnd hrsref hdisj hand hargs acc2 heq
    injection heq with heq2
    subst heq2
    exact ⟨hspl, hinv, fun pm hpm => (hdisj pm hpm).1, hand, hargs⟩
  | cons r rest ih =>
    intro acc hgen hcfn0 hspl hinv hnd hrsref hdisj hand hargs acc2 heq
    have hgenr := hgen r (List.mem_cons_self _ _)
    have hgenrest : ∀ r2 ∈ rest, GenuineRes fs spre.cache.data spre.plots
        spre.plot_filename_paths spre.match_str r2 :=
      fun r2 h2 => hgen r2 (List.mem_cons_of_mem _ h2)
    have hndr : r.path ∉ rest.map (fun r2 => r2.path) :=
      (List.nodup_cons.mp hnd).1
    have hndrest : (rest.map (fun r2 => r2.path)).Nodup :=
      (List.nodup_cons.mp hnd).2
    have hrsrefrest : ∀ r2 ∈ rest, (alookup r2.path acc.plots_refreshed).isSome = false :=
      fun r2 h2 => hrsref r2 (List.mem_cons_of_mem _ h2)
    have hdisjrest : ∀ pm ∈ acc.process_args,
        (alookup pm.1 acc.plots_refreshed).isSome = false
        ∧ ∀ r2 ∈ rest, r2.path ≠ pm.1 :=
      fun pm hpm => ⟨(hdisj pm hpm).1,
        fun r2 h2 => (hdisj pm hpm).2 r2 (List.mem_cons_of_mem _ h2)⟩
    unfold refreshBatchPhase1 at heq
    dsimp only at heq
    cases hsi : r.stat_info with
    | none =>
      rw [hsi] at heq
      exact ih acc hgenrest hcfn0 hspl hinv hndrest hrsrefrest hdisjrest hand hargs acc2 heq
    | some si =>
      rw [hsi] at heq
      rcases hgenr with hnone | ⟨si2, pr2, hop2, heqr, hm2, hpl2, hdup2, hu2⟩
      · rw [hsi] at hnone
        cases hnone
      · have hsi2 : r.stat_info = some si2 := by rw [heqr]
        have hpr2 : r.prover = some pr2 := by rw [heqr]
        have hcee : r.cache_entry = alookup r.path spre.cache.data := by rw [heqr]
        rw [hsi] at hsi2
        injection hsi2 with hsieq
        subst hsieq
        cases hce : r.cache_entry with
        | none =>
          rw [hce] at heq
          cases hpr : r.prover with
          | none =>
            rw [hpr2] at hpr
            cases hpr
          | some prover =>
            rw [hpr2] at hpr
            injection hpr with hpreq
            subst hpreq
            rw [hpr2] at heq
            have hargs2 : ArgsFacts fs spre
                { acc with
                  process_args := acc.process_args ++ [(r.path, pr2.memo)],
                  stat_infos := aset r.path si acc.stat_infos,
                  provers := aset r.path pr2 acc.provers } := by
              intro pm hpm
              rcases List.mem_append.mp hpm with hold | hnew
              · obtain ⟨spm, ppm, hoppm, hmemo, hsti, hprv, hplpm, hmspm, hundpm⟩ :=
                  hargs pm hold
                by_cases hpq : r.path = pm.1
                · have hopx : openProver fs pm.1 = Except.ok (si, pr2) := by
                    rw [← hpq]
                    exact hop2
                  have hdet := hoppm.symm.trans hopx
                  injection hdet with hpair
                  injection hpair with hspm hppm
                  refine ⟨si, pr2, hopx, ?_, ?_, ?_, hplpm, hmspm, ?_⟩
                  · rw [hmemo, hppm]
                  · rw [alookup_aset, if_pos hpq]
                  · rw [alookup_aset, if_pos hpq]
                  · rw [hspm, hppm] at hundpm
                    exact hundpm
                · refine ⟨spm, ppm, hoppm, hmemo, ?_, ?_, hplpm, hmspm, hundpm⟩
                  · rw [alookup_aset, if_neg hpq]
                    exact hsti
                  · rw [alookup_aset, if_neg hpq]
                    exact hprv
              · rw [List.mem_singleton.mp hnew]
                exact ⟨si, pr2, hop2, rfl, by rw [alookup_aset, if_pos rfl],
                  by rw [alookup_aset, if_pos rfl], hpl2, hm2, hu2⟩
            have hdisj2 : ∀ pm ∈ acc.process_args ++ [(r.path, pr2.memo)],
                (alookup pm.1 acc.plots_refreshed).isSome = false
                ∧ ∀ r2 ∈ rest, r2.path ≠ pm.1 := by
              intro pm hpm
              rcases List.mem_append.mp hpm with hold | hnew
              · exact hdisjrest pm hold
              · rw [List.mem_singleton.mp hnew]
                refine ⟨hrsref r (List.mem_cons_self _ _), ?_⟩
                intro r2 h2 hc
                have hc2 : r2.path = r.path := hc
                have hmemmap : r2.path ∈ rest.map (fun r3 => r3.path) :=
                  List.mem_map_of_mem (fun r3 => r3.path) h2
                rw [hc2] at hmemmap
                exact hndr hmemmap
            have hand2 : ((acc.process_args ++ [(r.path, pr2.memo)]).map Prod.fst).Nodup := by
              rw [List.map_append]
              refine List.nodup_append.mpr ⟨hand, List.nodup_singleton _, ?_⟩
              intro a ha hb
              rw [List.mem_singleton.mp hb] at ha
              obtain ⟨pm, hpm, hpmf⟩ := List.mem_map.mp ha
              exact (hdisj pm hpm).2 r (List.mem_cons_self _ _) hpmf.symm
            exact ih
              { acc with
                process_args := acc.process_args ++ [(r.path, pr2.memo)],
                stat_infos := aset r.path si acc.stat_infos,
                provers := aset r.path pr2 acc.provers }
              hgenrest hcfn0 hspl hinv hndrest hrsrefrest hdisj2 hand2 hargs2
              acc2 heq
        | some ce =>
          rw [hce] at heq
          rw [hce] at hcee
          have hfnce : ce.prover.filename = r.path :=
            cacheFilenameOk_get hcfn0 hcee.symm
          have hspec := post_process_file_spec acc.state now r.path si ce
          have hplots2 : (acc.state.post_process_file now r.path si ce).2.plots
              = spre.plots := by
            rw [hspec.1, hspl]
          have hinvst : BatchInv acc.state.plots acc.plots_refreshed
              acc.state.plot_filename_paths := by
            rw [hspl]
            exact hinv
          have hqplots : (alookup r.path acc.state.plots).isSome = false := by
            rw [hspl]
            exact hpl2
          have hqref : (alookup r.path acc.plots_refreshed).isSome = false :=
            hrsref r (List.mem_cons_self _ _)
          dsimp only at heq
          cases hout : (acc.state.post_process_file now r.path si ce).1 with
          | some info =>
            rw [hout] at heq
            dsimp only at heq
            have hinv2 : BatchInv spre.plots (aset r.path info acc.plots_refreshed)
                (acc.state.post_process_file now r.path si ce).2.plot_filename_paths := by
              rw [← hspl]
              exact batchInv_post_some acc.state now r.path si ce acc.plots_refreshed
                info hfnce hinvst hqplots hqref hout
            have hrsref2 : ∀ r2 ∈ rest,
                (alookup r2.path (aset r.path info acc.plots_refreshed)).isSome
                  = false := by
              intro r2 h2
              rw [alookup_aset]
              rw [if_neg (fun hc : r.path = r2.path =>
                hndr (hc ▸ List.mem_map_of_mem (fun r3 => r3.path) h2))]
              exact hrsrefrest r2 h2
            have hdisj2 : ∀ pm ∈ acc.process_args,
                (alookup pm.1 (aset r.path info acc.plots_refreshed)).isSome = false
                ∧ ∀ r2 ∈ rest, r2.path ≠ pm.1 := by
              intro pm hpm
              refine ⟨?_, (hdisjrest pm hpm).2⟩
              rw [alookup_aset, if_neg ((hdisj pm hpm).2 r (List.mem_cons_self _ _))]
              exact (hdisj pm hpm).1
            exact ih
              { acc with
                state := (acc.state.post_process_file now r.path si ce).2,
                plots_refreshed := aset r.path info acc.plots_refreshed,
                loaded := acc.loaded ++ [info] }
              hgenrest hcfn0 hplots2 hinv2 hndrest hrsref2 hdisj2 hand hargs
              acc2 heq
          | none =>
            rw [hout] at heq
            dsimp only at heq
            have hinv2 : BatchInv spre.plots acc.plots_refreshed
                (acc.state.post_process_file now r.path si ce).2.plot_filename_paths := by
              rw [← hspl]
              exact batchInv_post_none acc.state now r.path si ce acc.plots_refreshed
                hfnce hinvst hqplots hqref hout
            exact ih
              { acc with state := (acc.state.post_process_file now r.path si ce).2 }
              hgenrest hcfn0 hplots2 hinv2 hndrest hrsrefrest hdisjrest hand
              hargs acc2 heq

/-- The registry invariant through the second `refresh_batch` loop. -/
theorem refreshBatchPhase2_inv (fs : FileSystem) (now : ℚ) (spre : PlotManager)
    (stat_infos : List (PathT × StatResult)) (provers : List (PathT × DiskProver)) :
    ∀ (results : List (PathT × Option CacheKeys)) (st : PlotManager)
      (plots_refreshed : List (PathT × PlotInfo)) (loaded : List PlotInfo),
      (∀ pk ∈ results, ∃ si pr, openProver fs pk.1 = Except.ok (si, pr)
        ∧ alookup pk.1 provers = some pr
        ∧ (alookup pk.1 spre.plots).isSome = false) →
      st.plots = spre.plots →
      BatchInv spre.plots plots_refreshed st.plot_filename_paths →
      (results.map Prod.fst).Nodup →
      (∀ pk ∈ results, (alookup pk.1 plots_refreshed).isSome = false) →
      ∀ out, refreshBatchPhase2 now stat_infos provers st plots_refreshed loaded results
          = Except.ok out →
        out.2.2.plots = spre.plots
        ∧ BatchInv spre.plots out.1 out.2.2.plot_filename_paths := by
  intro results
  induction results with
  | nil =>
    intro st prf ld hfacts hspl hinv hnd href out heq
    injection heq with heq2
    subst heq2
    exact ⟨hspl, hinv⟩
  | cons pk rest ih =>
    intro st prf ld hfacts hspl hinv hnd href out heq
    obtain ⟨path, rb⟩ := pk
    obtain ⟨si0, pr, hop, hprv, hplg⟩ := hfacts (path, rb) (List.mem_cons_self _ _)
    have hfactsrest : ∀ pk2 ∈ rest, ∃ si2 pr2, openProver fs pk2.1 = Except.ok (si2, pr2)
        ∧ alookup pk2.1 provers = some pr2
        ∧ (alookup pk2.1 spre.plots).isSome = false :=
      fun pk2 h2 => hfacts pk2 (List.mem_cons_of_mem _ h2)
    have hndr : path ∉ rest.map Prod.fst := (List.nodup_cons.mp hnd).1
    have hndrest : (rest.map Prod.fst).Nodup := (List.nodup_cons.mp hnd).2
    have hrefrest : ∀ pk2 ∈ rest, (alookup pk2.1 prf).isSome = false :=
      fun pk2 h2 => href pk2 (List.mem_cons_of_mem _ h2)
    cases rb with
    | none =>
      have hstep : refreshBatchPhase2 now stat_infos provers st prf ld
          ((path, none) :: rest)
          = refreshBatchPhase2 now stat_infos provers
            { st with
              failed_to_open_filenames := aset path ⌊now⌋ st.failed_to_open_filenames }
            prf ld rest := rfl
      rw [hstep] at heq
      exact ih
        { st with
          failed_to_open_filenames := aset path ⌊now⌋ st.failed_to_open_filenames }
        prf ld hfactsrest hspl hinv hndrest hrefrest out heq
    | some keys =>
      unfold refreshBatchPhase2 at heq
      dsimp only at heq
      rw [hprv] at heq
      dsimp only at heq
      cases hsl : alookup path stat_infos with
      | none =>
        rw [hsl] at heq
        cases heq
      | some si =>
        rw [hsl] at heq
        dsimp only at heq
        have hfnce : pr.filename = path := (openProver_ok_spec hop).1
        have hinvst : BatchInv ({ st with cache := st.cache.update path ⟨pr, keys, now⟩ } : PlotManager).plots prf
            ({ st with cache := st.cache.update path ⟨pr, keys, now⟩ } : PlotManager).plot_filename_paths := by
          dsimp only
          rw [hspl]
          exact hinv
        have hqplots : (alookup path ({ st with cache := st.cache.update path ⟨pr, keys, now⟩ } : PlotManager).plots).isSome = false := by
          dsimp only
          rw [hspl]
          exact hplg
        have hqref : (alookup path prf).isSome = false :=
          href (path, some keys) (List.mem_cons_self _ _)
        have hspec := post_process_file_spec
          ({ st with cache := st.cache.update path ⟨pr, keys, now⟩ }) now path si
          ⟨pr, keys, now⟩
        have hplots2 : (({ st with cache := st.cache.update path ⟨pr, keys, now⟩ } : PlotManager).post_process_file now path si
            ⟨pr, keys, now⟩).2.plots = spre.plots := by
          rw [hspec.1]
          dsimp only
          rw [hspl]
        cases hpo : (({ st with cache := st.cache.update path ⟨pr, keys, now⟩ } : PlotManager).post_process_file now path si
            ⟨pr, keys, now⟩).1 with
        | some info =>
          rw [hpo] at heq
          dsimp only at heq
          have hinv2 : BatchInv spre.plots (aset path info prf)
              (({ st with cache := st.cache.update path ⟨pr, keys, now⟩ } : PlotManager).post_process_file now path si
                ⟨pr, keys, now⟩).2.plot_filename_paths := by
            rw [← hspl]
            exact batchInv_post_some _ now path si ⟨pr, keys, now⟩ prf info hfnce
              (by rw [hspl] at hinvst ⊢; exact hinvst) hqplots hqref hpo
          have href2 : ∀ pk2 ∈ rest,
              (alookup pk2.1 (aset path info prf)).isSome = false := by
            intro pk2 h2
            rw [alookup_aset]
            rw [if_neg (fun hc : path = pk2.1 =>
              hndr (hc ▸ List.mem_map_of_mem Prod.fst h2))]
            exact hrefrest pk2 h2
          exact ih
            (({ st with cache := st.cache.update path ⟨pr, keys, now⟩ } :
                PlotManager).post_process_file now path si ⟨pr, keys, now⟩).2
            (aset path info prf) (ld ++ [info])
            hfactsrest hplots2 hinv2 hndrest href2 out heq
        | none =>
          rw [hpo] at heq
          dsimp only at heq
          have hinv2 : BatchInv spre.plots prf
              (({ st with cache := st.cache.update path ⟨pr, keys, now⟩ } : PlotManager).post_process_file now path si
                ⟨pr, keys, now⟩).2.plot_filename_paths := by
            rw [← hspl]
            exact batchInv_post_none _ now path si ⟨pr, keys, now⟩ prf hfnce
              (by rw [hspl] at hinvst ⊢; exact hinvst) hqplots hqref hpo
          exact ih
            (({ st with cache := st.cache.update path ⟨pr, keys, now⟩ } :
                PlotManager).post_process_file now path si ⟨pr, keys, now⟩).2
            prf ld hfactsrest hplots2 hinv2 hndrest hrefrest out heq

/-- Filename honesty of the cache through one `refresh_batch` call, for
both outcomes. -/
theorem refresh_batch_cfn (fs : FileSystem) (now : ℚ) (spre : PlotManager)
    (rs : List PreProcessingResult)
    (hgen : ∀ r ∈ rs, GenuineRes fs spre.cache.data spre.plots spre.plot_filename_paths
        spre.match_str r)
    (hcfn : CacheFilenameOk spre.cache.data) :
    (∀ out, spre.refresh_batch now rs = Except.ok out →
        CacheFilenameOk out.2.cache.data)
    ∧ (∀ es, spre.refresh_batch now rs = Except.error es →
        CacheFilenameOk es.2.cache.data) := by
  have hacc0 := refreshBatchPhase1_cfn fs now spre rs
    { process_args := [], stat_infos := [], provers := [], plots_refreshed := [],
      loaded := [], state := spre }
    hgen hcfn hcfn (fun p pr hl => by simp [alookup] at hl)
  refine ⟨?_, ?_⟩
  · intro out heq
    unfold PlotManager.refresh_batch at heq
    dsimp only at heq
    cases h1 : refreshBatchPhase1 now
        { process_args := [], stat_infos := [], provers := [], plots_refreshed := [],
          loaded := [], state := spre } rs with
    | error es =>
      rw [h1] at heq
      cases heq
    | ok acc1 =>
      rw [h1] at heq
      dsimp only at heq
      obtain ⟨hcfn1, hprov1⟩ := hacc0.1 acc1 h1
      have hp2 := refreshBatchPhase2_cfn fs now acc1.stat_infos acc1.provers hprov1
      cases h2 : starmapProcessMemo acc1.process_args with
      | error e =>
        rw [h2] at heq
        cases heq
      | ok pmr =>
        rw [h2] at heq
        dsimp only at heq
        cases h3 : refreshBatchPhase2 now acc1.stat_infos acc1.provers acc1.state
            acc1.plots_refreshed acc1.loaded pmr with
        | error es =>
          rw [h3] at heq
          cases heq
        | ok out2 =>
          rw [h3] at heq
          dsimp only at heq
          injection heq with heq2
          subst heq2
          exact (hp2 pmr acc1.state acc1.plots_refreshed acc1.loaded hcfn1).1 out2 h3
  · intro es heq
    unfold PlotManager.refresh_batch at heq
    dsimp only at heq
    cases h1 : refreshBatchPhase1 now
        { process_args := [], stat_infos := [], provers := [], plots_refreshed := [],
          loaded := [], state := spre } rs with
    | error es1 =>
      rw [h1] at heq
      injection heq with heq2
      subst heq2
      exact hacc0.2 es1 h1
    | ok acc1 =>
      rw [h1] at heq
      dsimp only at heq
      obtain ⟨hcfn1, hprov1⟩ := hacc0.1 acc1 h1
      have hp2 := refreshBatchPhase2_cfn fs now acc1.stat_infos acc1.provers hprov1
      cases h2 : starmapProcessMemo acc1.process_args with
      | error e =>
        rw [h2] at heq
        injection heq with heq2
        subst heq2
        exact hcfn1
      | ok pmr =>
        rw [h2] at heq
        dsimp only at heq
        cases h3 : refreshBatchPhase2 now acc1.stat_infos acc1.provers acc1.state
            acc1.plots_refreshed acc1.loaded pmr with
        | error es2 =>
          rw [h3] at heq
          injection heq with heq2
          subst heq2
          exact (hp2 pmr acc1.state acc1.plots_refreshed acc1.loaded hcfn1).2 es2 h3
        | ok out2 =>
          rw [h3] at heq
          dsimp only at heq
          cases heq

/-- The registry invariant through one `refresh_batch` call over genuine
preprocessing results with distinct paths. -/
theorem refresh_batch_inv (fs : FileSystem) (now : ℚ) (spre : PlotManager)
    (rs : List PreProcessingResult)
    (hgen : ∀ r ∈ rs, GenuineRes fs spre.cache.data spre.plots spre.plot_filename_paths
        spre.match_str r)
    (hcfn : CacheFilenameOk spre.cache.data)
    (hnd : (rs.map (fun r => r.path)).Nodup)
    (hinv : ManagerInv spre) :
    ∀ out, spre.refresh_batch now rs = Except.ok out →
      ManagerInv out.2 ∧ CacheFilenameOk out.2.cache.data := by
  intro out heq
  have hcfnout := (refresh_batch_cfn fs now spre rs hgen hcfn).1 out heq
  refine ⟨?_, hcfnout⟩
  unfold PlotManager.refresh_batch at heq
  dsimp only at heq
  cases h1 : refreshBatchPhase1 now
      { process_args := [], stat_infos := [], provers := [], plots_refreshed := [],
        loaded := [], state := spre } rs with
  | error es =>
    rw [h1] at heq
    cases heq
  | ok acc1 =>
    rw [h1] at heq
    dsimp only at heq
    obtain ⟨i1, i2, i3, i4, i5⟩ := refreshBatchPhase1_inv fs now spre rs
      { process_args := [], stat_infos := [], provers := [], plots_refreshed := [],
        loaded := [], state := spre }
      hgen hcfn rfl (managerInv_batchInv hinv) hnd
      (fun r hr => rfl) (fun pm hpm => absurd hpm (List.not_mem_nil pm))
      List.nodup_nil (fun pm hpm => absurd hpm (List.not_mem_nil pm)) acc1 h1
    cases h2 : starmapProcessMemo acc1.process_args with
    | error e =>
      rw [h2] at heq
      cases heq
    | ok pmr =>
      rw [h2] at heq
      dsimp only at heq
      obtain ⟨hpmr, hall⟩ := starmap_ok_spec h2
      have hfacts : ∀ pk ∈ pmr, ∃ si pr, openProver fs pk.1 = Except.ok (si, pr)
          ∧ alookup pk.1 acc1.provers = some pr
          ∧ (alookup pk.1 spre.plots).isSome = false := by
        intro pk hpk
        rw [hpmr] at hpk
        obtain ⟨pm, hpm, hpkeq⟩ := List.mem_map.mp hpk
        obtain ⟨si, pr, hop, hmemo, hsti, hprv, hpl, hms, hund⟩ := i5 pm hpm
        subst hpkeq
        exact ⟨si, pr, hop, hprv, hpl⟩
      have hndpmr : (pmr.map Prod.fst).Nodup := by
        rw [hpmr, List.map_map]
        exact i4
      have href : ∀ pk ∈ pmr, (alookup pk.1 acc1.plots_refreshed).isSome = false := by
        intro pk hpk
        rw [hpmr] at hpk
        obtain ⟨pm, hpm, hpkeq⟩ := List.mem_map.mp hpk
        subst hpkeq
        exact i3 pm hpm
      cases h3 : refreshBatchPhase2 now acc1.stat_infos acc1.provers acc1.state
          acc1.plots_refreshed acc1.loaded pmr with
      | error es =>
        rw [h3] at heq
        cases heq
      | ok out2 =>
        rw [h3] at heq
        dsimp only at heq
        injection heq with heq2
        subst heq2
        obtain ⟨j1, j2⟩ := refreshBatchPhase2_inv fs now spre acc1.stat_infos
          acc1.provers pmr acc1.state acc1.plots_refreshed acc1.loaded
          hfacts i1 i2 hndpmr href out2 h3
        obtain ⟨hplnd, -, -, -⟩ := hinv
        obtain ⟨k1, k2, k3⟩ := batchInv_updatePlots j2
        refine ⟨?_, k1, ?_, ?_⟩
        · show ((updatePlots out2.2.2.plots out2.1).map Prod.fst).Nodup
          rw [j1]
          exact nodup_keys_updatePlots _ _ hplnd
        · intro p hp
          refine k2 p ?_
          have hp2 : (alookup p (updatePlots out2.2.2.plots out2.1)).isSome = true := hp
          rw [j1] at hp2
          exact hp2
        · intro fn e he d hd
          have hk := k3 fn e he d hd
          show (alookup (PathT.mk d fn) (updatePlots out2.2.2.plots out2.1)).isSome
            = false
          rw [j1]
          exact hk

theorem preProcessBatch_paths_eq (fs : FileSystem) (now : ℚ) :
    ∀ (batch : List PathT) (s : PlotManager),
      (preProcessBatch fs now s batch).1.map (fun r => r.path) = batch := by
  intro batch
  induction batch with
  | nil =>
    intro s
    rfl
  | cons p rest ih =>
    intro s
    show ((s.pre_process_file fs now p).1
        :: (preProcessBatch fs now (s.pre_process_file fs now p).2 rest).1).map
        (fun r => r.path) = p :: rest
    rw [List.map_cons, (pre_process_file_spec s fs now p).1, ih]

theorem batchChunksAux_sublist {α : Type} (bs : Nat) :
    ∀ (fuel : Nat) (l : List α) (b : List α), b ∈ batchChunksAux bs fuel l →
      b.Sublist l := by
  intro fuel
  induction fuel with
  | zero =>
    intro l b hb
    cases hb
  | succ n ih =>
    intro l b hb
    cases l with
    | nil => cases hb
    | cons x xs =>
      have hb2 : b ∈ (x :: xs.take (bs - 1))
          :: batchChunksAux bs n (xs.drop (bs - 1)) := hb
      rcases List.mem_cons.mp hb2 with heq | hm
      · subst heq
        exact List.Sublist.cons₂ x (List.take_sublist _ _)
      · exact List.Sublist.cons x ((ih (xs.drop (bs - 1)) b hm).trans
          (List.drop_sublist _ _))

/-- Filename honesty of the cache through the batch loop, for both
outcomes. -/
theorem runBatches_cfn (fs : FileSystem) (now : ℚ) :
    ∀ (batches : List (List PathT)) (s : PlotManager) (total : PlotRefreshResult),
      CacheFilenameOk s.cache.data →
      (∀ out, runBatches fs now s batches total = Except.ok out →
          CacheFilenameOk out.2.cache.data)
      ∧ (∀ es, runBatches fs now s batches total = Except.error es →
          CacheFilenameOk es.2.cache.data) := by
  intro batches
  induction batches with
  | nil =>
    intro s total hcfn
    refine ⟨?_, ?_⟩
    · intro out heq
      injection heq with h2
      subst h2
      exact hcfn
    · intro es heq
      cases heq
  | cons batch rest ih =>
    intro s total hcfn
    obtain ⟨hpbc, hpbH, hpbgen, -⟩ := preProcessBatch_spec fs now batch s
    obtain ⟨hq1, hq2, hq3, hq4, hq5, hq6, hq7, hq8, hq9, hq10, hq11, hq12⟩ := hpbc
    have hgen2 : ∀ r ∈ (preProcessBatch fs now s batch).1,
        GenuineRes fs (preProcessBatch fs now s batch).2.cache.data
          (preProcessBatch fs now s batch).2.plots
          (preProcessBatch fs now s batch).2.plot_filename_paths
          (preProcessBatch fs now s batch).2.match_str r := by
      intro r hr
      rw [hq1, hq2, hq3, hq7]
      exact hpbgen r hr
    have hcfn2 : CacheFilenameOk (preProcessBatch fs now s batch).2.cache.data := by
      rw [hq3]
      exact hcfn
    have hrb := refresh_batch_cfn fs now (preProcessBatch fs now s batch).2
      (preProcessBatch fs now s batch).1 hgen2 hcfn2
    refine ⟨?_, ?_⟩
    · intro out heq
      unfold runBatches at heq
      dsimp only at heq
      cases hb : (preProcessBatch fs now s batch).2.refresh_batch now
          (preProcessBatch fs now s batch).1 with
      | error es =>
        rw [hb] at heq
        cases heq
      | ok out1 =>
        rw [hb] at heq
        dsimp only at heq
        exact (ih out1.2
          { total with
            loaded := total.loaded ++ out1.1.loaded,
            processed := total.processed + out1.1.processed,
            duration := total.duration + out1.1.duration }
          (hrb.1 out1 hb)).1 out heq
    · intro es heq
      unfold runBatches at heq
      dsimp only at heq
      cases hb : (preProcessBatch fs now s batch).2.refresh_batch now
          (preProcessBatch fs now s batch).1 with
      | error es1 =>
        rw [hb] at heq
        injection heq with h2
        subst h2
        exact hrb.2 es1 hb
      | ok out1 =>
        rw [hb] at heq
        dsimp only at heq
        exact (ih out1.2
          { total with
            loaded := total.loaded ++ out1.1.loaded,
            processed := total.processed + out1.1.processed,
            duration := total.duration + out1.1.duration }
          (hrb.1 out1 hb)).2 es heq

/-- The registry invariant through the batch loop, with every batch free
of duplicate paths. -/
theorem runBatches_inv (fs : FileSystem) (now : ℚ) :
    ∀ (batches : List (List PathT)) (s : PlotManager) (total : PlotRefreshResult),
      (∀ b ∈ batches, b.Nodup) →
      CacheFilenameOk s.cache.data →
      ManagerInv s →
      ∀ out, runBatches fs now s batches total = Except.ok out →
        ManagerInv out.2 := by
  intro batches
  induction batches with
  | nil =>
    intro s total hbnd hcfn hinv out heq
    injection heq with h2
    subst h2
    exact hinv
  | cons batch rest ih =>
    intro s total hbnd hcfn hinv out heq
    unfold runBatches at heq
    dsimp only at heq
    obtain ⟨hpbc, hpbH, hpbgen, -⟩ := preProcessBatch_spec fs now batch s
    obtain ⟨hq1, hq2, hq3, hq4, hq5, hq6, hq7, hq8, hq9, hq10, hq11, hq12⟩ := hpbc
    have hgen2 : ∀ r ∈ (preProcessBatch fs now s batch).1,
        GenuineRes fs (preProcessBatch fs now s batch).2.cache.data
          (preProcessBatch fs now s batch).2.plots
          (preProcessBatch fs now s batch).2.plot_filename_paths
          (preProcessBatch fs now s batch).2.match_str r := by
      intro r hr
      rw [hq1, hq2, hq3, hq7]
      exact hpbgen r hr
    have hcfn2 : CacheFilenameOk (preProcessBatch fs now s batch).2.cache.data := by
      rw [hq3]
      exact hcfn
    have hinv2 : ManagerInv (preProcessBatch fs now s batch).2 := by
      obtain ⟨m1, m2, m3, m4⟩ := hinv
      refine ⟨?_, ?_, ?_, ?_⟩
      · rw [hq1]
        exact m1
      · rw [hq2]
        exact m2
      · intro p hp
        rw [hq1] at hp
        rw [hq2]
        exact m3 p hp
      · intro fn e he d hd
        rw [hq2] at he
        rw [hq1]
        exact m4 fn e he d hd
    have hndrs : ((preProcessBatch fs now s batch).1.map (fun r => r.path)).Nodup := by
      rw [preProcessBatch_paths_eq fs now batch s]
      exact hbnd batch (List.mem_cons_self _ _)
    cases hb : (preProcessBatch fs now s batch).2.refresh_batch now
        (preProcessBatch fs now s batch).1 with
    | error es =>
      rw [hb] at heq
      cases heq
    | ok out1 =>
      rw [hb] at heq
      dsimp only at heq
      obtain ⟨hinv3, hcfn3⟩ := refresh_batch_inv fs now
        (preProcessBatch fs now s batch).2 (preProcessBatch fs now s batch).1
        hgen2 hcfn2 hndrs hinv2 out1 hb
      exact ih out1.2
        { total with
          loaded := total.loaded ++ out1.1.loaded,
          processed := total.processed + out1.1.processed,
          duration := total.duration + out1.1.duration }
        (fun b hb2 => hbnd b (List.mem_cons_of_mem _ hb2)) hcfn3 hinv3 out heq

theorem removalDiff_plots_sublist (pp : List PathT) :
    ∀ (reg : List (String × String × List String)) (plots : List (PathT × PlotInfo))
      (removed : List PathT),
      (removalDiff pp reg plots removed).2.1.Sublist plots := by
  intro reg
  induction reg with
  | nil =>
    intro plots removed
    exact List.Sublist.refl _
  | cons entry rest ih =>
    intro plots removed
    obtain ⟨fn, lp, dups⟩ := entry
    unfold removalDiff
    dsimp only
    by_cases hmem : ({ parent := lp, name := fn } : PathT) ∉ pp
    · rw [if_pos hmem]
      by_cases hsome : (alookup ({ parent := lp, name := fn } : PathT) plots).isSome
          = true
      · rw [if_pos hsome]
        exact (ih _ _).trans (aerase_sublist _ _)
      · rw [if_neg hsome]
        exact ih _ _
    · rw [if_neg hmem]
      exact ih _ _

theorem alookup_none_mono {α β : Type} [DecidableEq α] {l1 l2 : List (α × β)}
    (hs : l1.Sublist l2) (p : α) (h : alookup p l2 = none) : alookup p l1 = none := by
  cases hl : alookup p l1 with
  | none => rfl
  | some v =>
    exfalso
    have hmem : p ∈ l1.map Prod.fst :=
      (alookup_isSome_iff_mem p l1).mp (by rw [hl]; rfl)
    have hmem2 : p ∈ l2.map Prod.fst := (hs.map Prod.fst).subset hmem
    have hsome := (alookup_isSome_iff_mem p l2).mpr hmem2
    rw [h] at hsome
    simp at hsome

theorem removalDiff_pfp_keys_sublist (pp : List PathT) :
    ∀ (reg : List (String × String × List String)) (plots : List (PathT × PlotInfo))
      (removed : List PathT),
      ((removalDiff pp reg plots removed).1.map Prod.fst).Sublist (reg.map Prod.fst) := by
  intro reg
  induction reg with
  | nil =>
    intro plots removed
    exact List.Sublist.refl _
  | cons entry rest ih =>
    intro plots removed
    obtain ⟨fn, lp, dups⟩ := entry
    unfold removalDiff
    dsimp only
    by_cases hmem : ({ parent := lp, name := fn } : PathT) ∉ pp
    · rw [if_pos hmem]
      exact (ih _ _).trans (List.sublist_cons_self _ _)
    · rw [if_neg hmem]
      show (((fn, lp, dups.filter _) :: (removalDiff pp rest plots _).1).map
            Prod.fst).Sublist (((fn, lp, dups) :: rest).map Prod.fst)
      rw [List.map_cons, List.map_cons]
      exact List.Sublist.cons₂ _ (ih _ _)

/-- The registry lookup in the removal diff's output, characterized by the
original registry: a kept entry survives with its duplicate list filtered
by presence, a dropped entry is gone. -/
theorem removalDiff_pfp_lookup (pp : List PathT) :
    ∀ (reg : List (String × String × List String)) (plots : List (PathT × PlotInfo))
      (removed : List PathT) (fn : String),
      (reg.map Prod.fst).Nodup →
      alookup fn (removalDiff pp reg plots removed).1
        = match alookup fn reg with
          | none => none
          | some e => if (PathT.mk e.1 fn) ∈ pp
              then some (e.1, e.2.filter (fun d => decide ((PathT.mk d fn) ∈ pp)))
              else none := by
  intro reg
  induction reg with
  | nil =>
    intro plots removed fn hnd
    rfl
  | cons entry rest ih =>
    intro plots removed fn hnd
    obtain ⟨fn0, lp, dups⟩ := entry
    have hnd0 : fn0 ∉ rest.map Prod.fst := (List.nodup_cons.mp hnd).1
    have hndrest : (rest.map Prod.fst).Nodup := (List.nodup_cons.mp hnd).2
    unfold removalDiff
    dsimp only
    by_cases hmem : ({ parent := lp, name := fn0 } : PathT) ∉ pp
    · rw [if_pos hmem]
      rw [ih _ _ fn hndrest]
      by_cases hfn : fn0 = fn
      · subst hfn
        have hrest : alookup fn0 rest = none := by
          cases hr : alookup fn0 rest with
          | none => rfl
          | some e =>
            exact absurd ((alookup_isSome_iff_mem fn0 rest).mp (by rw [hr]; rfl)) hnd0
        rw [hrest, alookup_cons, if_pos rfl]
        dsimp only
        rw [if_neg hmem]
      · rw [alookup_cons, if_neg hfn]
    · rw [if_neg hmem]
      by_cases hfn : fn0 = fn
      · subst hfn
        show alookup fn0 ((fn0, lp, dups.filter _) :: (removalDiff pp rest plots _).1) = _
        rw [alookup_cons, if_pos rfl, alookup_cons, if_pos rfl]
        dsimp only
        rw [if_pos (not_not.mp hmem)]
      · show alookup fn ((fn0, lp, dups.filter _) :: (removalDiff pp rest plots _).1) = _
        rw [alookup_cons, if_neg hfn, alookup_cons, if_neg hfn]
        exact ih _ _ fn hndrest

/-- A plot whose registry entry is dropped by the removal diff is deleted
from the plot map. -/
theorem removalDiff_plots_none (pp : List PathT) :
    ∀ (reg : List (String × String × List String)) (plots : List (PathT × PlotInfo))
      (removed : List PathT) (p : PathT) (e : String × List String),
      (plots.map Prod.fst).Nodup →
      (reg.map Prod.fst).Nodup →
      alookup p.name reg = some e →
      e.1 = p.parent →
      (PathT.mk e.1 p.name) ∉ pp →
      alookup p (removalDiff pp reg plots removed).2.1 = none := by
  intro reg
  induction reg with
  | nil =>
    intro plots removed p e hpnd hrnd he he1 hnp
    cases he
  | cons entry rest ih =>
    intro plots removed p e hpnd hrnd he he1 hnp
    obtain ⟨fn0, lp, dups⟩ := entry
    have hndrest : (rest.map Prod.fst).Nodup := (List.nodup_cons.mp hrnd).2
    unfold removalDiff
    dsimp only
    rw [alookup_cons] at he
    by_cases hfn : fn0 = p.name
    · rw [if_pos hfn] at he
      injection he with he2
      subst he2
      have he1x : lp = p.parent := he1
      have hp : ({ parent := lp, name := fn0 } : PathT) = p := by
        rw [he1x, hfn]
      have hnpx : ({ parent := lp, name := p.name } : PathT) ∉ pp := hnp
      have hdropcond : ({ parent := lp, name := fn0 } : PathT) ∉ pp := by
        rw [hfn]
        exact hnpx
      rw [if_pos hdropcond]
      have hplots1 : alookup p
          (if (alookup ({ parent := lp, name := fn0 } : PathT) plots).isSome
            then aerase ({ parent := lp, name := fn0 } : PathT) plots else plots)
          = none := by
        by_cases hsome : (alookup ({ parent := lp, name := fn0 } : PathT)
            plots).isSome = true
        · rw [if_pos hsome, hp]
          exact alookup_aerase_self p plots hpnd
        · rw [if_neg hsome]
          rw [hp] at hsome
          cases halp : alookup p plots with
          | none => rfl
          | some v =>
            rw [halp] at hsome
            simp at hsome
      exact alookup_none_mono (removalDiff_plots_sublist pp rest _ _) p hplots1
    · rw [if_neg hfn] at he
      by_cases hmem : ({ parent := lp, name := fn0 } : PathT) ∉ pp
      · rw [if_pos hmem]
        by_cases hsome : (alookup ({ parent := lp, name := fn0 } : PathT)
            plots).isSome = true
        · rw [if_pos hsome]
          exact ih (aerase _ plots) _ p e (nodup_keys_aerase _ _ hpnd) hndrest he he1 hnp
        · rw [if_neg hsome]
          exact ih plots _ p e hpnd hndrest he he1 hnp
      · rw [if_neg hmem]
        exact ih plots _ p e hpnd hndrest he he1 hnp

/-- The removal diff at the start of a cycle preserves the registry
invariant. -/
theorem managerInv_cycleStart (s : PlotManager) (fs : FileSystem)
    (hinv : ManagerInv s) : ManagerInv (cycleStartState s fs) := by
  obtain ⟨m1, m2, m3, m4⟩ := hinv
  refine ⟨?_, ?_, ?_, ?_⟩
  · show (((removalDiff (fsPaths fs) s.plot_filename_paths s.plots []).2.1).map
        Prod.fst).Nodup
    exact m1.sublist
      ((removalDiff_plots_sublist (fsPaths fs) s.plot_filename_paths s.plots []).map
        Prod.fst)
  · show (((removalDiff (fsPaths fs) s.plot_filename_paths s.plots []).1).map
        Prod.fst).Nodup
    exact m2.sublist
      (removalDiff_pfp_keys_sublist (fsPaths fs) s.plot_filename_paths s.plots [])
  · intro p hp
    have hp2 : (alookup p
        (removalDiff (fsPaths fs) s.plot_filename_paths s.plots []).2.1).isSome
        = true := hp
    have hpplots : (alookup p s.plots).isSome = true := by
      cases hsp : alookup p s.plots with
      | some v => rfl
      | none =>
        exfalso
        have hnone := alookup_none_mono
          (removalDiff_plots_sublist (fsPaths fs) s.plot_filename_paths s.plots [])
          p hsp
        rw [hnone] at hp2
        simp at hp2
    obtain ⟨e, he, he1⟩ := m3 p hpplots
    by_cases hkept : (PathT.mk e.1 p.name) ∈ fsPaths fs
    · have hchar := removalDiff_pfp_lookup (fsPaths fs) s.plot_filename_paths s.plots []
        p.name m2
      rw [he] at hchar
      dsimp only at hchar
      rw [if_pos hkept] at hchar
      exact ⟨_, hchar, he1⟩
    · exfalso
      have hnone := removalDiff_plots_none (fsPaths fs) s.plot_filename_paths s.plots []
        p e m1 m2 he he1 hkept
      rw [hnone] at hp2
      simp at hp2
  · intro fn e' he' d hd
    have hchar := removalDiff_pfp_lookup (fsPaths fs) s.plot_filename_paths s.plots []
      fn m2
    have he'2 : alookup fn
        (removalDiff (fsPaths fs) s.plot_filename_paths s.plots []).1 = some e' := he'
    rw [he'2] at hchar
    cases horig : alookup fn s.plot_filename_paths with
    | none =>
      rw [horig] at hchar
      cases hchar
    | some e0 =>
      rw [horig] at hchar
      dsimp only at hchar
      by_cases hkept : (PathT.mk e0.1 fn) ∈ fsPaths fs
      · rw [if_pos hkept] at hchar
        injection hchar with he2
        subst he2
        have hd2 : d ∈ e0.2.filter (fun x => decide ((PathT.mk x fn) ∈ fsPaths fs)) := hd
        have hd0 : d ∈ e0.2 := List.mem_of_mem_filter hd2
        have hold := m4 fn e0 horig d hd0
        show (alookup (PathT.mk d fn)
            (removalDiff (fsPaths fs) s.plot_filename_paths s.plots []).2.1).isSome
            = false
        cases hsp : alookup (PathT.mk d fn) s.plots with
        | some v =>
          rw [hsp] at hold
          simp at hold
        | none =>
          rw [alookup_none_mono
            (removalDiff_plots_sublist (fsPaths fs) s.plot_filename_paths s.plots [])
            _ hsp]
          rfl
      · rw [if_neg hkept] at hchar
        cases hchar

/-- Filename honesty of the cache through a full refresh cycle, for both
outcomes. -/
theorem runCycleBody_cfn (s : PlotManager) (fs : FileSystem) (now : ℚ)
    (hcfn : CacheFilenameOk s.cache.data) :
    (∀ out, runCycleBody s fs now = Except.ok out → CacheFilenameOk out.2.cache.data)
    ∧ (∀ es, runCycleBody s fs now = Except.error es →
        CacheFilenameOk es.2.cache.data) := by
  have hcscfn : CacheFilenameOk (cycleStartState s fs).cache.data := hcfn
  have hrbc := runBatches_cfn fs now
    (batchChunks s.refresh_parameter.batch_size (fsPaths fs))
    (cycleStartState s fs)
    { PlotRefreshResult.empty with
      removed := (removalDiff (fsPaths fs) s.plot_filename_paths s.plots []).2.2 }
    hcscfn
  refine ⟨?_, ?_⟩
  · intro out heq
    unfold runCycleBody at heq
    dsimp only at heq
    split at heq
    · cases heq
    · rename_i out1 hrb
      injection heq with heq2
      subst heq2
      have hrb2 : runBatches fs now (cycleStartState s fs)
          (batchChunks s.refresh_parameter.batch_size (fsPaths fs))
          { PlotRefreshResult.empty with
            removed := (removalDiff (fsPaths fs) s.plot_filename_paths s.plots []).2.2 }
          = Except.ok out1 := hrb
      have hc1 := hrbc.1 out1 hrb2
      by_cases hch : (refreshTaskCacheCleanup out1.2.plots now out1.2.cache).changed
          = true
      · rw [if_pos hch]
        exact cacheFilenameOk_cleanup out1.2.plots now hc1
      · rw [if_neg hch]
        exact cacheFilenameOk_cleanup out1.2.plots now hc1
  · intro es heq
    unfold runCycleBody at heq
    dsimp only at heq
    split at heq
    · rename_i es1 hrb
      injection heq with heq2
      subst heq2
      have hrb2 : runBatches fs now (cycleStartState s fs)
          (batchChunks s.refresh_parameter.batch_size (fsPaths fs))
          { PlotRefreshResult.empty with
            removed := (removalDiff (fsPaths fs) s.plot_filename_paths s.plots []).2.2 }
          = Except.error es1 := hrb
      exact hrbc.2 es1 hrb2
    · cases heq

/-- The registry invariant through a successful refresh cycle, over a
filesystem without duplicate directory entries. -/
theorem runCycleBody_inv (s : PlotManager) (fs : FileSystem) (now : ℚ)
    (hndfs : (fsPaths fs).Nodup)
    (hcfn : CacheFilenameOk s.cache.data)
    (hinv : ManagerInv s) :
    ∀ out, runCycleBody s fs now = Except.ok out → ManagerInv out.2 := by
  intro out heq
  unfold runCycleBody at heq
  dsimp only at heq
  split at heq
  · cases heq
  · rename_i out1 hrb
    injection heq with heq2
    subst heq2
    have hrb2 : runBatches fs now (cycleStartState s fs)
        (batchChunks s.refresh_parameter.batch_size (fsPaths fs))
        { PlotRefreshResult.empty with
          removed := (removalDiff (fsPaths fs) s.plot_filename_paths s.plots []).2.2 }
        = Except.ok out1 := hrb
    have hbnd : ∀ b ∈ batchChunks s.refresh_parameter.batch_size (fsPaths fs),
        b.Nodup :=
      fun b hb => hndfs.sublist (batchChunksAux_sublist _ _ _ b hb)
    have hcscfn : CacheFilenameOk (cycleStartState s fs).cache.data := hcfn
    have hinv1 := runBatches_inv fs now
      (batchChunks s.refresh_parameter.batch_size (fsPaths fs))
      (cycleStartState s fs)
      { PlotRefreshResult.empty with
        removed := (removalDiff (fsPaths fs) s.plot_filename_paths s.plots []).2.2 }
      hbnd hcscfn (managerInv_cycleStart s fs hinv) out1 hrb2
    exact hinv1

/-- Both invariants through one `_refresh_task` loop iteration: a failed
cycle answers with `reset`, whose emptied maps satisfy the invariant
trivially and whose surviving cache keeps filename honesty. -/
theorem refreshTaskStep_inv (s : PlotManager) (fs : FileSystem) (now : ℚ)
    (hndfs : (fsPaths fs).Nodup)
    (hcfn : CacheFilenameOk s.cache.data)
    (hinv : ManagerInv s) :
    ManagerInv (refreshTaskStep s fs now)
    ∧ CacheFilenameOk (refreshTaskStep s fs now).cache.data := by
  unfold refreshTaskStep
  cases hrb : runCycleBody s fs now with
  | ok out =>
    constructor
    · exact runCycleBody_inv s fs now hndfs hcfn hinv out hrb
    · exact (runCycleBody_cfn s fs now hcfn).1 out hrb
  | error es =>
    constructor
    · refine ⟨List.nodup_nil, List.nodup_nil, ?_, ?_⟩
      · intro p hp
        have hp2 : (none : Option PlotInfo).isSome = true := hp
        cases hp2
      · intro fn e he
        have he2 : (none : Option (String × List String)) = some e := he
        cases he2
    · exact (runCycleBody_cfn s fs now hcfn).2 es hrb

/-- The manager states reachable through its public operations:
construction, key configuration, `reset`, `trigger_refresh`,
`start_refreshing`/`stop_refreshing` (which only flip
`_refreshing_enabled`), and refresh-task iterations over filesystem
snapshots without duplicate directory entries. -/
inductive ReachableM : PlotManager → Prop where
  | init : ∀ ms flag param, ReachableM (PlotManager.init ms flag param)
  | set_keys : ∀ s fks pks, ReachableM s → ReachableM (s.set_public_keys fks pks)
  | reset : ∀ s now, ReachableM s → ReachableM (s.reset now)
  | trigger : ∀ s, ReachableM s → ReachableM s.trigger_refresh
  | start : ∀ s, ReachableM s → ReachableM { s with refreshing_enabled := true }
  | stop : ∀ s, ReachableM s → ReachableM { s with refreshing_enabled := false }
  | step : ∀ s fs now, ReachableM s → (fsPaths fs).Nodup →
      ReachableM (refreshTaskStep s fs now)

/-- Every reachable manager state satisfies the registry invariant and
cache filename honesty. -/
theorem reachable_inv {s : PlotManager} (h : ReachableM s) :
    ManagerInv s ∧ CacheFilenameOk s.cache.data := by
  induction h with
  | init ms flag param =>
    refine ⟨⟨List.nodup_nil, List.nodup_nil, ?_, ?_⟩, ?_⟩
    · intro p hp
      have hp2 : (none : Option PlotInfo).isSome = true := hp
      cases hp2
    · intro fn e he
      have he2 : (none : Option (String × List String)) = some e := he
      cases he2
    · intro pe hpe
      cases hpe
  | set_keys s fks pks hr ih =>
    exact ih
  | reset s now hr ih =>
    refine ⟨⟨List.nodup_nil, List.nodup_nil, ?_, ?_⟩, ih.2⟩
    · intro p hp
      have hp2 : (none : Option PlotInfo).isSome = true := hp
      cases hp2
    · intro fn e he
      have he2 : (none : Option (String × List String)) = some e := he
      cases he2
  | trigger s hr ih =>
    exact ih
  | start s hr ih =>
    exact ih
  | stop s hr ih =>
    exact ih
  | step s fs now hr hnd ih =>
    exact refreshTaskStep_inv s fs now hnd ih.2 ih.1

/-- Two configured directories holding the same plot filename. -/
def fsDupC6 : FileSystem :=
  [(PathT.mk "A" "x.plot",
    FileData.mk 0 0 (some (1, some (ParsedPlotInfo.mk (Sum.inl 0) 0 0)))),
   (PathT.mk "B" "x.plot",
    FileData.mk 0 0 (some (1, some (ParsedPlotInfo.mk (Sum.inl 0) 0 0))))]

/-- The manager state after one refresh cycle of a freshly started manager
(no-key override set) over `fsDupC6`. -/
def sStarC6 : PlotManager :=
  refreshTaskStep
    { PlotManager.init none true (PlotsRefreshParameter.mk 120 1200 300) with
      refreshing_enabled := true }
    fsDupC6 1

/-- C6: at every manager state reachable through the public operations,
each plot filename is published at most once — two published paths
sharing a filename are the same path — and every path the duplicate
lookup reports is unpublished; concretely, with `A/x.plot` and
`B/x.plot` on disk one refresh cycle publishes exactly one of them and
`get_duplicates` reports exactly the other. -/
theorem duplicate_filename_registry :
    (∀ s, ReachableM s →
      (∀ p q : PathT, (alookup p s.plots).isSome = true →
          (alookup q s.plots).isSome = true → p.name = q.name → p = q)
      ∧ (∀ p ∈ s.get_duplicates, (alookup p s.plots).isSome = false))
    ∧ (alookup (PathT.mk "A" "x.plot") sStarC6.plots).isSome = true
    ∧ (alookup (PathT.mk "B" "x.plot") sStarC6.plots).isSome = false
    ∧ sStarC6.get_duplicates = [PathT.mk "B" "x.plot"] := by
  refine ⟨?_, ?_, ?_, ?_⟩
  · intro s hs
    obtain ⟨⟨m1, m2, m3, m4⟩, -⟩ := reachable_inv hs
    constructor
    · intro p q hp hq hname
      obtain ⟨e, he, he1⟩ := m3 p hp
      obtain ⟨e', he', he1'⟩ := m3 q hq
      rw [hname] at he
      rw [he'] at he
      injection he with he2
      subst he2
      have hpar : p.parent = q.parent := by rw [← he1, he1']
      cases p with
      | mk pp pn =>
        cases q with
        | mk qp qn =>
          have h1 : pp = qp := hpar
          have h2 : pn = qn := hname
          rw [h1, h2]
    · intro p hp
      obtain ⟨entry, hentry, hpmem⟩ := List.mem_flatMap.mp hp
      obtain ⟨d, hd, hpd⟩ := List.mem_map.mp hpmem
      have hent := alookup_of_mem_nodup hentry m2
      have hm4 := m4 entry.1 entry.2 hent d hd
      rw [hpd] at hm4
      exact hm4
  · rfl
  · rfl
  · rfl

/-- Witness for C6: the post-cycle state of the concrete duplicate
scenario is reachable, `B/x.plot` is reported by the duplicate lookup,
and instantiating the theorem there shows it is not published. -/
theorem duplicate_filename_registry_witness :
    ReachableM sStarC6
    ∧ (PathT.mk "B" "x.plot") ∈ sStarC6.get_duplicates
    ∧ (alookup (PathT.mk "B" "x.plot") sStarC6.plots).isSome = false :=
  ⟨ReachableM.step _ fsDupC6 1
      (ReachableM.start _
        (ReachableM.init none true (PlotsRefreshParameter.mk 120 1200 300)))
      (by decide),
   by decide,
   (duplicate_filename_registry.1 sStarC6
      (ReachableM.step _ fsDupC6 1
        (ReachableM.start _
          (ReachableM.init none true (PlotsRefreshParameter.mk 120 1200 300)))
        (by decide))).2
      (PathT.mk "B" "x.plot") (by decide)⟩

end PlotModel
